import Mathlib

/-!
Verification development for the LSML ("Listed Sections Markup Language") C
implementation (src/c/lsml.c, src/c/lsml.h).  The definitions below are a
shallow embedding of the C code: machine pointers are modelled as natural
numbers (arena offsets or allocation counters), byte buffers as `List Nat`
(each element a byte 0..255), the streaming character reader as a `List Nat`
together with the parser's two-character window, and fallible C code returns
an error code plus `Option`-wrapped out-parameter writes.  Every definition is
translated from the corresponding C function; deviations forced by the
functional setting (state passing instead of in-place mutation, an allocation
counter instead of machine addresses) are noted in the doc comments.
-/

set_option maxRecDepth 4000
set_option linter.unusedVariables false

namespace LSML

/-- Error codes of `lsml_err_t` / `lsml_errcode_enum` from lsml.h. -/
inductive lsml_err where
  | LSML_OK
  | LSML_ERR_OUT_OF_MEMORY
  | LSML_ERR_PARSE_ABORTED
  | LSML_ERR_NOT_FOUND
  | LSML_ERR_INVALID_DATA
  | LSML_ERR_INVALID_KEY
  | LSML_ERR_INVALID_SECTION
  | LSML_ERR_SECTION_TYPE
  | LSML_ERR_VALUE_NULL
  | LSML_ERR_VALUE_FORMAT
  | LSML_ERR_VALUE_RANGE
  | LSML_ERR_MISSING_END_QUOTE
  | LSML_ERR_TEXT_INVALID_ESCAPE
  | LSML_ERR_TEXT_OUTSIDE_SECTION
  | LSML_ERR_TEXT_AFTER_END_QUOTE
  | LSML_ERR_TEXT_AFTER_SECTION_HEADER
  | LSML_ERR_SECTION_HEADER_UNCLOSED
  | LSML_ERR_SECTION_NAME_EMPTY
  | LSML_ERR_SECTION_NAME_REUSED
  | LSML_ERR_TABLE_KEY_REUSED
  | LSML_ERR_TABLE_ENTRY_MISSING_EQUALS
  deriving DecidableEq, Repr

open lsml_err

/-- Section type constants from lsml.h (`LSML_TABLE`, `LSML_ARRAY`,
`LSML_ANYSECTION`). -/
inductive lsml_section_type where
  | LSML_TABLE
  | LSML_ARRAY
  | LSML_ANYSECTION
  deriving DecidableEq, Repr

open lsml_section_type

/-- Modulus for 32-bit unsigned arithmetic (`lsml_index_t` is `uint32_t`). -/
def M32 : Nat := 4294967296

/-- The chunk length `LSML_CHUNK_LEN = 8*sizeof(void*)`, on the usual 64-bit
platform (sizeof(void*) = 8) this is 64.  It is a power of two, as the source
requires when `LSML_CHUNK_LEN_IS_POW2` is defined. -/
def LSML_CHUNK_LEN : Nat := 64

/-- Byte value of a character (used to spell out the byte constants the
C source writes as character literals). -/
def byteOf (c : Char) : Nat := c.toNat

/-- Converts a Lean string to the byte list the C code would see.  All the
concrete inputs used below are ASCII, so one char is one byte. -/
def bytesOf (s : String) : List Nat := s.toList.map Char.toNat

/-- Reads byte `i` of a buffer.  LSML strings are null-terminated
(lsml.c invariant comment), so reading one past the logical length yields the
terminator byte 0; the model extends that convention to every out-of-range
read. -/
def getByte (l : List Nat) (i : Nat) : Nat := (l.get? i).getD 0

/-- Translation of `lsml_isspace` (lsml.c:1047): space, tab, CR, LF.
The C function takes an `int` because the parser works on the reader's
`int` characters (with -1 for end of input). -/
def lsml_isspace (c : Int) : Bool :=
  c = 32 || c = 9 || c = 13 || c = 10

/-- One step of the string hash (body of the loop of `lsml_hash_string`,
lsml.c:265): `h ^= ((h<<5) + (h>>2) + byte)` in 32-bit arithmetic. -/
def lsml_hash_step (h b : Nat) : Nat :=
  Nat.xor h ((h * 32 % M32 + h / 4 + b) % M32)

/-- Translation of `lsml_hash_string` (lsml.c:265): seed with the 32-bit
truncated length, then fold `lsml_hash_step` over the bytes from last to
first (the C loop runs `l` from `len` down to 1 reading `str[l-1]`). -/
def lsml_hash_string (bytes : List Nat) : Nat :=
  bytes.reverse.foldl lsml_hash_step (bytes.length % M32)

/-- Translation of `lsml_mod_chunklen` (lsml.c:276).  The C code computes
`a & (b-1)` under `LSML_CHUNK_LEN_IS_POW2`, which equals `a % b` because `b`
is always a power of two (a power-of-two chunk length times a
power-of-two chunk count). -/
def lsml_mod_chunklen (a b : Nat) : Nat := a % b

-- ---------------------------------------------------------------------------
-- Arena (bump allocator)
-- ---------------------------------------------------------------------------

/-- Translation of `lsml_bump_alloc_t` (lsml.c:74).  The base pointer `mem`
is dropped: all pointers in the model are offsets from `mem`. -/
structure lsml_bump_alloc_t where
  offset : Nat
  size : Nat
  deriving DecidableEq, Repr

/-- Alignment computation of `lsml_bump_alloc` (lsml.c:169):
`(offset + (align-1)) & ~(align-1)`.  For a power-of-two `align` the bit
trick rounds `offset + align - 1` down to a multiple of `align`, which is
what this arithmetic definition computes. -/
def lsml_align_up (offset align : Nat) : Nat :=
  (offset + (align - 1)) - (offset + (align - 1)) % align

/-- Translation of `lsml_bump_alloc` (lsml.c:168-174).  Returns the offset
of the allocation and the advanced arena, or `none` where the C function
returns `NULL`.  Note the C comparison is `aligned_offset + size >= alloc->size`
(greater or equal). -/
def lsml_bump_alloc (alloc : lsml_bump_alloc_t) (size align : Nat) :
    Option (Nat × lsml_bump_alloc_t) :=
  let aligned_offset := lsml_align_up alloc.offset align
  if aligned_offset + size ≥ alloc.size then none
  else some (aligned_offset, { alloc with offset := aligned_offset + size })

-- ---------------------------------------------------------------------------
-- Value interpreters: 64-bit integer parsing and narrowing wrappers
-- ---------------------------------------------------------------------------

/-- Character classifier of the C library `isspace` in the "C" locale:
space, \t, \n, \v, \f, \r. -/
def c_isspace (b : Nat) : Bool :=
  b = 32 || b = 9 || b = 10 || b = 11 || b = 12 || b = 13

/-- Digit value of byte `b` in a given base, `none` when `b` is not a valid
digit (0-9, a-z, A-Z as in strtoll). -/
def digitVal (base b : Nat) : Option Nat :=
  let v :=
    if 48 ≤ b && b ≤ 57 then some (b - 48)
    else if 97 ≤ b && b ≤ 122 then some (b - 97 + 10)
    else if 65 ≤ b && b ≤ 90 then some (b - 65 + 10)
    else none
  match v with
  | some d => if d < base then some d else none
  | none => none

/-- Structural worker for `scanDigits`, walking the suffix of the buffer
that starts at the current index. -/
def scanDigitsGo (base : Nat) : List Nat → Nat → Nat → Nat → Nat × Nat × Nat
  | [], i, acc, cnt => (acc, i, cnt)
  | b :: rest, i, acc, cnt =>
    match digitVal base b with
    | some d => scanDigitsGo base rest (i + 1) (acc * base + d) (cnt + 1)
    | none => (acc, i, cnt)

/-- Greedy digit scan used by the strtoll/strtoull models: starting at index
`i`, accumulate digits of `base`, returning the value, the index after the
last digit and the number of digits consumed. -/
def scanDigits (l : List Nat) (base : Nat) (i acc cnt : Nat) : Nat × Nat × Nat :=
  scanDigitsGo base (l.drop i) i acc cnt

/-- Structural worker for `wsScanEnd`. -/
def wsScanGo : List Nat → Nat → Nat
  | [], i => i
  | b :: rest, i => if c_isspace b then wsScanGo rest (i + 1) else i

/-- Index of the first byte at or after `i` that is not C `isspace`
whitespace (helper for the strtoll/strtod models). -/
def wsScanEnd (l : List Nat) (i : Nat) : Nat :=
  wsScanGo (l.drop i) i

/-- Modelled from the spec: the C library function `strtoll` (used by
`lsml_toll` but not part of this repository).  Skips `isspace` whitespace,
accepts an optional sign, for base 16 an optional `0x`/`0X`, then parses
digits of `base` greedily.  The result is the signed value clamped to the
64-bit range `[-2^63, 2^63-1]` together with the index one past the last
digit (the returned `endptr`; equal to 0 when no digits were converted) and
whether clamping occurred (`errno == ERANGE`).  The spec describes this path
as "parse digits in the detected base greedily" with "on overflow or
out-of-range, clamp to the type's min/max". -/
def strtoll_model (l : List Nat) (base : Nat) : Int × Nat × Bool :=
  let i0 := wsScanEnd l 0
  let (neg, i1) :=
    if getByte l i0 = 45 then (true, i0 + 1)
    else if getByte l i0 = 43 then (false, i0 + 1)
    else (false, i0)
  let hex0x :=
    base = 16 && getByte l i1 = 48 &&
      (getByte l (i1+1) = 120 || getByte l (i1+1) = 88)
  let i2 := if hex0x then i1 + 2 else i1
  let (acc, iend, cnt) := scanDigits l base i2 0 0
  if cnt = 0 then
    -- with no digits after a consumed "0x", strtoll converts just the "0"
    if hex0x then (0, i1 + 1, false) else (0, 0, false)
  else
    let v : Int := if neg then -(acc : Int) else (acc : Int)
    if v > (9223372036854775807 : Int) then (9223372036854775807, iend, true)
    else if v < (-9223372036854775808 : Int) then (-9223372036854775808, iend, true)
    else (v, iend, false)

/-- Modelled from the spec: the C library function `strtoull` (used by
`lsml_toull`).  Like `strtoll_model` but clamping to `[0, 2^64-1]`; a
leading minus sign makes strtoull return the negated value reduced mod
2^64 (the C standard's "unsigned conversion"), which for any nonzero
magnitude is out of the claims' interest; the model follows the standard:
value `(2^64 - acc) mod 2^64` with range error only if `acc > 2^64-1`. -/
def strtoull_model (l : List Nat) (base : Nat) : Nat × Nat × Bool :=
  let i0 := wsScanEnd l 0
  let (neg, i1) :=
    if getByte l i0 = 45 then (true, i0 + 1)
    else if getByte l i0 = 43 then (false, i0 + 1)
    else (false, i0)
  let hex0x :=
    base = 16 && getByte l i1 = 48 &&
      (getByte l (i1+1) = 120 || getByte l (i1+1) = 88)
  let i2 := if hex0x then i1 + 2 else i1
  let (acc, iend, cnt) := scanDigits l base i2 0 0
  if cnt = 0 then
    if hex0x then (0, i1 + 1, false) else (0, 0, false)
  else
    if acc > 18446744073709551615 then (18446744073709551615, iend, true)
    else if neg then ((18446744073709551616 - acc) % 18446744073709551616, iend, false)
    else (acc, iend, false)

/-- Scan of the fractional digits for the strtod model: returns numerator and
count of digits. -/
def scanFrac (l : List Nat) (i num cnt : Nat) : Nat × Nat × Nat :=
  scanDigitsGo 10 (l.drop i) i num cnt

/-- Exact decimal value `num / den` produced by the strtod model.  The
denominator is always a positive power of ten; the fraction is deliberately
kept unnormalized (no gcd) so that the kernel can evaluate it. -/
structure decFloat where
  num : Int
  den : Nat
  deriving DecidableEq, Repr

/-- Comparison `q > z` for an integer bound `z` (exact, using the positive
denominator). -/
def decFloatGtInt (q : decFloat) (z : Int) : Bool := q.num > z * q.den

/-- Comparison `q < z` for an integer bound `z`. -/
def decFloatLtInt (q : decFloat) (z : Int) : Bool := q.num < z * q.den

/-- Truncation of the exact value toward zero, the semantics of the C cast
`(long long) d` for an in-range double `d`. -/
def decFloatTrunc (q : decFloat) : Int :=
  if 0 ≤ q.num then (q.num.toNat / q.den : Nat)
  else -(((-q.num).toNat / q.den : Nat) : Int)

/-- Exactness test `q = z`, the model of the C comparison
`d == (double) v`. -/
def decFloatIsInt (q : decFloat) (z : Int) : Bool := q.num = z * q.den

/-- Modelled from the spec: the C library function `strtod` (used by the
"float fallback" of the integer interpreters and described in the spec as
"re-parse from the original start as a decimal float").  The model parses
sign, integer digits, an optional fraction and an optional exponent, and
returns the exact decimal value together with the endptr index (0 when no
conversion).  Rounding to the nearest double is not modelled: every concrete
input evaluated in this file has an exactly representable value.  Hex
floats and inf/nan literals are not modelled (the long-form spec notes the
source does not special-case them). -/
def strtod_model (l : List Nat) : decFloat × Nat :=
  let i0 := wsScanEnd l 0
  let (neg, i1) :=
    if getByte l i0 = 45 then (true, i0 + 1)
    else if getByte l i0 = 43 then (false, i0 + 1)
    else (false, i0)
  let (ipart, i2, icnt) := scanDigits l 10 i1 0 0
  let (fnum, i3, fcnt) :=
    if getByte l i2 = 46 then scanFrac l (i2 + 1) 0 0
    else (0, i2, 0)
  -- the '.' is consumed only if it is there; with no digits at all there is
  -- no conversion
  if icnt = 0 && fcnt = 0 then (⟨0, 1⟩, 0)
  else
    let i3' := if getByte l i2 = 46 then i3 else i2
    let mant : decFloat := ⟨(ipart * 10 ^ fcnt + fnum : Nat), 10 ^ fcnt⟩
    -- optional exponent: requires at least one digit, else it is not consumed
    let (value, iend) :=
      if getByte l i3' = 101 || getByte l i3' = 69 then
        let (eneg, i4) :=
          if getByte l (i3' + 1) = 45 then (true, i3' + 2)
          else if getByte l (i3' + 1) = 43 then (false, i3' + 2)
          else (false, i3' + 1)
        let (e, i5, ecnt) := scanDigits l 10 i4 0 0
        if ecnt = 0 then (mant, i3')
        else if eneg then (⟨mant.num, mant.den * 10 ^ e⟩, i5)
        else (⟨mant.num * 10 ^ e, mant.den⟩, i5)
      else (mant, i3')
    (if neg then ⟨-value.num, value.den⟩ else value, iend)

/-- The INT_MIN / INT_MAX bounds of a 32-bit `int`. -/
def INT_MIN : Int := -2147483648
/-- Upper bound of a 32-bit `int`. -/
def INT_MAX : Int := 2147483647
/-- Lower bound of a 64-bit `long long`. -/
def LLONG_MIN : Int := -9223372036854775808
/-- Upper bound of a 64-bit `long long`. -/
def LLONG_MAX : Int := 9223372036854775807
/-- Bounds of `long` and `unsigned long`; the model takes the LP64 platform
of the source's defaults, where `long` is 64 bits. -/
def LONG_MIN : Int := -9223372036854775808
/-- Upper bound of `long` on LP64. -/
def LONG_MAX : Int := 9223372036854775807
/-- Upper bound of a 32-bit `unsigned int`. -/
def UINT_MAX : Nat := 4294967295
/-- Upper bound of `unsigned long` on LP64. -/
def ULONG_MAX : Nat := 18446744073709551615
/-- Upper bound of `unsigned long long`. -/
def ULLONG_MAX : Nat := 18446744073709551615

/-- Translation of `lsml_toll` (lsml.c:1661-1717).  The `str == NULL` and
`val == NULL` cases are not modelled (the model's byte list is never NULL
and the out-pointer is always supplied); the second component is the value
written through the out-pointer, `none` when the C function returns without
writing. -/
def lsml_toll (str0 : List Nat) : lsml_err × Option Int :=
  -- leading whitespace skip: while (lsml_isspace(str.str[0]) && str.len > 0)
  let str := str0.dropWhile (fun b => lsml_isspace (Int.ofNat b))
  if str.length = 0 then (LSML_ERR_VALUE_FORMAT, none)
  else
    -- base prefix detection, with an optional leading '-' (lsml.c:1670-1691)
    let (base, negative, str) :=
      if str.length ≥ 3 && getByte str 0 = 45 && getByte str 1 = 48 then
        match getByte str 2 with
        | 120 => (16, true, str.drop 3) | 88 => (16, true, str.drop 3)
        | 111 => (8, true, str.drop 3) | 79 => (8, true, str.drop 3)
        | 98 => (2, true, str.drop 3) | 66 => (2, true, str.drop 3)
        | _ => (10, false, str)
      else if str.length ≥ 2 && getByte str 0 = 48 then
        match getByte str 1 with
        | 120 => (16, false, str.drop 2) | 88 => (16, false, str.drop 2)
        | 111 => (8, false, str.drop 2) | 79 => (8, false, str.drop 2)
        | 98 => (2, false, str.drop 2) | 66 => (2, false, str.drop 2)
        | _ => (10, false, str)
      else (10, false, str)
    let (v0, end0, range0) := strtoll_model str base
    -- float fallback (lsml.c:1694-1706)
    let (v1, end1, range1) :=
      if end0 ≠ 0 && base = 10 &&
          (getByte str end0 = 46 || getByte str end0 = 101 || getByte str end0 = 69) then
        let (d, dend) := strtod_model str
        if decFloatGtInt d LLONG_MAX then (LLONG_MAX, dend, true)
        else if decFloatLtInt d LLONG_MIN then (LLONG_MIN, dend, true)
        else
          let t := decFloatTrunc d
          (t, dend, !(decFloatIsInt d t))
      else (v0, end0, range0)
    let v2 := if base ≠ 10 && negative then -v1 else v1
    if end1 = 0 then (LSML_ERR_VALUE_FORMAT, none)
    else if range1 then (LSML_ERR_VALUE_RANGE, some v2)
    else (LSML_OK, some v2)

/-- Translation of `lsml_toull` (lsml.c:1743-1785); same conventions as
`lsml_toll`.  Note the unsigned variant accepts no "-0x" prefix. -/
def lsml_toull (str0 : List Nat) : lsml_err × Option Nat :=
  let str := str0.dropWhile (fun b => lsml_isspace (Int.ofNat b))
  if str.length = 0 then (LSML_ERR_VALUE_FORMAT, none)
  else
    let (base, str) :=
      if str.length ≥ 2 && getByte str 0 = 48 then
        match getByte str 1 with
        | 120 => (16, str.drop 2) | 88 => (16, str.drop 2)
        | 111 => (8, str.drop 2) | 79 => (8, str.drop 2)
        | 98 => (2, str.drop 2) | 66 => (2, str.drop 2)
        | _ => (10, str)
      else (10, str)
    let (v0, end0, range0) := strtoull_model str base
    let (v1, end1, range1) :=
      if end0 ≠ 0 && base = 10 &&
          (getByte str end0 = 46 || getByte str end0 = 101 || getByte str end0 = 69) then
        let (d, dend) := strtod_model str
        if decFloatGtInt d (ULLONG_MAX : Int) then (ULLONG_MAX, dend, true)
        else if decFloatLtInt d 0 then (0, dend, true)
        else
          -- the C writes `v = (long long) d` here (a slip preserved from the
          -- source: the value is nonnegative so the cast agrees with the
          -- unsigned truncation for d <= 2^63-1, the range of all concrete
          -- inputs evaluated below)
          let t := (decFloatTrunc d).toNat
          (t, dend, !(decFloatIsInt d (t : Int)))
      else (v0, end0, range0)
    if end1 = 0 then (LSML_ERR_VALUE_FORMAT, none)
    else if range1 then (LSML_ERR_VALUE_RANGE, some v1)
    else (LSML_OK, some v1)

/-- Translation of `lsml_toi` (lsml.c:1631-1644).  The local `long long ll`
is initialized to 0 and written by `lsml_toll` through its out pointer; the
result's second component is what `lsml_toi` writes through `*val` (`none`
when it returns without writing). -/
def lsml_toi (str : List Nat) : lsml_err × Option Int :=
  let (err, llw) := lsml_toll str
  let ll := llw.getD 0
  if err ≠ LSML_ERR_VALUE_RANGE then (err, none)
  else if ll < INT_MIN then (LSML_ERR_VALUE_RANGE, some INT_MIN)
  else if ll > INT_MAX then (LSML_ERR_VALUE_RANGE, some INT_MAX)
  else (LSML_OK, some ll)

/-- Translation of `lsml_tol` (lsml.c:1646-1659), with LP64 `long`. -/
def lsml_tol (str : List Nat) : lsml_err × Option Int :=
  let (err, llw) := lsml_toll str
  let ll := llw.getD 0
  if err ≠ LSML_ERR_VALUE_RANGE then (err, none)
  else if ll < LONG_MIN then (LSML_ERR_VALUE_RANGE, some LONG_MIN)
  else if ll > LONG_MAX then (LSML_ERR_VALUE_RANGE, some LONG_MAX)
  else (LSML_OK, some ll)

/-- Translation of `lsml_tou` (lsml.c:1719-1729).  Note the local
`unsigned long long ull` of the C function is uninitialized; the model keeps
the same `getD 0` convention as `lsml_toi` (the value is only read in the
`VALUE_RANGE` case, where `lsml_toull` always has written it). -/
def lsml_tou (str : List Nat) : lsml_err × Option Nat :=
  let (err, ullw) := lsml_toull str
  let ull := ullw.getD 0
  if err ≠ LSML_ERR_VALUE_RANGE then (err, none)
  else if ull > UINT_MAX then (LSML_ERR_VALUE_RANGE, some UINT_MAX)
  else (LSML_OK, some ull)

/-- Translation of `lsml_toul` (lsml.c:1731-1741), with LP64
`unsigned long`. -/
def lsml_toul (str : List Nat) : lsml_err × Option Nat :=
  let (err, ullw) := lsml_toull str
  let ull := ullw.getD 0
  if err ≠ LSML_ERR_VALUE_RANGE then (err, none)
  else if ull > ULONG_MAX then (LSML_ERR_VALUE_RANGE, some ULONG_MAX)
  else (LSML_OK, some ull)

-- ---------------------------------------------------------------------------
-- Value interpreter: section references (lsml_toref)
-- ---------------------------------------------------------------------------

/-- Structural worker for `torefWsScan`: advances while at least two bytes
remain in the suffix (i.e. `cur != end-1`) and the current byte is
whitespace. -/
def torefWsGo : List Nat → Nat → Nat
  | b :: c :: rest, i =>
    if lsml_isspace (Int.ofNat b) then torefWsGo (c :: rest) (i + 1) else i
  | _, i => i

/-- Scan of the whitespace loop of `lsml_toref` (lsml.c:1907-1909):
`while (cur != (end-1) && lsml_isspace(*cur)) cur++`, with `cur` as an index
and `end-1` as index `len - 1`.  For `len = 0` the C compares against the
pointer one before the buffer and reads out of bounds (undefined behavior);
the model stops immediately in that case. -/
def torefWsScan (str : List Nat) (i : Nat) : Nat :=
  torefWsGo (str.drop i) i

/-- Translation of `lsml_toref` (lsml.c:1903-1932), with both out pointers
supplied.  Returns the error code, the value written through `ref_type`, and
the value written through `ref_name` (the borrowed remainder slice). -/
def lsml_toref (str : List Nat) :
    lsml_err × Option lsml_section_type × Option (List Nat) :=
  let len := str.length
  let cur := torefWsScan str 0
  if cur = len - 1
      || (getByte str cur = 123 && getByte str (cur+1) ≠ 125)
      || (getByte str cur = 91 && getByte str (cur+1) ≠ 93) then
    (LSML_ERR_VALUE_FORMAT, none, none)
  else
    let ty :=
      if getByte str cur = 123 then LSML_TABLE
      else if getByte str cur = 91 then LSML_ARRAY
      else LSML_ANYSECTION
    (LSML_OK, some ty, some (str.drop (cur + 2)))

-- ---------------------------------------------------------------------------
-- Chunked hashmap (generic over the entry payload)
-- ---------------------------------------------------------------------------

/-- Translation of `lsml_reg_str_t` (lsml.c:81): an interned string record
with its cached 32-bit hash.  The field `id` models the machine address of
the record (taken from the bump allocator when the record is created);
pointer comparison of two `lsml_reg_str_t*` values is modelled as equality
of `id`. -/
structure lsml_reg_str_t where
  id : Nat
  bytes : List Nat
  hash : Nat
  deriving DecidableEq, Repr

/-- Translation of `lsml_hm_node_t` (lsml.c:87) together with the payload
that the concrete node types (`lsml_table_node_t`, `lsml_section_t`) append
after the common header.  The `next` pointer is modelled by the position in
the bucket's chain list; `addr` records the node's bump-allocation address. -/
structure hmNode (α : Type) where
  addr : Nat
  str : lsml_reg_str_t
  payload : α
  deriving DecidableEq, Repr

/-- A collision chain (the linked list hanging off one bucket). -/
abbrev Bucket (α : Type) := List (hmNode α)

/-- One bucket chunk: the `elems`/`buckets` array of a `lsml_cha_chunk_t`
(always of length `LSML_CHUNK_LEN`). -/
abbrev HChunk (α : Type) := List (Bucket α)

/-- A freshly allocated, zeroed bucket chunk. -/
def zeroChunk (α : Type) : HChunk α := List.replicate LSML_CHUNK_LEN []

/-- The head/tail/count triple each container keeps for its bucket chunks
(`sections_head/sections_tail/n_section_chunks` and so on).  `chunks` is the
list of chunks reachable from the head via `next` pointers; `tailIdx` is the
position in that list of the chunk the tail pointer points to (normally the
last). -/
structure chunkedHM (α : Type) where
  chunks : List (HChunk α)
  tailIdx : Nat
  nChunks : Nat
  deriving DecidableEq, Repr

/-- Walk of the chunk list performed by `lsml_cha_get_bucket` (lsml.c:251):
skip a whole chunk while the index is at least `LSML_CHUNK_LEN`, then take
the slot. -/
def chunkWalk {α : Type} : List (HChunk α) → Nat → Option (Bucket α)
  | [], _ => none
  | c :: rest, i =>
    if i ≥ LSML_CHUNK_LEN then chunkWalk rest (i - LSML_CHUNK_LEN) else c.get? i

/-- Translation of `lsml_cha_get_bucket` (lsml.c:251-260): `none` models the
C function returning `NULL` (header `NULL`, index beyond `n_chunks`
capacity, or chunk list shorter than the index requires). -/
def lsml_cha_get_bucket {α : Type} (cs : List (HChunk α)) (nChunks i : Nat) :
    Option (Bucket α) :=
  if cs.isEmpty || i ≥ nChunks * LSML_CHUNK_LEN then none
  else chunkWalk cs i

/-- Writes bucket `i` (flat index) of the chunk list, leaving everything else
unchanged; the model of the C code mutating `*bucket_ptr` or a node's `next`
within the chain at that bucket. -/
def chunkSet {α : Type} : List (HChunk α) → Nat → Bucket α → List (HChunk α)
  | [], _, _ => []
  | c :: rest, i, b =>
    if i ≥ LSML_CHUNK_LEN then c :: chunkSet rest (i - LSML_CHUNK_LEN) b
    else c.set i b :: rest

/-- Translation of `lsml_hm_get_node` (lsml.c:286-299): lookup by
`(length, bytes)` equality (`lsml_string_eq`). -/
def lsml_hm_get_node {α : Type} (cs : List (HChunk α)) (nChunks : Nat)
    (key : List Nat) : Option (hmNode α) :=
  let cap := nChunks * LSML_CHUNK_LEN
  let index := lsml_mod_chunklen (lsml_hash_string key) cap
  match lsml_cha_get_bucket cs nChunks index with
  | none => none
  | some bucket => bucket.find? (fun n => n.str.bytes == key)

/-- Translation of `lsml_hm_get_node_reg` (lsml.c:303-316): lookup by
pointer identity of the registered string (modelled as `id` equality).
Note the bucket index is recomputed from the bytes
(`lsml_hash_string(&key->string)`), not read from the cached hash. -/
def lsml_hm_get_node_reg {α : Type} (cs : List (HChunk α)) (nChunks : Nat)
    (key : lsml_reg_str_t) : Option (hmNode α) :=
  let cap := nChunks * LSML_CHUNK_LEN
  let index := lsml_mod_chunklen (lsml_hash_string key.bytes) cap
  match lsml_cha_get_bucket cs nChunks index with
  | none => none
  | some bucket => bucket.find? (fun n => n.str.id == key.id)

/-- Pointer alignment used for every arena allocation of a node, record or
chunk (`LSML_ALIGNOF` of a pointer-containing struct on the usual 64-bit
platform). -/
def PTR_ALIGN : Nat := 8
/-- Byte size of `lsml_hm_node_t` (two pointers). -/
def SIZEOF_HM_NODE : Nat := 16
/-- Byte size of `lsml_reg_str_t` (pointer + size + uint32, padded). -/
def SIZEOF_REG_STR : Nat := 24
/-- Byte size of `lsml_cha_chunk_t` and its layout-identical chunk types. -/
def SIZEOF_CHA_CHUNK : Nat := 8 + 8 * LSML_CHUNK_LEN
/-- Byte size of `lsml_section_t`. -/
def SIZEOF_SECTION : Nat := 64
/-- Byte size of `lsml_table_node_t`. -/
def SIZEOF_TABLE_NODE : Nat := 24
/-- Byte size of `lsml_rows_index_t`. -/
def SIZEOF_ROWS_INDEX : Nat := 16
/-- Byte size of `lsml_data_t`. -/
def SIZEOF_DATA : Nat := 88

/-- Result of `lsml_hm_get_or_create_node`: the node (or `none` where the C
returns `NULL`), the `was_created` out parameter, and the threaded state. -/
structure gocResult (α : Type) where
  node : Option (hmNode α)
  was_created : Bool
  alloc : lsml_bump_alloc_t
  chunks : List (HChunk α)
  n_elems : Nat
  deriving Repr

/-- Translation of `lsml_hm_get_or_create_node` (lsml.c:321-358).  The walk
compares `node->str == key` by pointer (id); a missing bucket (the
commented-out `assert` case, where the C would dereference `NULL`) returns
the `NULL` node with the state unchanged.  A newly created node is
zero-initialized (`memset`), modelled by the caller-supplied zero payload
`z`, and appended at the end of the collision chain. -/
def lsml_hm_get_or_create_node {α : Type} (alloc : lsml_bump_alloc_t)
    (cs : List (HChunk α)) (n_elems nChunks : Nat) (key : lsml_reg_str_t)
    (node_size : Nat) (z : α) : gocResult α :=
  let cap := nChunks * LSML_CHUNK_LEN
  let index := lsml_mod_chunklen key.hash cap
  match lsml_cha_get_bucket cs nChunks index with
  | none => ⟨none, false, alloc, cs, n_elems⟩
  | some bucket =>
    match bucket.find? (fun n => n.str.id == key.id) with
    | some n => ⟨some n, false, alloc, cs, n_elems⟩
    | none =>
      match lsml_bump_alloc alloc node_size PTR_ALIGN with
      | none => ⟨none, false, alloc, cs, n_elems⟩
      | some (addr, alloc') =>
        let node : hmNode α := ⟨addr, key, z⟩
        ⟨some node, true, alloc', chunkSet cs index (bucket ++ [node]), n_elems + 1⟩

/-- Translation of `lsml_hm_put_node_internal` (lsml.c:363-376): append the
(already unlinked) node at the end of the chain at flat bucket `index`.
When the bucket does not exist the C returns `NOT_FOUND` without linking,
which silently drops the node; the model does the same. -/
def lsml_hm_put_node_internal {α : Type} (cs : List (HChunk α))
    (nChunks : Nat) (node : hmNode α) (index : Nat) :
    lsml_err × List (HChunk α) :=
  match lsml_cha_get_bucket cs nChunks index with
  | none => (LSML_ERR_NOT_FOUND, cs)
  | some bucket => (LSML_OK, chunkSet cs index (bucket ++ [node]))

/-- Chunk allocation loop of the rehash (lsml.c:409-419): allocate `count`
zeroed chunks one at a time, returning the chunks allocated so far and
whether all allocations succeeded. -/
def rehashAllocLoop {α : Type} (alloc : lsml_bump_alloc_t) :
    Nat → List (HChunk α) → lsml_bump_alloc_t × List (HChunk α) × Bool
  | 0, acc => (alloc, acc, true)
  | n + 1, acc =>
    match lsml_bump_alloc alloc SIZEOF_CHA_CHUNK PTR_ALIGN with
    | none => (alloc, acc, false)
    | some (_, alloc') => rehashAllocLoop alloc' n (acc ++ [zeroChunk α])

/-- Relocation walk over one collision chain (inner `while (curnode)` loop of
`lsml_hm_rehash_if_needed`, lsml.c:431-451): a node whose bucket index is
unchanged under the doubled capacity stays (in chain order); a node whose
index changed is unlinked and appended to its new bucket via
`lsml_hm_put_node_internal`.  Returns the surviving chain and the chunk list
after all puts. -/
def relocNodes {α : Type} (newN oldCap newCap : Nat) :
    List (HChunk α) → Bucket α → Bucket α × List (HChunk α)
  | cs, [] => ([], cs)
  | cs, n :: rest =>
    let hash := n.str.hash
    let oldindex := lsml_mod_chunklen hash oldCap
    let newindex := lsml_mod_chunklen hash newCap
    if oldindex = newindex then
      let (kept, cs') := relocNodes newN oldCap newCap cs rest
      (n :: kept, cs')
    else
      let cs1 := (lsml_hm_put_node_internal cs newN n newindex).2
      relocNodes newN oldCap newCap cs1 rest

/-- Relocation walk over the original buckets (the nested chunk/bucket loops
of lsml.c:426-456).  The C iterates the chunks from the head up to and
including the old tail chunk (`old_last_cha`) and within each chunk the
`LSML_CHUNK_LEN` buckets in order, which is exactly the flat bucket indices
`0, 1, ..., bound-1`. -/
def relocAll {α : Type} (newN oldCap newCap : Nat) :
    List (HChunk α) → Nat → Nat → List (HChunk α)
  | cs, _, 0 => cs
  | cs, f, count + 1 =>
    let chain := (chunkWalk cs f).getD []
    let (kept, cs1) := relocNodes newN oldCap newCap cs chain
    relocAll newN oldCap newCap (chunkSet cs1 f kept) (f + 1) count

/-- Translation of `lsml_hm_rehash_if_needed` (lsml.c:382-460) with the
default load factor 0.8 (`LSML_LOAD_FACTOR` neither 1 nor 2): rehash when
`n_elems + n_elems/4 > old_cap`.  New chunks are linked starting at the tail
chunk (`cha = *buckets_cha_tail; ...; cha->next = newcha`), so linking the
first new chunk discards whatever the old tail's `next` pointed to; if the
very first allocation fails nothing was linked and the chunk list is exactly
the old one.  On failure the arena cursor is restored to its pre-rehash
value and `n_chunks`/tail are left unchanged. -/
def lsml_hm_rehash_if_needed {α : Type} (alloc : lsml_bump_alloc_t)
    (hm : chunkedHM α) (n_elems : Nat) :
    lsml_err × lsml_bump_alloc_t × chunkedHM α :=
  if hm.nChunks = 0 then (LSML_OK, alloc, hm)
  else
    let old_n_chunks := hm.nChunks
    let old_cap := old_n_chunks * LSML_CHUNK_LEN
    if n_elems + n_elems / 4 ≤ old_cap then (LSML_OK, alloc, hm)
    else
      let og_offset := alloc.offset
      let base := hm.chunks.take (hm.tailIdx + 1)
      match rehashAllocLoop alloc old_n_chunks [] with
      | (allocF, newPart, false) =>
        let chunks' := if newPart.isEmpty then hm.chunks else base ++ newPart
        (LSML_ERR_OUT_OF_MEMORY, { allocF with offset := og_offset },
          { hm with chunks := chunks' })
      | (alloc2, newChunks, true) =>
        let chunks1 := base ++ newChunks
        let new_n_chunks := 2 * old_n_chunks
        let new_cap := 2 * old_cap
        let bound := (hm.tailIdx + 1) * LSML_CHUNK_LEN
        let chunks2 := relocAll new_n_chunks old_cap new_cap chunks1 0 bound
        (LSML_OK, alloc2,
          { chunks := chunks2, tailIdx := hm.tailIdx + old_n_chunks,
            nChunks := new_n_chunks })

-- ---------------------------------------------------------------------------
-- Sections and the document
-- ---------------------------------------------------------------------------

/-- The non-header fields of `lsml_section_t` (lsml.c:122-136), the payload a
section node carries after the common `lsml_hm_node_t` header.  The C union
of `table`/`array` first-chunk pointers is split into `tbl`/`arr`; as in the
source, which of the two is in use is determined by `row_indices`
(`NULL`/`none` means table).  `lastChunkIdx` is the position of the chunk
the `last_chunk` pointer points to, `row_indices` the linked list of row
start offsets (`some` with the list of `index` fields, in `next` order).
Table entry nodes carry the value pointer as payload: `none` models the
zero-initialized `NULL` value of a node that was created but not yet
assigned. -/
structure sectionBody where
  tbl : List (HChunk (Option Nat))
  arr : List (List (Option Nat))
  lastChunkIdx : Nat
  n_elems : Nat
  n_chunks : Nat
  row_indices : Option (List Nat)
  deriving DecidableEq, Repr

/-- A zero-initialized section body (`memset` by
`lsml_hm_get_or_create_node`). -/
def zeroSectionBody : sectionBody :=
  { tbl := [], arr := [], lastChunkIdx := 0, n_elems := 0, n_chunks := 0,
    row_indices := none }

/-- Translation of `lsml_data_t` (lsml.c:150-165).  Registered-string nodes
carry no payload (`Unit`). -/
structure lsml_data_t where
  alloc : lsml_bump_alloc_t
  sections : chunkedHM sectionBody
  n_sections : Nat
  strings : chunkedHM Unit
  n_strings : Nat
  deriving Repr

/-- Translation of `lsml_data_new` (lsml.c:464-484) for a buffer of `size`
bytes at offset 0 (an aligned buffer): allocate the `lsml_data_t` record,
one zeroed section chunk and one zeroed string chunk. -/
def lsml_data_new (size : Nat) : Option lsml_data_t :=
  match lsml_bump_alloc ⟨0, size⟩ SIZEOF_DATA PTR_ALIGN with
  | none => none
  | some (_, a1) =>
    match lsml_bump_alloc a1 SIZEOF_CHA_CHUNK PTR_ALIGN with
    | none => none
    | some (_, a2) =>
      match lsml_bump_alloc a2 SIZEOF_CHA_CHUNK PTR_ALIGN with
      | none => none
      | some (_, a3) =>
        some { alloc := a3,
               sections := ⟨[zeroChunk sectionBody], 0, 1⟩, n_sections := 0,
               strings := ⟨[zeroChunk Unit], 0, 1⟩, n_strings := 0 }

/-- Translation of `lsml_data_register_string` (lsml.c:540-584).  The slice
argument is the byte list (`lsml_string_init` is the identity here: the
model always passes the explicit bytes).  Registered-record identity (`id`)
is the bump address of the `lsml_reg_str_t` record.  In move mode the C
requires a null terminator at `str[len]` — every move-mode call in the
parser hands over a temp string that `lsml_parse_temp_string` has just
null-terminated, so the check passes and is not modelled — and takes
ownership of the bytes without copying; otherwise the bytes are copied into
a fresh `len+1` allocation.  The `none` bucket case (where the C would
dereference a `NULL` `bucket_ptr`) keeps the commented-out `NOT_FOUND`
return of the source. -/
def lsml_data_register_string (data : lsml_data_t) (str : List Nat)
    (move_string : Bool) : lsml_err × lsml_data_t × Option lsml_reg_str_t :=
  let hash := lsml_hash_string str
  let index := lsml_mod_chunklen hash (data.strings.nChunks * LSML_CHUNK_LEN)
  match lsml_cha_get_bucket data.strings.chunks data.strings.nChunks index with
  | none => (LSML_ERR_NOT_FOUND, data, none)
  | some bucket =>
    match bucket.find? (fun n => n.str.bytes == str) with
    | some n => (LSML_OK, data, some n.str)
    | none =>
      let og_offset := data.alloc.offset
      match lsml_bump_alloc data.alloc SIZEOF_HM_NODE PTR_ALIGN with
      | none => (LSML_ERR_OUT_OF_MEMORY, data, none)
      | some (nodeAddr, a1) =>
        match lsml_bump_alloc a1 SIZEOF_REG_STR PTR_ALIGN with
        | none =>
          (LSML_ERR_OUT_OF_MEMORY,
            { data with alloc := { a1 with offset := og_offset } }, none)
        | some (regAddr, a2) =>
          if move_string then
            let reg : lsml_reg_str_t := ⟨regAddr, str, hash⟩
            let node : hmNode Unit := ⟨nodeAddr, reg, ()⟩
            (LSML_OK,
              { data with
                  alloc := a2
                  strings := { data.strings with
                    chunks := chunkSet data.strings.chunks index (bucket ++ [node]) }
                  n_strings := data.n_strings + 1 }, some reg)
          else
            match lsml_bump_alloc a2 (str.length + 1) 1 with
            | none =>
              (LSML_ERR_OUT_OF_MEMORY,
                { data with alloc := { a2 with offset := og_offset } }, none)
            | some (_, a3) =>
              let reg : lsml_reg_str_t := ⟨regAddr, str, hash⟩
              let node : hmNode Unit := ⟨nodeAddr, reg, ()⟩
              (LSML_OK,
                { data with
                    alloc := a3
                    strings := { data.strings with
                      chunks := chunkSet data.strings.chunks index (bucket ++ [node]) }
                    n_strings := data.n_strings + 1 }, some reg)

/-- Replaces the payload of the node with key id `keyId` in the flat bucket
`index`; the model of the C writing through the node pointer it just
obtained from `lsml_hm_get_or_create_node`. -/
def hmSetPayload {α : Type} (cs : List (HChunk α)) (index : Nat)
    (keyId : Nat) (p : α) : List (HChunk α) :=
  match lsml_cha_get_bucket cs (cs.length) index with
  | none => cs
  | some bucket =>
    chunkSet cs index
      (bucket.map (fun n => if n.str.id = keyId then { n with payload := p } else n))

/-- Flat bucket index a key with cached hash `h` lands in. -/
def keyIndex (h nChunks : Nat) : Nat :=
  lsml_mod_chunklen h (nChunks * LSML_CHUNK_LEN)

/-- Translation of `lsml_data_add_section_internal` (lsml.c:591-614).
Mirrors the source's order of checks: `!was_created` is tested before
`node == NULL`, so an out-of-memory node creation is reported as
`SECTION_NAME_REUSED`.  For an array section the first row-index record is
allocated and zeroed (`index` 0); if that allocation fails the section node
stays behind with `row_indices = NULL`.  The last component is the created
section's name id (the model of the returned section pointer). -/
def lsml_data_add_section_internal (data : lsml_data_t)
    (section_name : lsml_reg_str_t) (section_type : lsml_section_type) :
    lsml_err × lsml_data_t × Option Nat :=
  match lsml_hm_rehash_if_needed data.alloc data.sections data.n_sections with
  | (err, alloc1, sections1) =>
    if err ≠ LSML_OK then
      (err, { data with alloc := alloc1, sections := sections1 }, none)
    else
      let r := lsml_hm_get_or_create_node alloc1 sections1.chunks
        data.n_sections sections1.nChunks section_name SIZEOF_SECTION
        zeroSectionBody
      let data1 : lsml_data_t :=
        { data with
            alloc := r.alloc
            sections := { sections1 with chunks := r.chunks }
            n_sections := r.n_elems }
      if ¬ r.was_created then (LSML_ERR_SECTION_NAME_REUSED, data1, none)
      else if r.node.isNone then (LSML_ERR_OUT_OF_MEMORY, data1, none)
      else if section_type = LSML_ARRAY then
        match lsml_bump_alloc data1.alloc SIZEOF_ROWS_INDEX PTR_ALIGN with
        | none => (LSML_ERR_OUT_OF_MEMORY, data1, none)
        | some (_, a2) =>
          let idx := keyIndex section_name.hash sections1.nChunks
          (LSML_OK,
            { data1 with
                alloc := a2
                sections := { data1.sections with
                  chunks := hmSetPayload data1.sections.chunks idx section_name.id
                    { zeroSectionBody with row_indices := some [0] } } },
            some section_name.id)
      else (LSML_OK, data1, some section_name.id)

/-- Looks up a section body by its name id (the model of following a
`lsml_section_t*`). -/
def getSectionBody (data : lsml_data_t) (secId : Nat) : Option sectionBody :=
  match (data.sections.chunks.map (fun c => c.flatten)).flatten.find?
      (fun n => n.str.id == secId) with
  | some n => some n.payload
  | none => none

/-- Replaces a section body by its name id (the model of the C mutating the
section record in place through its pointer). -/
def setSectionBody (data : lsml_data_t) (secId : Nat) (b : sectionBody) :
    lsml_data_t :=
  { data with sections := { data.sections with
      chunks := data.sections.chunks.map (fun c =>
        c.map (fun bucket => bucket.map (fun n =>
          if n.str.id = secId then { n with payload := b } else n))) } }

/-- Translation of `lsml_table_add_entry_internal` (lsml.c:623-646), acting
on the section with name id `secId` (the C receives the section pointer).
The data/section NULL checks are not modelled (`secId` always names a
section); a dangling id leaves the document unchanged with
`INVALID_SECTION`. -/
def lsml_table_add_entry_internal (data : lsml_data_t) (secId : Nat)
    (key value : lsml_reg_str_t) : lsml_err × lsml_data_t :=
  match getSectionBody data secId with
  | none => (LSML_ERR_INVALID_SECTION, data)
  | some body =>
    if body.row_indices.isSome then (LSML_ERR_SECTION_TYPE, data)
    else
      -- lazily allocate the first bucket chunk
      match
        (if body.tbl.isEmpty then
          match lsml_bump_alloc data.alloc SIZEOF_CHA_CHUNK PTR_ALIGN with
          | none => none
          | some (_, a1) =>
            some (a1, { body with
                          tbl := [zeroChunk (Option Nat)]
                          n_chunks := 1
                          lastChunkIdx := 0 })
        else some (data.alloc, body)) with
      | none => (LSML_ERR_OUT_OF_MEMORY, data)
      | some (alloc1, body1) =>
        match lsml_hm_rehash_if_needed alloc1
            ⟨body1.tbl, body1.lastChunkIdx, body1.n_chunks⟩ body1.n_elems with
        | (err, alloc2, hm2) =>
          let body2 := { body1 with
                           tbl := hm2.chunks
                           lastChunkIdx := hm2.tailIdx
                           n_chunks := hm2.nChunks }
          let data2 := setSectionBody { data with alloc := alloc2 } secId body2
          if err ≠ LSML_OK then (err, data2)
          else
            let r := lsml_hm_get_or_create_node alloc2 body2.tbl body2.n_elems
              body2.n_chunks key SIZEOF_TABLE_NODE (none : Option Nat)
            let body3 := { body2 with tbl := r.chunks, n_elems := r.n_elems }
            let data3 := setSectionBody { data with alloc := r.alloc } secId body3
            match r.node with
            | none => (LSML_ERR_OUT_OF_MEMORY, data3)
            | some _ =>
              if ¬ r.was_created then (LSML_ERR_TABLE_KEY_REUSED, data3)
              else
                let idx := keyIndex key.hash body3.n_chunks
                let body4 := { body3 with
                  tbl := hmSetPayload body3.tbl idx key.id (some value.id) }
                (LSML_OK, setSectionBody { data with alloc := r.alloc } secId body4)

/-- Writes slot `slot` of the chunk at position `chunkPos` of an array
section's element chunks (the C writing
`array->last_chunk.array->elems[chunk_index]`). -/
def arrSetElem (arr : List (List (Option Nat))) (chunkPos slot : Nat)
    (v : Option Nat) : List (List (Option Nat)) :=
  match arr, chunkPos with
  | [], _ => []
  | c :: rest, 0 => c.set slot v :: rest
  | c :: rest, p + 1 => c :: arrSetElem rest p slot v

/-- Translation of `lsml_array_add_entry_internal` (lsml.c:648-682), acting
on the section with name id `secId`; `valueId` is the pushed value's
registered-string id (the C stores `lsml_string_t*` pointers). -/
def lsml_array_add_entry_internal (data : lsml_data_t) (secId : Nat)
    (valueId : Nat) (newrow : Bool) : lsml_err × lsml_data_t :=
  match getSectionBody data secId with
  | none => (LSML_ERR_INVALID_SECTION, data)
  | some body =>
    match body.row_indices with
    | none => (LSML_ERR_SECTION_TYPE, data)
    | some rows =>
      match
        (if body.arr.isEmpty then
          match lsml_bump_alloc data.alloc SIZEOF_CHA_CHUNK PTR_ALIGN with
          | none => none
          | some (_, a1) =>
            some (a1, { body with
                          arr := [List.replicate LSML_CHUNK_LEN none]
                          n_chunks := 1
                          lastChunkIdx := 0 })
        else some (data.alloc, body)) with
      | none => (LSML_ERR_OUT_OF_MEMORY, data)
      | some (alloc1, body1) =>
        match
          (if body1.n_elems ≥ body1.n_chunks * LSML_CHUNK_LEN then
            match lsml_bump_alloc alloc1 SIZEOF_CHA_CHUNK PTR_ALIGN with
            | none => none
            | some (_, a2) =>
              some (a2, { body1 with
                            arr := body1.arr ++ [List.replicate LSML_CHUNK_LEN none]
                            lastChunkIdx := body1.lastChunkIdx + 1
                            n_chunks := body1.n_chunks + 1 })
          else some (alloc1, body1)) with
        | none => (LSML_ERR_OUT_OF_MEMORY, setSectionBody { data with alloc := alloc1 } secId body1)
        | some (alloc2, body2) =>
          let chunk_index := lsml_mod_chunklen body2.n_elems LSML_CHUNK_LEN
          let body3 := { body2 with
            arr := arrSetElem body2.arr body2.lastChunkIdx chunk_index (some valueId) }
          if newrow ∧ body3.n_elems > 0 then
            match lsml_bump_alloc alloc2 SIZEOF_ROWS_INDEX PTR_ALIGN with
            | none =>
              (LSML_ERR_OUT_OF_MEMORY,
                setSectionBody { data with alloc := alloc2 } secId body3)
            | some (_, a3) =>
              let body4 := { body3 with
                               row_indices := some (rows ++ [body3.n_elems])
                               n_elems := body3.n_elems + 1 }
              (LSML_OK, setSectionBody { data with alloc := a3 } secId body4)
          else
            (LSML_OK, setSectionBody { data with alloc := alloc2 } secId
              { body3 with n_elems := body3.n_elems + 1 })

/-- Translation of `lsml_data_add_section` (lsml.c:744-754): reject an empty
name, register it (copying), rehash the string table, then create the
section. -/
def lsml_data_add_section (data : lsml_data_t) (ty : lsml_section_type)
    (name : List Nat) : lsml_err × lsml_data_t × Option Nat :=
  if name.length = 0 then (LSML_ERR_INVALID_KEY, data, none)
  else
    match lsml_data_register_string data name false with
    | (err, data1, reg?) =>
      if err ≠ LSML_OK then (err, data1, none)
      else
        match reg? with
        | none => (LSML_ERR_INVALID_KEY, data1, none)
        | some reg =>
          match lsml_hm_rehash_if_needed data1.alloc data1.strings data1.n_strings with
          | (err2, alloc2, strings2) =>
            let data2 := { data1 with alloc := alloc2, strings := strings2 }
            if err2 ≠ LSML_OK then (err2, data2, none)
            else lsml_data_add_section_internal data2 reg ty

/-- Translation of `lsml_table_add_entry` (lsml.c:782-796).  The
`lsml_data_owns_ptr` guard is modelled by requiring `secId` to name a
section of the document (checked inside the internal call); the NULL value
check is not modelled. -/
def lsml_table_add_entry (data : lsml_data_t) (secId : Nat)
    (key_name value : List Nat) : lsml_err × lsml_data_t :=
  match getSectionBody data secId with
  | none => (LSML_ERR_INVALID_SECTION, data)
  | some _ =>
    if key_name.length = 0 then (LSML_ERR_INVALID_KEY, data)
    else
      match lsml_data_register_string data key_name false with
      | (err, data1, key?) =>
        if err ≠ LSML_OK then (err, data1)
        else
          match key?, getSectionBody data1 secId with
          | some key, some body =>
            if (lsml_hm_get_node_reg body.tbl body.n_chunks key).isSome then
              (LSML_ERR_TABLE_KEY_REUSED, data1)
            else
              match lsml_data_register_string data1 value false with
              | (err2, data2, val?) =>
                if err2 ≠ LSML_OK then (err2, data2)
                else
                  match val? with
                  | none => (LSML_ERR_INVALID_KEY, data2)
                  | some val => lsml_table_add_entry_internal data2 secId key val
          | _, _ => (LSML_ERR_INVALID_SECTION, data1)

/-- Translation of `lsml_array_push` (lsml.c:900-910). -/
def lsml_array_push (data : lsml_data_t) (secId : Nat) (val : List Nat)
    (newrow : Bool) : lsml_err × lsml_data_t :=
  match getSectionBody data secId with
  | none => (LSML_ERR_INVALID_SECTION, data)
  | some body =>
    if body.row_indices.isNone then (LSML_ERR_SECTION_TYPE, data)
    else
      match lsml_data_register_string data val false with
      | (err, data1, reg?) =>
        if err ≠ LSML_OK then (err, data1)
        else
          match reg? with
          | none => (LSML_ERR_INVALID_KEY, data1)
          | some reg => lsml_array_add_entry_internal data1 secId reg.id newrow

-- ---------------------------------------------------------------------------
-- Array section reads (lsml_cha_get, lsml_array_get, lsml_array_get_2d,
-- lsml_array_2d_size)
-- ---------------------------------------------------------------------------

/-- Walk of `lsml_cha_get`'s chunk loop (lsml.c:240-244). -/
def chaWalk : List (List (Option Nat)) → Nat → Option Nat
  | [], _ => none
  | c :: rest, i =>
    if i ≥ LSML_CHUNK_LEN then chaWalk rest (i - LSML_CHUNK_LEN)
    else (c.get? i).getD none

/-- Translation of `lsml_cha_get` (lsml.c:237-245). -/
def lsml_cha_get (arr : List (List (Option Nat))) (n_elems n_chunks index : Nat) :
    Option Nat :=
  if arr.isEmpty || index ≥ n_elems || index ≥ n_chunks * LSML_CHUNK_LEN then none
  else chaWalk arr index

/-- Translation of `lsml_array_get` (lsml.c:857-863) on a section body, with
the `value` out pointer supplied.  The second component is `some elem?` when
the C executes `*value = *elem`: `elem? = none` means `elem` was the `NULL`
pointer returned by `lsml_cha_get`, i.e. the C dereferences `NULL`
(undefined behavior) while still returning `LSML_OK`. -/
def lsml_array_get (body : sectionBody) (index : Nat) :
    lsml_err × Option (Option Nat) :=
  if body.row_indices.isNone then (LSML_ERR_SECTION_TYPE, none)
  else
    let elem := lsml_cha_get body.arr body.n_elems body.n_chunks index
    (LSML_OK, some elem)

/-- Walk of the row-index list of `lsml_array_get_2d` (lsml.c:869-873):
`row` next-steps from the first record, `none` when the list runs out. -/
def rowWalk : List Nat → Nat → Option (Nat × Option Nat)
  | [], _ => none
  | r :: rest, 0 => some (r, rest.head?)
  | _ :: rest, n + 1 => rowWalk rest n

/-- Translation of `lsml_array_get_2d` (lsml.c:865-881), same out-pointer
convention as `lsml_array_get`. -/
def lsml_array_get_2d (body : sectionBody) (row col : Nat) :
    lsml_err × Option (Option Nat) :=
  match body.row_indices with
  | none => (LSML_ERR_SECTION_TYPE, none)
  | some rows =>
    match rowWalk rows row with
    | none => (LSML_ERR_NOT_FOUND, none)
    | some (rstart, rnext) =>
      let col' := col + rstart
      match rnext with
      | some nxt =>
        if col' ≥ nxt then (LSML_ERR_NOT_FOUND, none)
        else (LSML_OK, some (lsml_cha_get body.arr body.n_elems body.n_chunks col'))
      | none =>
        (LSML_OK, some (lsml_cha_get body.arr body.n_elems body.n_chunks col'))

/-- Loop of `lsml_array_2d_size` (lsml.c:837-850) over the row-index list:
accumulates the row count and the min/max column count. -/
def size2dLoop (n_elems : Nat) (is_jagged : Bool) :
    List Nat → Nat → Nat → Nat × Nat
  | [], r, c => (r, c)
  | ri :: rest, r, c =>
    let cur_cols := match rest.head? with
      | some nxt => nxt - ri
      | none => n_elems - ri
    let c' := if (if is_jagged then cur_cols > c else cur_cols < c) then cur_cols else c
    size2dLoop n_elems is_jagged rest (r + 1) c'

/-- Translation of `lsml_array_2d_size` (lsml.c:829-855) with both out
pointers supplied. -/
def lsml_array_2d_size (body : sectionBody) (is_jagged : Bool) :
    lsml_err × Option (Nat × Nat) :=
  match body.row_indices with
  | none => (LSML_ERR_SECTION_TYPE, none)
  | some rows =>
    let c0 := if is_jagged then 0 else body.n_elems
    (LSML_OK, some (size2dLoop body.n_elems is_jagged rows 0 c0))

/-- Translation of `lsml_table_get` (lsml.c:771-780) on a section body. -/
def lsml_table_get (body : sectionBody) (key : List Nat) :
    lsml_err × Option (Option Nat) :=
  if body.row_indices.isSome then (LSML_ERR_SECTION_TYPE, none)
  else
    match lsml_hm_get_node body.tbl body.n_chunks key with
    | none => (LSML_ERR_NOT_FOUND, none)
    | some node => (LSML_OK, some node.payload)

-- ---------------------------------------------------------------------------
-- Parser: reader, window, skips
-- ---------------------------------------------------------------------------

/-- C cast of a reader character to `unsigned char` (`(unsigned char) c`):
reduce mod 256 (Euclidean, so -1 becomes 255). -/
def toByte (c : Int) : Nat := (c % 256).toNat

/-- Translation of `lsml_parser_t` (lsml.c:1019-1026).  The byte reader is
the remaining input list (`lsml_getc` pops its head, -1 at the end); the
error-log callback is modelled as a log accumulated in `logs` whose entries
are `(errcode, line)`.  The modelled callback always returns 0, so the
`return LSML_ERR_PARSE_ABORTED` sites guarded by `lsml_log_err`'s result
never fire and are translated as plain log appends. -/
structure lsml_parser_t where
  input : List Nat
  cur : Int
  next : Int
  line : Nat
  logs : List (lsml_err × Nat)
  deriving DecidableEq, Repr

/-- Translation of `lsml_getc` over the string reader
(`lsml_reader_from_string_getc`, lsml.c:984-993): pop one byte, -1 at the
end. -/
def lsml_getc : List Nat → Int × List Nat
  | [] => (-1, [])
  | b :: rest => ((b : Int), rest)

/-- Translation of `lsml_nextchar` (lsml.c:1039-1045): returns the new
current character and the advanced parser. -/
def lsml_nextchar (p : lsml_parser_t) : Int × lsml_parser_t :=
  let c := p.next
  let line' := if p.cur = 10 then p.line + 1 else p.line
  let (n, input') := lsml_getc p.input
  (c, { p with cur := c, next := n, line := line', input := input' })

/-- Translation of `lsml_log_err` (lsml.c:1030-1035) with the non-aborting
logger: append `(errcode, line)` to the log. -/
def lsml_log_err (p : lsml_parser_t) (e : lsml_err) : lsml_parser_t :=
  { p with logs := p.logs ++ [(e, p.line)] }

/-- Translation of `lsml_skip_whitespace` (lsml.c:1062-1066).  All looping
parser functions take explicit fuel (`none` = out of fuel, never reached by
the concrete runs below, whose fuel exceeds the input length). -/
def lsml_skip_whitespace : Nat → lsml_parser_t → Option lsml_parser_t
  | 0, _ => none
  | fuel + 1, p =>
    if lsml_isspace p.cur then lsml_skip_whitespace fuel (lsml_nextchar p).2
    else some p

/-- Translation of `lsml_skip_comment` (lsml.c:1070-1075): consume up to the
newline, leaving `cur` at the newline (or end of input). -/
def lsml_skip_comment : Nat → lsml_parser_t → Option lsml_parser_t
  | 0, _ => none
  | fuel + 1, p =>
    if p.cur ≥ 0 ∧ p.cur ≠ 10 then lsml_skip_comment fuel (lsml_nextchar p).2
    else some p

/-- Translation of `lsml_skip_line` (lsml.c:1079-1085): like
`lsml_skip_comment`, then consume the newline itself. -/
def lsml_skip_line (fuel : Nat) (p : lsml_parser_t) : Option lsml_parser_t :=
  match lsml_skip_comment fuel p with
  | none => none
  | some p1 => if p1.cur = 10 then some (lsml_nextchar p1).2 else some p1

/-- Translation of `lsml_oct_append` (lsml.c:1090-1095). -/
def lsml_oct_append (c : Int) (v : Nat) : Option Nat :=
  if 48 ≤ c ∧ c ≤ 55 then some (v * 8 + (c - 48).toNat) else none

/-- Translation of `lsml_hex_append` (lsml.c:1101-1110). -/
def lsml_hex_append (c : Int) (v : Nat) : Option Nat :=
  if 48 ≤ c ∧ c ≤ 57 then some (v * 16 + (c - 48).toNat)
  else if 65 ≤ c ∧ c ≤ 70 then some (v * 16 + 10 + (c - 65).toNat)
  else if 97 ≤ c ∧ c ≤ 102 then some (v * 16 + 10 + (c - 97).toNat)
  else none

-- ---------------------------------------------------------------------------
-- Parser: temporary strings (lsml_parse_temp_string and its loops)
-- ---------------------------------------------------------------------------

/-- The context a temp-string parse runs in: the arena offsets that bound the
scratch region (`start = mem + og`, `end = mem + size - 1`) and the
in-context end delimiter (0 = none). -/
structure ptsCtx where
  og : Nat
  size : Nat
  end_delim : Int
  deriving DecidableEq, Repr

/-- The write-bound check `cursor >= end` of the temp-string loops, with the
cursor at `og + outLen`. -/
def ptsFull (ctx : ptsCtx) (outLen : Nat) : Bool :=
  ctx.og + outLen ≥ ctx.size - 1

/-- Hex-digit loop of `lsml_helper_unicode_parse` (lsml.c:1126-1133): read
`k` more hex characters, extending the scratch and the codepoint; stops
early (returning `false`) when a character is not a hex digit, with the
parser already advanced onto that character. -/
def uniHexLoop : Nat → lsml_parser_t → List Nat → Nat →
    lsml_parser_t × List Nat × Nat × Bool
  | 0, p, s, v => (p, s, v, true)
  | k + 1, p, s, v =>
    let (c, p1) := lsml_nextchar p
    match lsml_hex_append c v with
    | some v' => uniHexLoop k p1 (s ++ [toByte c]) v'
    | none => (p1, s, v, false)

/-- Translation of `lsml_helper_unicode_parse` (lsml.c:1117-1172), called
with the window `['\\', 'u' or 'U']`; `outLen` is the bytes already written
(the cursor).  Returns the error, the parser and the bytes to append. -/
def lsml_helper_unicode_parse (p : lsml_parser_t) (outLen : Nat)
    (ctx : ptsCtx) : lsml_err × lsml_parser_t × List Nat :=
  let scratch0 := [toByte p.cur, toByte p.next]
  let p1 := (lsml_nextchar p).2
  let len_expect := if p1.cur = 85 then 10 else 6
  let (p2, scratch1, cp, complete) := uniHexLoop (len_expect - 2) p1 scratch0 0
  if complete then
    let p3 := (lsml_nextchar p2).2
    let enc : Option (List Nat) :=
      if cp ≤ 0x7F then some [cp]
      else if 0x80 ≤ cp ∧ cp ≤ 0x7FF then
        some [0xC0 ||| (0x1F &&& (cp >>> 6)), 0x80 ||| (0x3F &&& cp)]
      else if 0x800 ≤ cp ∧ cp ≤ 0xFFFF then
        some [0xE0 ||| (0xF &&& (cp >>> 12)), 0x80 ||| (0x3F &&& (cp >>> 6)),
              0x80 ||| (0x3F &&& cp)]
      else if 0x10000 ≤ cp ∧ cp ≤ 0x10FFFF then
        some [0xF0 ||| (0x7 &&& (cp >>> 18)), 0x80 ||| (0x3F &&& (cp >>> 12)),
              0x80 ||| (0x3F &&& (cp >>> 6)), 0x80 ||| (0x3F &&& cp)]
      else none
    match enc with
    | some bytes =>
      if ctx.og + outLen + bytes.length > ctx.size - 1 then
        (LSML_ERR_OUT_OF_MEMORY, p3, [])
      else (LSML_OK, p3, bytes)
    | none =>
      -- invalid codepoint: log and store the raw escape text
      let p4 := lsml_log_err p3 LSML_ERR_TEXT_INVALID_ESCAPE
      if ctx.og + outLen + scratch1.length > ctx.size - 1 then
        (LSML_ERR_OUT_OF_MEMORY, p4, [])
      else (LSML_OK, p4, scratch1)
  else
    -- incomplete hex sequence: store what was read, no log (the source
    -- logs only for an out-of-range codepoint)
    if ctx.og + outLen + scratch1.length > ctx.size - 1 then
      (LSML_ERR_OUT_OF_MEMORY, p2, [])
    else (LSML_OK, p2, scratch1)

/-- Result of the flavor-selection loop at the top of
`lsml_parse_temp_string` (lsml.c:1207-1231). -/
inductive ptsScanRes where
  | oom
  | save (p : lsml_parser_t) (out : List Nat)
  | flavor (delim : Int) (p : lsml_parser_t) (out : List Nat)
  deriving Repr

/-- Flavor-selection loop of `lsml_parse_temp_string` (lsml.c:1207-1231):
skip leading whitespace, recognize a section-reference prefix at the very
start (copying it into the output and consuming both bytes), and classify
the string as unquoted (`delim = '\n'`, current character left in place),
quoted (`delim` the quote, consumed) or escaped (backtick, consumed).
Reaching end of input, a newline, or the in-context end delimiter saves the
output as it stands.  (The separate `end_delim` arm at lsml.c:1223 is
unreachable: the first arm already covers it.) -/
def ptsScanFlavor (ctx : ptsCtx) : Nat → lsml_parser_t → List Nat →
    Option ptsScanRes
  | 0, _, _ => none
  | fuel + 1, p, out =>
    let c := p.cur
    if c < 0 ∨ c = 10 ∨ (ctx.end_delim ≠ 0 ∧ c = ctx.end_delim) then
      some (.save p out)
    else if out.isEmpty ∧
        ((c = 123 ∧ p.next = 125) ∨ (c = 91 ∧ p.next = 93)) then
      if ctx.og + out.length + 2 > ctx.size - 1 then some .oom
      else
        -- save the prefix, skip the opening byte, and let the loop's
        -- trailing nextchar consume the closing byte
        ptsScanFlavor ctx fuel (lsml_nextchar (lsml_nextchar p).2).2
          (out ++ [toByte c, toByte p.next])
    else if c = 96 then some (.flavor 96 (lsml_nextchar p).2 out)
    else if c = 34 ∨ c = 39 then some (.flavor c (lsml_nextchar p).2 out)
    else if ¬ lsml_isspace c then some (.flavor 10 p out)
    else ptsScanFlavor ctx fuel (lsml_nextchar p).2 out

/-- Trailing-whitespace trim of the unquoted branch (lsml.c:1239-1241). -/
def trimTrailingWs (out : List Nat) : List Nat :=
  (out.reverse.dropWhile (fun b => lsml_isspace (Int.ofNat b))).reverse

/-- Unquoted-string loop of `lsml_parse_temp_string` (lsml.c:1232-1249):
copy bytes until end of input, newline, `#` or the end delimiter; a `#`
consumes the rest of the line as a comment; the output is trimmed of
trailing whitespace. -/
def ptsUnquoted (ctx : ptsCtx) : Nat → lsml_parser_t → List Nat →
    Option (Option (lsml_parser_t × List Nat))
  | 0, _, _ => none
  | fuel + 1, p, out =>
    let c := p.cur
    if c < 0 ∨ c = 10 ∨ c = 35 ∨ (ctx.end_delim ≠ 0 ∧ c = ctx.end_delim) then
      match (if c = 35 then lsml_skip_comment (fuel + 1) p else some p) with
      | none => none
      | some p1 => some (some (p1, trimTrailingWs out))
    else if ptsFull ctx out.length then some none
    else ptsUnquoted ctx fuel (lsml_nextchar p).2 (out ++ [toByte c])

/-- The "try to reach end delimiter" epilogue shared by the quoted and
escaped branches (lsml.c:1267-1282 and 1373-1388): after the closing quote,
consume up to the end delimiter or newline, logging `TEXT_AFTER_END_QUOTE`
once for the first non-whitespace byte; a `#` consumes a comment and stops. -/
def ptsAfterQuoteSeek (ctx : ptsCtx) : Nat → lsml_parser_t → Bool →
    Option lsml_parser_t
  | 0, _, _ => none
  | fuel + 1, p, logged =>
    let c := p.cur
    if c ≥ 0 ∧ c ≠ 10 ∧ c ≠ ctx.end_delim then
      if c = 35 then lsml_skip_comment (fuel + 1) p
      else if ¬ logged ∧ ¬ lsml_isspace c then
        ptsAfterQuoteSeek ctx fuel
          (lsml_nextchar (lsml_log_err p LSML_ERR_TEXT_AFTER_END_QUOTE)).2 true
      else ptsAfterQuoteSeek ctx fuel (lsml_nextchar p).2 logged
    else some p

/-- Quote-passing epilogue (lsml.c:1263-1282): consume the closing quote if
present, then seek the end delimiter if there is more on the line. -/
def ptsQuoteEpilogue (ctx : ptsCtx) (fuel : Nat) (delim : Int)
    (p : lsml_parser_t) : Option lsml_parser_t :=
  let p1 := if p.cur = delim then (lsml_nextchar p).2 else p
  if p1.cur ≥ 0 ∧ p1.cur ≠ 10 ∧ ctx.end_delim ≠ 0 ∧ p1.cur ≠ ctx.end_delim then
    ptsAfterQuoteSeek ctx fuel p1 false
  else some p1

/-- Quoted-string loop of `lsml_parse_temp_string` (lsml.c:1250-1262): copy
verbatim until the matching quote; a newline or end of input logs
`MISSING_END_QUOTE` and cuts the string there. -/
def ptsQuoted (ctx : ptsCtx) (delim : Int) : Nat → lsml_parser_t → List Nat →
    Option (Option (lsml_parser_t × List Nat))
  | 0, _, _ => none
  | fuel + 1, p, out =>
    let c := p.cur
    if c < 0 ∨ c = 10 then
      match ptsQuoteEpilogue ctx (fuel + 1) delim
          (lsml_log_err p LSML_ERR_MISSING_END_QUOTE) with
      | none => none
      | some p1 => some (some (p1, out))
    else if c = delim then
      match ptsQuoteEpilogue ctx (fuel + 1) delim p with
      | none => none
      | some p1 => some (some (p1, out))
    else if ptsFull ctx out.length then some none
    else ptsQuoted ctx delim fuel (lsml_nextchar p).2 (out ++ [toByte c])

/-- Escaped-string loop of `lsml_parse_temp_string` (lsml.c:1283-1368):
backtick strings with escape decoding.  The parser window at a `\` is
`['\\', e]`; each arm mirrors the corresponding `switch` case, including
how far the parser advances.  Returns `some none` for out of memory. -/
def ptsEscaped (ctx : ptsCtx) : Nat → lsml_parser_t → List Nat →
    Option (Option (lsml_parser_t × List Nat))
  | 0, _, _ => none
  | fuel + 1, p, out =>
    let c := p.cur
    if c < 0 ∨ c = 10 then
      match ptsQuoteEpilogue ctx (fuel + 1) 96
          (lsml_log_err p LSML_ERR_MISSING_END_QUOTE) with
      | none => none
      | some p1 => some (some (p1, out))
    else if c = 96 then
      match ptsQuoteEpilogue ctx (fuel + 1) 96 p with
      | none => none
      | some p1 => some (some (p1, out))
    else if ptsFull ctx out.length then some none
    else if c = 92 then
      let e := p.next
      if e = 97 then ptsEscaped ctx fuel (lsml_nextchar (lsml_nextchar p).2).2 (out ++ [0x07])
      else if e = 98 then ptsEscaped ctx fuel (lsml_nextchar (lsml_nextchar p).2).2 (out ++ [0x08])
      else if e = 101 then ptsEscaped ctx fuel (lsml_nextchar (lsml_nextchar p).2).2 (out ++ [0x1B])
      else if e = 102 then ptsEscaped ctx fuel (lsml_nextchar (lsml_nextchar p).2).2 (out ++ [0x0C])
      else if e = 110 then ptsEscaped ctx fuel (lsml_nextchar (lsml_nextchar p).2).2 (out ++ [0x0A])
      else if e = 114 then ptsEscaped ctx fuel (lsml_nextchar (lsml_nextchar p).2).2 (out ++ [0x0D])
      else if e = 116 then ptsEscaped ctx fuel (lsml_nextchar (lsml_nextchar p).2).2 (out ++ [0x09])
      else if e = 92 then ptsEscaped ctx fuel (lsml_nextchar (lsml_nextchar p).2).2 (out ++ [0x5C])
      else if e = 39 then ptsEscaped ctx fuel (lsml_nextchar (lsml_nextchar p).2).2 (out ++ [0x27])
      else if e = 34 then ptsEscaped ctx fuel (lsml_nextchar (lsml_nextchar p).2).2 (out ++ [0x22])
      else if e = 96 then ptsEscaped ctx fuel (lsml_nextchar (lsml_nextchar p).2).2 (out ++ [0x60])
      else if e = 63 then ptsEscaped ctx fuel (lsml_nextchar (lsml_nextchar p).2).2 (out ++ [0x3F])
      else if 48 ≤ e ∧ e ≤ 55 then
        -- octal: up to two more digits after the first
        let v0 := (e - 48).toNat
        let p1 := (lsml_nextchar p).2
        let (v2, p3) :=
          match lsml_oct_append p1.next v0 with
          | some v1 =>
            let p2 := (lsml_nextchar p1).2
            (match lsml_oct_append p2.next v1 with
             | some vx => (vx, (lsml_nextchar p2).2)
             | none => (v1, p2))
          | none => (v0, p1)
        let v3 := if v2 > 255 then 255 else v2
        ptsEscaped ctx fuel (lsml_nextchar p3).2 (out ++ [v3])
      else if e = 120 then
        -- \xHH: one or two hex digits; a missing FIRST digit logs
        -- TEXT_INVALID_ESCAPE, emits a literal backslash and continues at
        -- the 'x'
        let p1 := (lsml_nextchar p).2
        match lsml_hex_append p1.next 0 with
        | some v1 =>
          let p2 := (lsml_nextchar p1).2
          (match lsml_hex_append p2.next v1 with
           | some v2 => ptsEscaped ctx fuel (lsml_nextchar (lsml_nextchar p2).2).2 (out ++ [v2])
           | none => ptsEscaped ctx fuel (lsml_nextchar p2).2 (out ++ [v1]))
        | none =>
          ptsEscaped ctx fuel (lsml_log_err p1 LSML_ERR_TEXT_INVALID_ESCAPE)
            (out ++ [92])
      else if e = 117 ∨ e = 85 then
        match lsml_helper_unicode_parse p out.length ctx with
        | (err, p1, bytes) =>
          if err ≠ LSML_OK then some none
          else ptsEscaped ctx fuel p1 (out ++ bytes)
      else
        -- unknown escape: literal backslash, do not advance past the
        -- follow-up byte
        ptsEscaped ctx fuel
          (lsml_nextchar (lsml_log_err p LSML_ERR_TEXT_INVALID_ESCAPE)).2
          (out ++ [92])
    else ptsEscaped ctx fuel (lsml_nextchar p).2 (out ++ [toByte c])

/-- A temporary string: its start offset in the arena (for the discard
protocol) and its bytes. -/
structure tempStr where
  start : Nat
  bytes : List Nat
  deriving DecidableEq, Repr

/-- Translation of `lsml_parse_temp_string` (lsml.c:1196-1399).  On success
the arena offset is locked in at `og + len + 1` (content plus null
terminator); on failure the document is unchanged.  The fourth component is
the parsed temp string (`none` exactly when the C leaves `string->str`
NULL, i.e. on error returns). -/
def lsml_parse_temp_string (fuel : Nat) (data : lsml_data_t)
    (p : lsml_parser_t) (end_delim : Int) (is_name : Bool) :
    Option (lsml_err × lsml_data_t × lsml_parser_t × Option tempStr) :=
  let ctx : ptsCtx := ⟨data.alloc.offset, data.alloc.size, end_delim⟩
  if ctx.og ≥ ctx.size - 1 then
    some (LSML_ERR_OUT_OF_MEMORY, data, p, none)
  else
    match ptsScanFlavor ctx fuel p [] with
    | none => none
    | some .oom => some (LSML_ERR_OUT_OF_MEMORY, data, p, none)
    | some (.save p1 out) =>
      if is_name ∧ out.isEmpty then some (LSML_ERR_INVALID_KEY, data, p1, none)
      else
        some (LSML_OK,
          { data with alloc := { data.alloc with offset := ctx.og + out.length + 1 } },
          p1, some ⟨ctx.og, out⟩)
    | some (.flavor d p1 out0) =>
      let res :=
        if d = 10 then ptsUnquoted ctx fuel p1 out0
        else if d = 96 then ptsEscaped ctx fuel p1 out0
        else ptsQuoted ctx d fuel p1 out0
      match res with
      | none => none
      | some none => some (LSML_ERR_OUT_OF_MEMORY, data, p, none)
      | some (some (p2, out)) =>
        if is_name ∧ out.isEmpty then
          some (LSML_ERR_INVALID_KEY, data, p2, none)
        else
          some (LSML_OK,
            { data with alloc := { data.alloc with offset := ctx.og + out.length + 1 } },
            p2, some ⟨ctx.og, out⟩)

/-- Translation of `lsml_discard_temp_string` (lsml.c:1404-1409): roll the
arena cursor back to the start of the temp string. -/
def lsml_discard_temp_string (data : lsml_data_t) (t : tempStr) : lsml_data_t :=
  { data with alloc := { data.alloc with offset := t.start } }

/-- Translation of `lsml_register_temp_string` (lsml.c:1414-1425): register
the temp string in move mode; on error, or when an equivalent string
already existed (the C detects this by comparing body pointers; the model
compares the string count), the temp copy is discarded; then the string
table is rehashed if needed. -/
def lsml_register_temp_string (data : lsml_data_t) (t : tempStr) :
    lsml_err × lsml_data_t × Option lsml_reg_str_t :=
  match lsml_data_register_string data t.bytes true with
  | (err, data1, reg?) =>
    if err ≠ LSML_OK then (err, lsml_discard_temp_string data1 t, none)
    else
      let data2 :=
        if data1.n_strings = data.n_strings + 1 then data1
        else lsml_discard_temp_string data1 t
      match lsml_hm_rehash_if_needed data2.alloc data2.strings data2.n_strings with
      | (err2, alloc2, strings2) =>
        (err2, { data2 with alloc := alloc2, strings := strings2 }, reg?)

-- ---------------------------------------------------------------------------
-- Parser: headers, entries and the main loop
-- ---------------------------------------------------------------------------

/-- The section-filter callback of the parse options (`condition` +
userdata), as a pure predicate on (name bytes, type). -/
def lsml_parse_condition := List Nat → lsml_section_type → Bool

/-- Translation of `lsml_parse_options_t` (lsml.h:116-124), without the
logger fields (the log is accumulated in the parser state). -/
structure lsml_parse_options_t where
  n_sections : Nat
  condition : Option lsml_parse_condition

/-- The "try to reach end newline" loop of `lsml_parse_section_header`
(lsml.c:1448-1460): consume up to the newline, logging
`TEXT_AFTER_SECTION_HEADER` once for the first non-whitespace byte. -/
def headerSeekNewline : Nat → lsml_parser_t → Bool → Option lsml_parser_t
  | 0, _, _ => none
  | fuel + 1, p, logged =>
    let c := p.cur
    if c ≥ 0 ∧ c ≠ 10 then
      if c = 35 then lsml_skip_comment (fuel + 1) p
      else if ¬ logged ∧ ¬ lsml_isspace c then
        headerSeekNewline fuel
          (lsml_nextchar (lsml_log_err p LSML_ERR_TEXT_AFTER_SECTION_HEADER)).2 true
      else headerSeekNewline fuel (lsml_nextchar p).2 logged
    else some p

/-- Translation of `lsml_parse_section_header` (lsml.c:1427-1474).  The last
component is the created section's name id; `none` both on error and on a
silent condition-skip (the C sets `*section = NULL` at entry). -/
def lsml_parse_section_header (fuel : Nat) (data : lsml_data_t)
    (p : lsml_parser_t) (cond : Option lsml_parse_condition) :
    Option (lsml_err × lsml_data_t × lsml_parser_t × Option Nat) :=
  let (delim, ty) : Int × lsml_section_type :=
    if p.cur = 123 then (125, LSML_TABLE)
    else if p.cur = 91 then (93, LSML_ARRAY)
    else (0, LSML_ANYSECTION)
  if delim = 0 then some (LSML_ERR_SECTION_TYPE, data, p, none)
  else
    let p1 := (lsml_nextchar p).2
    match lsml_parse_temp_string fuel data p1 delim true with
    | none => none
    | some (err0, data1, p2, temp?) =>
      let err := if err0 = LSML_ERR_INVALID_KEY then LSML_ERR_SECTION_NAME_EMPTY else err0
      if err ≠ LSML_OK then some (err, data1, p2, none)
      else
        match temp? with
        | none => some (LSML_ERR_SECTION_NAME_EMPTY, data1, p2, none)
        | some temp =>
          let p3 :=
            if p2.cur = delim then (lsml_nextchar p2).2
            else lsml_log_err p2 LSML_ERR_SECTION_HEADER_UNCLOSED
          match headerSeekNewline fuel p3 false with
          | none => none
          | some p4 =>
            let condSkip : Bool :=
              match cond with
              | some f => ! f temp.bytes ty
              | none => false
            if condSkip then
              some (LSML_OK, lsml_discard_temp_string data1 temp, p4, none)
            else
              match lsml_register_temp_string data1 temp with
              | (err2, data2, reg?) =>
                if err2 ≠ LSML_OK then some (err2, data2, p4, none)
                else
                  match reg? with
                  | none => some (LSML_ERR_SECTION_NAME_EMPTY, data2, p4, none)
                  | some reg =>
                    match lsml_data_add_section_internal data2 reg ty with
                    | (err3, data3, sec?) => some (err3, data3, p4, sec?)

/-- Translation of `lsml_parse_table_entry` (lsml.c:1476-1513), acting on
the current section's name id. -/
def lsml_parse_table_entry (fuel : Nat) (data : lsml_data_t)
    (p : lsml_parser_t) (secId : Nat) :
    Option (lsml_err × lsml_data_t × lsml_parser_t) :=
  match lsml_parse_temp_string fuel data p 61 false with
  | none => none
  | some (err, data1, p1, tempKey?) =>
    if err ≠ LSML_OK then some (err, data1, p1)
    else
      match tempKey? with
      | none => some (LSML_ERR_INVALID_KEY, data1, p1)
      | some tempKey =>
        if p1.cur = 61 then
          let p2 := (lsml_nextchar p1).2
          match lsml_register_temp_string data1 tempKey with
          | (err2, data2, key?) =>
            if err2 ≠ LSML_OK then some (err2, data2, p2)
            else
              match key?, getSectionBody data2 secId with
              | some key, some body =>
                if (lsml_hm_get_node_reg body.tbl body.n_chunks key).isSome then
                  some (LSML_OK, data2, lsml_log_err p2 LSML_ERR_TABLE_KEY_REUSED)
                else
                  (match lsml_parse_temp_string fuel data2 p2 10 false with
                   | none => none
                   | some (err3, data3, p3, tempVal?) =>
                     if err3 ≠ LSML_OK then some (err3, data3, p3)
                     else
                       match tempVal? with
                       | none => some (LSML_ERR_INVALID_KEY, data3, p3)
                       | some tempVal =>
                         match lsml_register_temp_string data3 tempVal with
                         | (err4, data4, val?) =>
                           if err4 ≠ LSML_OK then some (err4, data4, p3)
                           else
                             match val? with
                             | none => some (LSML_ERR_INVALID_KEY, data4, p3)
                             | some val =>
                               match lsml_table_add_entry_internal data4 secId key val with
                               | (err5, data5) => some (err5, data5, p3))
              | _, _ => some (LSML_ERR_INVALID_SECTION, data2, p2)
        else
          -- missing '=': discard the key, log, skip the entry
          some (LSML_OK, lsml_discard_temp_string data1 tempKey,
            lsml_log_err p1 LSML_ERR_TABLE_ENTRY_MISSING_EQUALS)

/-- Translation of `lsml_parse_array_entries` (lsml.c:1515-1536): parse
comma-separated values onto the current array section; the first value of
the invocation starts a new row. -/
def lsml_parse_array_entries : Nat → lsml_data_t → lsml_parser_t → Nat →
    Bool → Option (lsml_err × lsml_data_t × lsml_parser_t)
  | 0, _, _, _, _ => none
  | fuel + 1, data, p, secId, newrow =>
    if p.cur ≥ 0 ∧ p.cur ≠ 10 ∧ p.cur ≠ 35 then
      match lsml_parse_temp_string fuel data p 44 false with
      | none => none
      | some (err, data1, p1, temp?) =>
        if err ≠ LSML_OK then some (err, data1, p1)
        else
          match temp? with
          | none => some (LSML_ERR_INVALID_KEY, data1, p1)
          | some temp =>
            match lsml_register_temp_string data1 temp with
            | (err2, data2, val?) =>
              if err2 ≠ LSML_OK then some (err2, data2, p1)
              else
                match val? with
                | none => some (LSML_ERR_INVALID_KEY, data2, p1)
                | some val =>
                  match lsml_array_add_entry_internal data2 secId val.id newrow with
                  | (err3, data3) =>
                    if err3 ≠ LSML_OK then some (err3, data3, p1)
                    else
                      let p2 := if p1.cur = 44 then (lsml_nextchar p1).2 else p1
                      if p2.cur = 10 then some (LSML_OK, data3, p2)
                      else
                        match lsml_skip_whitespace fuel p2 with
                        | none => none
                        | some p3 => lsml_parse_array_entries fuel data3 p3 secId false
    else some (LSML_OK, data, p)

/-- One pass of the main loop of `lsml_parse` (lsml.c:1554-1608), with the
fuel counting loop iterations.  The state is (options, document, parser,
current section name id or `none` when the section is skipped or absent,
number of headers encountered). -/
def lsml_parse_loop : Nat → lsml_parse_options_t → lsml_data_t →
    lsml_parser_t → Option Nat → Nat →
    Option (lsml_err × lsml_data_t × lsml_parser_t)
  | 0, _, _, _, _, _ => none
  | fuel + 1, opts, data, p, curSec, nParsed =>
    if p.cur < 0 then some (LSML_OK, data, p)
    else
      match lsml_skip_whitespace (fuel + 1) p with
      | none => none
      | some p1 =>
        let c := p1.cur
        if (c = 123 ∧ p1.next ≠ 125) ∨ (c = 91 ∧ p1.next ≠ 93) then
          if opts.n_sections ≠ 0 ∧ nParsed ≥ opts.n_sections then
            some (LSML_OK, data, p1)
          else
            match lsml_parse_section_header (fuel + 1) data p1 opts.condition with
            | none => none
            | some (err, data1, p2, sec?) =>
              if err = LSML_OK then
                match lsml_skip_line (fuel + 1) p2 with
                | none => none
                | some p3 => lsml_parse_loop fuel opts data1 p3 sec? (nParsed + 1)
              else if err = LSML_ERR_SECTION_NAME_REUSED ∨
                  err = LSML_ERR_SECTION_NAME_EMPTY then
                match lsml_skip_line (fuel + 1) (lsml_log_err p2 err) with
                | none => none
                | some p3 => lsml_parse_loop fuel opts data1 p3 none (nParsed + 1)
              else some (err, data1, p2)
        else if c = 35 then
          match lsml_skip_comment (fuel + 1) p1 with
          | none => none
          | some p2 =>
            match lsml_skip_line (fuel + 1) p2 with
            | none => none
            | some p3 => lsml_parse_loop fuel opts data p3 curSec nParsed
        else if c ≥ 0 then
          match curSec with
          | some secId =>
            let entryRes :=
              match getSectionBody data secId with
              | some body =>
                if body.row_indices.isSome then
                  lsml_parse_array_entries (fuel + 1) data p1 secId true
                else lsml_parse_table_entry (fuel + 1) data p1 secId
              | none => some (LSML_OK, data, p1)
            match entryRes with
            | none => none
            | some (err, data1, p2) =>
              if err = LSML_OK then
                match lsml_skip_line (fuel + 1) p2 with
                | none => none
                | some p3 => lsml_parse_loop fuel opts data1 p3 curSec nParsed
              else if err = LSML_ERR_OUT_OF_MEMORY ∨
                  err = LSML_ERR_PARSE_ABORTED then
                some (err, data1, p2)
              else
                match lsml_skip_line (fuel + 1) (lsml_log_err p2 err) with
                | none => none
                | some p3 => lsml_parse_loop fuel opts data1 p3 curSec nParsed
          | none =>
            let p2 :=
              if data.n_sections = 0 then
                lsml_log_err p1 LSML_ERR_TEXT_OUTSIDE_SECTION
              else p1
            match lsml_skip_line (fuel + 1) p2 with
            | none => none
            | some p3 => lsml_parse_loop fuel opts data p3 curSec nParsed
        else
          match lsml_skip_line (fuel + 1) p1 with
          | none => none
          | some p3 => lsml_parse_loop fuel opts data p3 curSec nParsed

/-- Translation of `lsml_parse` (lsml.c:1538-1610) over a byte-list reader:
initialize the two-character window with two `lsml_nextchar` calls and run
the line loop.  The result carries the final parser (whose `logs` are the
error-callback invocations, in order). -/
def lsml_parse (data : lsml_data_t) (input : List Nat)
    (opts : lsml_parse_options_t) :
    Option (lsml_err × lsml_data_t × lsml_parser_t) :=
  let p0 : lsml_parser_t :=
    { input := input, cur := 0, next := 0, line := 1, logs := [] }
  let p1 := (lsml_nextchar (lsml_nextchar p0).2).2
  lsml_parse_loop (input.length + 8) opts data p1 none 0

-- ---------------------------------------------------------------------------
-- Shared concrete states used by witnesses and counterexamples
-- ---------------------------------------------------------------------------

/-- A fallback document (never actually used: every `getD` below hits the
`some` branch). -/
def dummyDoc : lsml_data_t :=
  { alloc := ⟨0, 0⟩, sections := ⟨[], 0, 0⟩, n_sections := 0,
    strings := ⟨[], 0, 0⟩, n_strings := 0 }

/-- A fresh document over a 100000-byte buffer. -/
def demoDoc0 : lsml_data_t := (lsml_data_new 100000).getD dummyDoc

/-- The fresh document after creating one array section named "a". -/
def demoAddArr := lsml_data_add_section demoDoc0 LSML_ARRAY (bytesOf "a")

/-- Name id of the created array section. -/
def demoArrId : Nat := demoAddArr.2.2.getD 0

/-- Document holding the empty array section. -/
def demoDoc1 : lsml_data_t := demoAddArr.2.1

/-- Document after pushing one element "x" onto the array. -/
def demoDoc2 : lsml_data_t := (lsml_array_push demoDoc1 demoArrId (bytesOf "x") true).2

/-- Body of the array section while still empty. -/
def demoBodyEmpty : sectionBody := (getSectionBody demoDoc1 demoArrId).getD zeroSectionBody

/-- Body of the array section holding exactly one element. -/
def demoBodyOne : sectionBody := (getSectionBody demoDoc2 demoArrId).getD zeroSectionBody

-- ---------------------------------------------------------------------------
-- C5: bump allocator boundary
-- ---------------------------------------------------------------------------

/-- Claim C5, counterexample: the claim states that an allocation whose
aligned end exactly equals the buffer size succeeds, but
`lsml_bump_alloc` uses `aligned_offset + size >= alloc->size` and fails on
exact fit: an 8-byte allocation with alignment 1 from offset 0 of an 8-byte
buffer has aligned end exactly 8 = buffer size, yet returns `NULL`. -/
theorem C5_exact_fit_fails :
    lsml_align_up 0 1 + 8 = 8 ∧ lsml_bump_alloc ⟨0, 8⟩ 8 1 = none := by
  decide

/-- Arithmetic facts about the alignment round-up: the result is a multiple
of the (positive) alignment lying in `[offset, offset + align)`. -/
theorem lsml_align_up_spec (o align : Nat) (h : 0 < align) :
    lsml_align_up o align % align = 0 ∧ o ≤ lsml_align_up o align ∧
      lsml_align_up o align < o + align := by
  unfold lsml_align_up
  have hdm := Nat.div_add_mod (o + (align - 1)) align
  have hlt : (o + (align - 1)) % align < align := Nat.mod_lt _ h
  refine ⟨?_, by omega, by omega⟩
  have he : o + (align - 1) - (o + (align - 1)) % align =
      align * ((o + (align - 1)) / align) := by omega
  rw [he]
  exact Nat.mul_mod_right _ _

/-- Claim C5, amended: `lsml_bump_alloc(size, align)` fails if and only if
the aligned offset plus `size` is greater than **or equal to** the buffer
size (an allocation whose aligned end exactly equals the buffer size fails;
the last byte of the buffer is never allocatable).  On success it returns
the pointer at the aligned offset — the least multiple of `align` at or
after the cursor — and advances the cursor by `size` from there. -/
theorem C5_bump_alloc_amended (a : lsml_bump_alloc_t) (size align : Nat)
    (h : 0 < align) :
    (lsml_bump_alloc a size align = none ↔
      lsml_align_up a.offset align + size ≥ a.size) ∧
    (∀ p a', lsml_bump_alloc a size align = some (p, a') →
      p = lsml_align_up a.offset align ∧ a'.offset = p + size ∧
      a'.size = a.size ∧ p % align = 0 ∧ a.offset ≤ p ∧ p < a.offset + align) := by
  have hs := lsml_align_up_spec a.offset align h
  constructor
  · unfold lsml_bump_alloc
    by_cases hc : lsml_align_up a.offset align + size ≥ a.size <;> simp [hc]
  · intro p a' hp
    unfold lsml_bump_alloc at hp
    by_cases hc : lsml_align_up a.offset align + size ≥ a.size
    · simp [hc] at hp
    · simp [hc] at hp
      obtain ⟨hp1, hp2⟩ := hp
      subst hp1
      exact ⟨rfl, by rw [← hp2], by rw [← hp2], hs.1, hs.2.1, hs.2.2⟩

/-- Claim C5, witness: the amended theorem applied at offset 3, buffer 100,
size 10, alignment 8 (the allocation succeeds at aligned offset 8 with the
cursor advanced to 18). -/
theorem C5_witness :
    0 < 8 ∧
    ((lsml_bump_alloc ⟨3, 100⟩ 10 8 = none ↔
        lsml_align_up (3:Nat) 8 + 10 ≥ 100) ∧
      (∀ p a', lsml_bump_alloc ⟨3, 100⟩ 10 8 = some (p, a') →
        p = lsml_align_up (3:Nat) 8 ∧ a'.offset = p + 10 ∧
        a'.size = 100 ∧ p % 8 = 0 ∧ 3 ≤ p ∧ p < 3 + 8)) :=
  ⟨by decide, C5_bump_alloc_amended ⟨3, 100⟩ 10 8 (by decide)⟩

-- ---------------------------------------------------------------------------
-- C1: narrow integer interpreters
-- ---------------------------------------------------------------------------

/-- Claim C1, code bug: `lsml_toi` returns early on every result other than
`VALUE_RANGE` (`if (err != LSML_ERR_VALUE_RANGE) return err;`), so when the
64-bit parse succeeds the narrow out-pointer is never written — parsing
"1e3" yields Ok with `*val` untouched instead of writing 1000 (lsml.h:390
documents "writing to val"), and a 64-bit-Ok value outside the narrow range
("3000000000") is neither clamped nor reported; conversely, when
`lsml_toll` reports `VALUE_RANGE` with a value that fits the narrow type
("1.5", value 1), the wrapper returns Ok instead of `VALUE_RANGE`.  The
same early return appears in `lsml_tol`, `lsml_tou` (shown) and
`lsml_toul`. -/
theorem C1_narrow_int_failing_inputs :
    lsml_toll (bytesOf "1e3") = (LSML_OK, some 1000) ∧
    lsml_toi (bytesOf "1e3") = (LSML_OK, none) ∧
    lsml_toll (bytesOf "1.5") = (LSML_ERR_VALUE_RANGE, some 1) ∧
    lsml_toi (bytesOf "1.5") = (LSML_OK, some 1) ∧
    lsml_toi (bytesOf "3000000000") = (LSML_OK, none) ∧
    lsml_tou (bytesOf "1.5") = (LSML_OK, some 1) ∧
    lsml_tol (bytesOf "1e3") = (LSML_OK, none) ∧
    lsml_toul (bytesOf "1.5") = (LSML_OK, some 1) := by
  decide

-- ---------------------------------------------------------------------------
-- C3: section reference interpreter
-- ---------------------------------------------------------------------------

/-- Claim C3, code bug: the guard of `lsml_toref` only rejects `{` not
followed by `}` and `[` not followed by `]`; a string whose first
non-whitespace byte is neither brace — such as "ab" — falls through and
returns Ok with the inferred type `LSML_ANYSECTION` and the bytes after
position 2 as the name, although lsml.h:409 documents
"Returns ERR_VALUE_FORMAT if the first non-whitespace characters in the
string are not \"{}\" or \"[]\" exactly".  (The braced cases behave as
claimed: `{}a` — bytes 123,125,97 — parses as a table reference named "a".) -/
theorem C3_toref_failing_input :
    lsml_toref (bytesOf "ab") = (LSML_OK, some LSML_ANYSECTION, some []) ∧
    lsml_toref (bytesOf "abcd") = (LSML_OK, some LSML_ANYSECTION, some (bytesOf "cd")) ∧
    lsml_toref [123, 125, 97] = (LSML_OK, some LSML_TABLE, some [97]) ∧
    lsml_toref [91, 120] = (LSML_ERR_VALUE_FORMAT, none, none) := by
  decide

-- ---------------------------------------------------------------------------
-- C2: array reads out of bounds
-- ---------------------------------------------------------------------------

/-- Claim C2, code bug: `lsml_array_get` and `lsml_array_get_2d` never check
the result of `lsml_cha_get` against `NULL`, so an out-of-range index —
index 1 of a one-element array, index 0 of an empty array, or a column in
the last row reaching past the element count — executes `*value = *elem`
with `elem == NULL` (modelled as the written value `some none`) and returns
`LSML_OK`, although lsml.h:336 and lsml.h:343 document `NOT_FOUND` for out
of bounds.  Only the row walk of `lsml_array_get_2d` (row beyond the row
list, or a column crossing the next row start) returns `NOT_FOUND`. -/
theorem C2_array_get_failing_inputs :
    demoBodyOne.n_elems = 1 ∧
    lsml_array_get demoBodyOne 1 = (LSML_OK, some none) ∧
    lsml_array_get demoBodyEmpty 0 = (LSML_OK, some none) ∧
    lsml_array_get_2d demoBodyOne 0 5 = (LSML_OK, some none) ∧
    (lsml_array_get_2d demoBodyOne 3 0).1 = LSML_ERR_NOT_FOUND ∧
    (lsml_array_get demoBodyOne 0).1 = LSML_OK ∧
    (lsml_array_get demoBodyOne 0).2 ≠ some none := by
  decide

-- ---------------------------------------------------------------------------
-- C10: 2D size of an empty array section
-- ---------------------------------------------------------------------------

/-- Claim C10: an array section onto which zero elements have been pushed —
whose body is exactly as `lsml_data_add_section_internal` creates it, with
the implicit first row-index record at offset 0 and `n_elems = 0` — reports
`rows = 1`, `cols = 0` from `lsml_array_2d_size`, for both the jagged and
the non-jagged query. -/
theorem C10_empty_array_2d_size (body : sectionBody)
    (h1 : body.row_indices = some [0]) (h2 : body.n_elems = 0) :
    lsml_array_2d_size body true = (LSML_OK, some (1, 0)) ∧
    lsml_array_2d_size body false = (LSML_OK, some (1, 0)) := by
  unfold lsml_array_2d_size
  rw [h1]
  simp [h2, size2dLoop]

/-- Claim C10, witness: the section body produced by creating the array
section "a" in a fresh document satisfies the hypotheses, and both queries
return `(1, 0)`. -/
theorem C10_witness :
    (demoBodyEmpty.row_indices = some [0] ∧ demoBodyEmpty.n_elems = 0) ∧
    lsml_array_2d_size demoBodyEmpty true = (LSML_OK, some (1, 0)) ∧
    lsml_array_2d_size demoBodyEmpty false = (LSML_OK, some (1, 0)) :=
  ⟨⟨by decide, by decide⟩,
    C10_empty_array_2d_size demoBodyEmpty (by decide) (by decide)⟩

-- ---------------------------------------------------------------------------
-- Parser helper lemmas
-- ---------------------------------------------------------------------------

/-- Advancing the window never touches the log. -/
theorem lsml_nextchar_logs (p : lsml_parser_t) :
    ((lsml_nextchar p).2).logs = p.logs := by
  unfold lsml_nextchar lsml_getc
  cases p.input <;> rfl

/-- Skipping a comment never touches the log. -/
theorem lsml_skip_comment_logs :
    ∀ (fuel : Nat) (p p' : lsml_parser_t),
      lsml_skip_comment fuel p = some p' → p'.logs = p.logs := by
  intro fuel
  induction fuel with
  | zero => intro p p' h; simp [lsml_skip_comment] at h
  | succ n ih =>
    intro p p' h
    unfold lsml_skip_comment at h
    by_cases hc : p.cur ≥ 0 ∧ p.cur ≠ 10
    · simp [hc] at h
      have := ih _ _ h
      rw [this, lsml_nextchar_logs]
    · simp [hc] at h
      rw [← h]

/-- Skipping the rest of a line never touches the log. -/
theorem lsml_skip_line_logs (fuel : Nat) (p p' : lsml_parser_t)
    (h : lsml_skip_line fuel p = some p') : p'.logs = p.logs := by
  unfold lsml_skip_line at h
  cases hsc : lsml_skip_comment fuel p with
  | none => rw [hsc] at h; simp at h
  | some p1 =>
    rw [hsc] at h
    have h1 := lsml_skip_comment_logs fuel p p1 hsc
    by_cases hnl : p1.cur = 10
    · simp [hnl] at h
      rw [← h, lsml_nextchar_logs, h1]
    · simp [hnl] at h
      rw [← h, h1]

/-- With a non-whitespace current character, the whitespace skip is the
identity. -/
theorem lsml_skip_whitespace_id (fuel : Nat) (p : lsml_parser_t)
    (h : lsml_isspace p.cur = false) :
    lsml_skip_whitespace (fuel + 1) p = some p := by
  unfold lsml_skip_whitespace
  simp [h]

-- ---------------------------------------------------------------------------
-- C8: the \xHH escape
-- ---------------------------------------------------------------------------

/-- The temp-string parse state of claim C8's counterexample: the parser
sits at the opening backtick of the escaped string `` `\x5` `` followed by a
newline (window = [0x60, 0x5C], remaining input "x5`\n"). -/
def c8Parser : lsml_parser_t :=
  { input := [120, 53, 96, 10], cur := 96, next := 92, line := 3, logs := [] }

/-- Claim C8, counterexample: in the escaped string `` `\x5` `` the second
hex digit is missing (the byte after the 5 is the closing backtick), yet
`lsml_parse_temp_string` emits the single byte 0x05 and logs nothing — not
a literal backslash with a TextInvalidEscape log as the claim states.  (The
error branch of the `case 'x':` arm fires only when the FIRST hex digit is
missing.) -/
theorem C8_one_hex_digit_counterexample :
    ((lsml_parse_temp_string 20 demoDoc0 c8Parser 0 false).map
      (fun r => (r.1, r.2.2.1.logs, (r.2.2.2).map tempStr.bytes))) =
    some (LSML_OK, [], some [5]) := by
  decide

/-- Claim C8, amended: in escaped (backtick) strings a `\xHH` escape takes
one or two case-insensitive hex digits.  If the FIRST hex digit is missing,
the parser logs TextInvalidEscape and emits a literal backslash, then
continues with the following byte (the `x`, which is then copied as an
ordinary character).  If exactly one hex digit is present, the parser
emits that digit's value and continues, with no log; with two hex digits it
emits their value.  Stated on one iteration of the escaped-string loop
`ptsEscaped` with the window at the backslash (`cur = '\\'`,
`next = 'x'`). -/
theorem C8_escape_x_amended (ctx : ptsCtx) (fuel : Nat) (p : lsml_parser_t)
    (out : List Nat) (hcur : p.cur = 92) (hnext : p.next = 120)
    (hcap : ptsFull ctx out.length = false) :
    (lsml_hex_append ((lsml_nextchar p).2).next 0 = none →
      ptsEscaped ctx (fuel + 1) p out =
        ptsEscaped ctx fuel
          (lsml_log_err (lsml_nextchar p).2 LSML_ERR_TEXT_INVALID_ESCAPE)
          (out ++ [92]) ∧
      (lsml_log_err (lsml_nextchar p).2 LSML_ERR_TEXT_INVALID_ESCAPE).logs =
        p.logs ++ [(LSML_ERR_TEXT_INVALID_ESCAPE, ((lsml_nextchar p).2).line)] ∧
      ((lsml_nextchar p).2).cur = 120) ∧
    (∀ v1, lsml_hex_append ((lsml_nextchar p).2).next 0 = some v1 →
      (lsml_hex_append ((lsml_nextchar (lsml_nextchar p).2).2).next v1 = none →
        ptsEscaped ctx (fuel + 1) p out =
          ptsEscaped ctx fuel
            (lsml_nextchar (lsml_nextchar (lsml_nextchar p).2).2).2
            (out ++ [v1]) ∧
        ((lsml_nextchar (lsml_nextchar (lsml_nextchar p).2).2).2).logs = p.logs) ∧
      (∀ v2, lsml_hex_append ((lsml_nextchar (lsml_nextchar p).2).2).next v1 = some v2 →
        ptsEscaped ctx (fuel + 1) p out =
          ptsEscaped ctx fuel
            (lsml_nextchar (lsml_nextchar (lsml_nextchar (lsml_nextchar p).2).2).2).2
            (out ++ [v2]) ∧
        ((lsml_nextchar (lsml_nextchar (lsml_nextchar (lsml_nextchar p).2).2).2).2).logs
          = p.logs)) := by
  constructor
  · intro hmiss
    refine ⟨?_, ?_, ?_⟩
    · unfold ptsEscaped
      rw [hcur, hnext]
      simp [hcap, hmiss]
      cases fuel <;> simp [ptsEscaped]
    · unfold lsml_log_err
      rw [lsml_nextchar_logs]
    · unfold lsml_nextchar
      rw [hnext]
  · intro v1 h1
    constructor
    · intro h2
      constructor
      · unfold ptsEscaped
        rw [hcur, hnext]
        simp [hcap, h1, h2]
        cases fuel <;> simp [ptsEscaped]
      · simp [lsml_nextchar_logs]
    · intro v2 h2
      constructor
      · unfold ptsEscaped
        rw [hcur, hnext]
        simp [hcap, h1, h2]
        cases fuel <;> simp [ptsEscaped]
      · simp [lsml_nextchar_logs]

/-- The parser window sitting at the backslash inside `` `\x5` ``:
`cur = '\\'`, `next = 'x'`, remaining input "5`\n". -/
def c8ParserAtBs : lsml_parser_t :=
  { input := [53, 96, 10], cur := 92, next := 120, line := 3, logs := [] }

/-- Claim C8, witness: the amended theorem applied inside the string
`` `\x5` `` (window at the backslash, one hex digit 5 followed by the
closing backtick): one iteration emits 0x05 with no log. -/
theorem C8_witness :
    (c8ParserAtBs.cur = 92 ∧ c8ParserAtBs.next = 120 ∧
      ptsFull ⟨demoDoc0.alloc.offset, demoDoc0.alloc.size, 0⟩ 0 = false ∧
      lsml_hex_append ((lsml_nextchar c8ParserAtBs).2).next 0 = some 5 ∧
      lsml_hex_append ((lsml_nextchar (lsml_nextchar c8ParserAtBs).2).2).next 5 = none) ∧
    (ptsEscaped ⟨demoDoc0.alloc.offset, demoDoc0.alloc.size, 0⟩ 11 c8ParserAtBs [] =
        ptsEscaped ⟨demoDoc0.alloc.offset, demoDoc0.alloc.size, 0⟩ 10
          (lsml_nextchar (lsml_nextchar (lsml_nextchar c8ParserAtBs).2).2).2 [5] ∧
      ((lsml_nextchar (lsml_nextchar (lsml_nextchar c8ParserAtBs).2).2).2).logs =
        c8ParserAtBs.logs) :=
  ⟨⟨by decide, by decide, by decide, by decide, by decide⟩,
    ((C8_escape_x_amended ⟨demoDoc0.alloc.offset, demoDoc0.alloc.size, 0⟩ 10
        c8ParserAtBs [] (by decide) (by decide) (by decide)).2 5 (by decide)).1
      (by decide)⟩

-- ---------------------------------------------------------------------------
-- C9: entry lines after a skipped section header
-- ---------------------------------------------------------------------------

/-- The document bytes of claim C9's counterexample:
a first header with an empty name followed by two entry lines
("{ }\nk=v\nj=w\n", braces written as bytes 123/125). -/
def c9Input : List Nat :=
  [123, 32, 125, 10] ++ bytesOf "k=v" ++ [10] ++ bytesOf "j=w" ++ [10]

/-- Claim C9, counterexample: when the failed header is the first header in
the document, the entry lines that follow are NOT silent — with no section
in the document yet, each one takes the `data->n_sections == 0` branch of
the main loop and logs TextOutsideSection, so the parse of
"{ }\nk=v\nj=w\n" produces three log callbacks (SectionNameEmpty at line 1
and TextOutsideSection at lines 2 and 3), not the single one the claim
states. -/
theorem C9_first_header_counterexample :
    ((lsml_parse demoDoc0 c9Input ⟨0, none⟩).map (fun r => (r.1, r.2.2.logs))) =
    some (LSML_OK,
      [(LSML_ERR_SECTION_NAME_EMPTY, 1), (LSML_ERR_TEXT_OUTSIDE_SECTION, 2),
       (LSML_ERR_TEXT_OUTSIDE_SECTION, 3)]) := by
  decide

/-- Claim C9, amended: after a section header fails with SectionNameEmpty or
SectionNameReused the current-section pointer is cleared and every entry
line up to the next header is ignored; provided the document already
contains at least one section, such an ignored entry line is fully silent —
the loop iteration performs exactly a line skip, adding no log callback and
leaving the document untouched.  (When no section exists yet — in
particular when the failed header was the first in the document — each
ignored entry line instead logs TextOutsideSection, see the
counterexample.)  Stated on one iteration of the main parse loop in skip
mode (current section `none`), at a line whose first character is not
whitespace, not a section header start, not `#` and not end of input. -/
theorem C9_skipped_entries_silent (fuel : Nat) (opts : lsml_parse_options_t)
    (data : lsml_data_t) (p : lsml_parser_t) (nParsed : Nat)
    (hns : 0 < data.n_sections)
    (hws : lsml_isspace p.cur = false)
    (hc : 0 ≤ p.cur)
    (hhdr : ¬ ((p.cur = 123 ∧ p.next ≠ 125) ∨ (p.cur = 91 ∧ p.next ≠ 93)))
    (hcm : p.cur ≠ 35) :
    lsml_parse_loop (fuel + 1) opts data p none nParsed =
      (match lsml_skip_line (fuel + 1) p with
       | none => none
       | some p3 => lsml_parse_loop fuel opts data p3 none nParsed) ∧
    (∀ p3, lsml_skip_line (fuel + 1) p = some p3 → p3.logs = p.logs) := by
  constructor
  · unfold lsml_parse_loop
    rw [lsml_skip_whitespace_id fuel p hws]
    have hlt : ¬ p.cur < 0 := by omega
    have hns' : ¬ data.n_sections = 0 := by omega
    simp [hlt, hhdr, hcm, hc, hns']
    cases lsml_skip_line (fuel + 1) p with
    | none => rfl
    | some p3 => cases fuel <;> simp [lsml_parse_loop]
  · intro p3 h3
    exact lsml_skip_line_logs (fuel + 1) p p3 h3

/-- A skip-mode parser state: sitting at the entry line "k=v\n" (window
`['k', '=']`, remaining input "v\n"). -/
def c9SkipParser : lsml_parser_t :=
  { input := [118, 10], cur := 107, next := 61, line := 5, logs := [] }

/-- Claim C9, witness: the amended theorem applied at a concrete skip-mode
state — the document holding one section, the parser at the start of the
entry line "k=v" (already whitespace-skipped) with the rest of the line in
the input. -/
theorem C9_witness :
    (0 < demoDoc1.n_sections ∧ lsml_isspace c9SkipParser.cur = false ∧
      0 ≤ c9SkipParser.cur ∧
      ¬ ((c9SkipParser.cur = 123 ∧ c9SkipParser.next ≠ 125) ∨
         (c9SkipParser.cur = 91 ∧ c9SkipParser.next ≠ 93)) ∧
      c9SkipParser.cur ≠ 35) ∧
    (lsml_parse_loop 8 ⟨0, none⟩ demoDoc1 c9SkipParser none 1 =
      (match lsml_skip_line 8 c9SkipParser with
       | none => none
       | some p3 => lsml_parse_loop 7 ⟨0, none⟩ demoDoc1 p3 none 1) ∧
    (∀ p3, lsml_skip_line 8 c9SkipParser = some p3 → p3.logs = c9SkipParser.logs)) :=
  ⟨⟨by decide, by decide, by decide, by decide, by decide⟩,
    C9_skipped_entries_silent 7 ⟨0, none⟩ demoDoc1 c9SkipParser 1
      (by decide) (by decide) (by decide) (by decide) (by decide)⟩

-- ---------------------------------------------------------------------------
-- C7: load factor invariant, doubling, node preservation across rehash
-- ---------------------------------------------------------------------------

/-- All nodes stored in a bucket-chunk list, in chunk/bucket/chain order
(the node population a full iteration such as `lsml_data_next_section`
visits). -/
def nodesOf {α : Type} (cs : List (HChunk α)) : List (hmNode α) :=
  (cs.map (fun c => c.flatten)).flatten

/-- The nodes of a bucket-chunk list as a multiset (node identity includes
the address). -/
def nodesMS {α : Type} (cs : List (HChunk α)) : Multiset (hmNode α) :=
  (nodesOf cs : Multiset (hmNode α))

/-- The load-factor bound (default `LSML_LOAD_FACTOR` 0.8) that actually
holds between inserts: the check `n + n/4 <= cap` ran BEFORE the most recent
insert, i.e. for `n - 1` elements.  `k` is the bucket-chunk count. -/
def loadBound (n k : Nat) : Prop :=
  n = 0 ∨ (n - 1) + (n - 1) / 4 ≤ k * LSML_CHUNK_LEN

instance (n k : Nat) : Decidable (loadBound n k) := by
  unfold loadBound; infer_instance

/-- The table-section part of the document invariant: a table body (one with
no row-index list) obeys the inter-insert load bound, and its chunk count is
zero exactly for the never-inserted empty table. -/
def tblOK (b : sectionBody) : Prop :=
  b.row_indices = none →
    loadBound b.n_elems b.n_chunks ∧
    (b.tbl.isEmpty = true → b.n_chunks = 0 ∧ b.n_elems = 0) ∧
    (b.tbl.isEmpty = false → 1 ≤ b.n_chunks)

/-- The document invariant maintained by the mutation API: the section map
has at least its initial chunk and obeys the inter-insert load bound, and
every table section body obeys it as well. -/
def docINV (d : lsml_data_t) : Prop :=
  1 ≤ d.sections.nChunks ∧
  loadBound d.n_sections d.sections.nChunks ∧
  ∀ node ∈ nodesOf d.sections.chunks, tblOK node.payload

/-- Document states reachable through the mutation API from a fresh
document. -/
inductive DocReachable : lsml_data_t → Prop
  | new : ∀ size d, lsml_data_new size = some d → DocReachable d
  | add_section : ∀ d ty name, DocReachable d →
      DocReachable (lsml_data_add_section d ty name).2.1
  | table_add : ∀ d s k v, DocReachable d →
      DocReachable (lsml_table_add_entry d s k v).2
  | array_push : ∀ d s v nr, DocReachable d →
      DocReachable (lsml_array_push d s v nr).2
  | register : ∀ d s m, DocReachable d →
      DocReachable (lsml_data_register_string d s m).2.1

theorem nodesOf_nil {α : Type} : nodesOf ([] : List (HChunk α)) = [] := rfl

theorem nodesOf_cons {α : Type} (c : HChunk α) (rest : List (HChunk α)) :
    nodesOf (c :: rest) = c.flatten ++ nodesOf rest := by
  simp [nodesOf]

theorem nodesOf_append {α : Type} (cs ds : List (HChunk α)) :
    nodesOf (cs ++ ds) = nodesOf cs ++ nodesOf ds := by
  simp [nodesOf]

theorem nodesOf_zero_replicate {α : Type} (k : Nat) :
    nodesOf (List.replicate k (zeroChunk α)) = [] := by
  induction k with
  | zero => rfl
  | succ m ih =>
    rw [List.replicate_succ, nodesOf_cons, ih]
    simp [zeroChunk]

theorem mem_nodesOf_take {α : Type} (cs : List (HChunk α)) (k : Nat)
    (x : hmNode α) (hx : x ∈ nodesOf (cs.take k)) : x ∈ nodesOf cs := by
  have : nodesOf cs = nodesOf (cs.take k) ++ nodesOf (cs.drop k) := by
    rw [← nodesOf_append, List.take_append_drop]
  rw [this]
  exact List.mem_append_left _ hx

theorem chunkWalk_mem_bucket {α : Type} :
    ∀ (cs : List (HChunk α)) (i : Nat) (b : Bucket α),
      chunkWalk cs i = some b → ∀ x ∈ b, x ∈ nodesOf cs := by
  intro cs
  induction cs with
  | nil => intro i b h; simp [chunkWalk] at h
  | cons c rest ih =>
    intro i b h x hx
    rw [nodesOf_cons]
    simp only [chunkWalk] at h
    by_cases hge : i ≥ LSML_CHUNK_LEN
    · rw [if_pos hge] at h
      exact List.mem_append_right _ (ih (i - LSML_CHUNK_LEN) b h x hx)
    · rw [if_neg hge] at h
      refine List.mem_append_left _ ?_
      exact List.mem_flatten.2 ⟨b, List.get?_mem h, hx⟩

theorem cha_get_bucket_mem {α : Type} (cs : List (HChunk α)) (n i : Nat)
    (b : Bucket α) (h : lsml_cha_get_bucket cs n i = some b) :
    ∀ x ∈ b, x ∈ nodesOf cs := by
  unfold lsml_cha_get_bucket at h
  split at h
  · exact absurd h (by simp)
  · exact chunkWalk_mem_bucket cs i b h

theorem chunkSet_length {α : Type} :
    ∀ (cs : List (HChunk α)) (i : Nat) (b : Bucket α),
      (chunkSet cs i b).length = cs.length := by
  intro cs
  induction cs with
  | nil => intro i b; rfl
  | cons c rest ih =>
    intro i b
    simp only [chunkSet]
    by_cases hge : i ≥ LSML_CHUNK_LEN
    · rw [if_pos hge]; simp [ih]
    · rw [if_neg hge]; simp

theorem chunkSet_chunk_len {α : Type} :
    ∀ (cs : List (HChunk α)) (i : Nat) (b : Bucket α) (L : Nat),
      (∀ c ∈ cs, c.length = L) → ∀ c ∈ chunkSet cs i b, c.length = L := by
  intro cs
  induction cs with
  | nil => intro i b L _ c hc; simp [chunkSet] at hc
  | cons c0 rest ih =>
    intro i b L hall c hc
    simp only [chunkSet] at hc
    by_cases hge : i ≥ LSML_CHUNK_LEN
    · rw [if_pos hge] at hc
      rcases List.mem_cons.1 hc with h | h
      · exact h ▸ hall c0 (List.mem_cons_self c0 rest)
      · exact ih (i - LSML_CHUNK_LEN) b L
          (fun c' hc' => hall c' (List.mem_cons_of_mem _ hc')) c h
    · rw [if_neg hge] at hc
      rcases List.mem_cons.1 hc with h | h
      · rw [h, List.length_set]
        exact hall c0 (List.mem_cons_self c0 rest)
      · exact hall c (List.mem_cons_of_mem _ h)

theorem mem_nodesOf_chunkSet {α : Type} :
    ∀ (cs : List (HChunk α)) (i : Nat) (b : Bucket α) (x : hmNode α),
      x ∈ nodesOf (chunkSet cs i b) → x ∈ nodesOf cs ∨ x ∈ b := by
  intro cs
  induction cs with
  | nil => intro i b x hx; simp [chunkSet, nodesOf_nil] at hx
  | cons c rest ih =>
    intro i b x hx
    simp only [chunkSet] at hx
    by_cases hge : i ≥ LSML_CHUNK_LEN
    · rw [if_pos hge, nodesOf_cons] at hx
      rcases List.mem_append.1 hx with h | h
      · exact Or.inl (by rw [nodesOf_cons]; exact List.mem_append_left _ h)
      · rcases ih (i - LSML_CHUNK_LEN) b x h with h' | h'
        · exact Or.inl (by rw [nodesOf_cons]; exact List.mem_append_right _ h')
        · exact Or.inr h'
    · rw [if_neg hge, nodesOf_cons] at hx
      rcases List.mem_append.1 hx with h | h
      · rcases List.mem_flatten.1 h with ⟨bk, hbk, hxbk⟩
        rcases List.mem_or_eq_of_mem_set hbk with h' | h'
        · exact Or.inl (by
            rw [nodesOf_cons]
            exact List.mem_append_left _ (List.mem_flatten.2 ⟨bk, h', hxbk⟩))
        · exact Or.inr (h' ▸ hxbk)
      · exact Or.inl (by rw [nodesOf_cons]; exact List.mem_append_right _ h)

theorem nodesMS_cons {α : Type} (c : HChunk α) (rest : List (HChunk α)) :
    nodesMS (c :: rest) = (c.flatten : Multiset (hmNode α)) + nodesMS rest := by
  unfold nodesMS
  rw [nodesOf_cons, ← Multiset.coe_add]

theorem nodesMS_append {α : Type} (cs ds : List (HChunk α)) :
    nodesMS (cs ++ ds) = nodesMS cs + nodesMS ds := by
  unfold nodesMS
  rw [nodesOf_append, ← Multiset.coe_add]

/-- Replacing bucket `i` (holding `old`) of a chunk by `b` exchanges exactly
`old` for `b` in the chunk's node multiset. -/
theorem flatten_set_ms {α : Type} :
    ∀ (c : List (Bucket α)) (i : Nat) (old b : Bucket α),
      c.get? i = some old →
      (((c.set i b).flatten : List (hmNode α)) : Multiset (hmNode α)) + ↑old =
        (c.flatten : Multiset (hmNode α)) + ↑b := by
  intro c
  induction c with
  | nil => intro i old b h; simp at h
  | cons hd tl ih =>
    intro i old b h
    cases i with
    | zero =>
      simp only [List.get?_cons_zero, Option.some.injEq] at h
      subst h
      simp only [List.set_cons_zero, List.flatten_cons, ← Multiset.coe_add]
      abel
    | succ j =>
      simp only [List.get?_cons_succ] at h
      simp only [List.set_cons_succ, List.flatten_cons, ← Multiset.coe_add]
      have := ih j old b h
      calc (hd : Multiset (hmNode α)) + ↑(tl.set j b).flatten + ↑old
          = ↑hd + (↑(tl.set j b).flatten + ↑old) := by rw [add_assoc]
        _ = ↑hd + (↑tl.flatten + ↑b) := by rw [this]
        _ = ↑hd + ↑tl.flatten + ↑b := by rw [add_assoc]

/-- Writing bucket `i` (currently holding `old`) exchanges exactly `old` for
the new bucket in the whole chunk list's node multiset. -/
theorem nodesMS_chunkSet {α : Type} :
    ∀ (cs : List (HChunk α)) (i : Nat) (old b : Bucket α),
      chunkWalk cs i = some old →
      nodesMS (chunkSet cs i b) + ↑old = nodesMS cs + ↑b := by
  intro cs
  induction cs with
  | nil => intro i old b h; simp [chunkWalk] at h
  | cons c rest ih =>
    intro i old b h
    simp only [chunkWalk] at h
    simp only [chunkSet]
    by_cases hge : i ≥ LSML_CHUNK_LEN
    · rw [if_pos hge] at h ⊢
      rw [nodesMS_cons, nodesMS_cons, add_assoc, ih (i - LSML_CHUNK_LEN) old b h,
        add_assoc]
    · rw [if_neg hge] at h ⊢
      rw [nodesMS_cons, nodesMS_cons]
      have := flatten_set_ms c i old b h
      calc (c.set i b : HChunk α).flatten + nodesMS rest + (old : Multiset (hmNode α))
          = (↑(c.set i b).flatten + ↑old) + nodesMS rest := by
            rw [add_assoc, add_assoc, add_comm (nodesMS rest) ↑old]
        _ = (↑c.flatten + ↑b) + nodesMS rest := by rw [this]
        _ = ↑c.flatten + nodesMS rest + ↑b := by
            rw [add_assoc, add_assoc, add_comm ↑b (nodesMS rest)]

/-- Writing one bucket leaves every other bucket unchanged. -/
theorem chunkWalk_chunkSet_ne {α : Type} :
    ∀ (cs : List (HChunk α)) (i g : Nat) (b : Bucket α), g ≠ i →
      chunkWalk (chunkSet cs i b) g = chunkWalk cs g := by
  intro cs
  induction cs with
  | nil => intro i g b _; rfl
  | cons c rest ih =>
    intro i g b hne
    simp only [chunkSet]
    by_cases hig : i ≥ LSML_CHUNK_LEN
    · rw [if_pos hig]
      simp only [chunkWalk]
      by_cases hgg : g ≥ LSML_CHUNK_LEN
      · rw [if_pos hgg, if_pos hgg]
        refine ih (i - LSML_CHUNK_LEN) (g - LSML_CHUNK_LEN) b ?_
        have h64 : LSML_CHUNK_LEN = 64 := rfl
        rw [h64] at hig hgg ⊢
        omega
      · rw [if_neg hgg, if_neg hgg]
    · rw [if_neg hig]
      simp only [chunkWalk]
      by_cases hgg : g ≥ LSML_CHUNK_LEN
      · rw [if_pos hgg, if_pos hgg]
      · rw [if_neg hgg, if_neg hgg]
        have hgi : i ≠ g := fun h => hne h.symm
        simp only [List.get?_eq_getElem?]
        exact List.getElem?_set_ne hgi

/-- On a chunk list of full (`LSML_CHUNK_LEN`-slot) chunks, every in-range
flat index has a bucket. -/
theorem chunkWalk_isSome {α : Type} :
    ∀ (cs : List (HChunk α)) (i : Nat),
      (∀ c ∈ cs, c.length = LSML_CHUNK_LEN) →
      i < cs.length * LSML_CHUNK_LEN → ∃ b, chunkWalk cs i = some b := by
  intro cs
  induction cs with
  | nil => intro i _ hi; simp at hi
  | cons c rest ih =>
    intro i hall hi
    simp only [chunkWalk]
    by_cases hge : i ≥ LSML_CHUNK_LEN
    · rw [if_pos hge]
      refine ih (i - LSML_CHUNK_LEN)
        (fun c' hc' => hall c' (List.mem_cons_of_mem _ hc')) ?_
      have h64 : LSML_CHUNK_LEN = 64 := rfl
      simp only [List.length_cons] at hi
      rw [h64] at hge hi ⊢
      omega
    · rw [if_neg hge]
      have hlen : c.length = LSML_CHUNK_LEN := hall c (List.mem_cons_self c rest)
      have hlt : i < c.length := by rw [hlen]; omega
      exact ⟨c.get ⟨i, hlt⟩, List.get?_eq_get hlt⟩

/-- Halving view of a doubled modulus: `a mod 2c` is `a mod c` or
`a mod c + c`. -/
theorem mod_double (a c : Nat) : a % (2 * c) = a % c ∨ a % (2 * c) = a % c + c := by
  have h : a % (c * 2) = a % c + c * (a / c % 2) := Nat.mod_mul
  rw [mul_comm c 2] at h
  rcases Nat.mod_two_eq_zero_or_one (a / c) with h2 | h2
  · left; rw [h, h2, Nat.mul_zero, Nat.add_zero]
  · right; rw [h, h2, Nat.mul_one]

theorem zeroChunk_length {α : Type} : (zeroChunk α).length = LSML_CHUNK_LEN := by
  simp [zeroChunk]

/-- Size preservation of the arena: a successful bump allocation never
changes the buffer size. -/
theorem lsml_bump_alloc_size {alloc : lsml_bump_alloc_t} {s a p : Nat}
    {alloc' : lsml_bump_alloc_t}
    (h : lsml_bump_alloc alloc s a = some (p, alloc')) :
    alloc'.size = alloc.size := by
  simp only [lsml_bump_alloc] at h
  split at h
  · exact absurd h (by simp)
  · simp only [Option.some.injEq, Prod.mk.injEq] at h
    rw [← h.2]

/-- The chunk allocation loop only ever appends zeroed chunks to its
accumulator, and threads an arena of unchanged buffer size. -/
theorem rehashAllocLoop_spec {α : Type} :
    ∀ (n : Nat) (alloc : lsml_bump_alloc_t) (acc : List (HChunk α)),
      (∃ k, (@rehashAllocLoop α alloc n acc).2.1 =
        acc ++ List.replicate k (zeroChunk α)) ∧
      (@rehashAllocLoop α alloc n acc).1.size = alloc.size := by
  intro n
  induction n with
  | zero =>
    intro alloc acc
    exact ⟨⟨0, by simp [rehashAllocLoop]⟩, by simp [rehashAllocLoop]⟩
  | succ m ih =>
    intro alloc acc
    cases h : lsml_bump_alloc alloc SIZEOF_CHA_CHUNK PTR_ALIGN with
    | none =>
      refine ⟨⟨0, ?_⟩, ?_⟩ <;> simp [rehashAllocLoop, h]
    | some pa =>
      obtain ⟨p, alloc1⟩ := pa
      have hres : @rehashAllocLoop α alloc (m + 1) acc =
          @rehashAllocLoop α alloc1 m (acc ++ [zeroChunk α]) := by
        simp [rehashAllocLoop, h]
      rw [hres]
      obtain ⟨⟨k, hk⟩, hsz⟩ := ih alloc1 (acc ++ [zeroChunk α])
      refine ⟨⟨k + 1, ?_⟩, ?_⟩
      · rw [hk]; simp [List.replicate_succ]
      · rw [hsz, lsml_bump_alloc_size h]

theorem put_node_mem {α : Type} (cs : List (HChunk α)) (n : Nat)
    (node : hmNode α) (i : Nat) :
    ∀ x ∈ nodesOf (lsml_hm_put_node_internal cs n node i).2,
      x ∈ nodesOf cs ∨ x = node := by
  intro x hx
  unfold lsml_hm_put_node_internal at hx
  cases h : lsml_cha_get_bucket cs n i with
  | none => rw [h] at hx; exact Or.inl hx
  | some bucket =>
    rw [h] at hx
    rcases mem_nodesOf_chunkSet cs i (bucket ++ [node]) x hx with h' | h'
    · exact Or.inl h'
    · rcases List.mem_append.1 h' with h'' | h''
      · exact Or.inl (cha_get_bucket_mem cs n i bucket h x h'')
      · simp only [List.mem_singleton] at h''
        exact Or.inr h''

/-- Unfolding equation of `relocNodes` at a cons chain. -/
theorem relocNodes_cons_eq {α : Type} (newN oldCap newCap : Nat)
    (cs : List (HChunk α)) (n : hmNode α) (rest : Bucket α) :
    relocNodes newN oldCap newCap cs (n :: rest) =
      if lsml_mod_chunklen n.str.hash oldCap =
          lsml_mod_chunklen n.str.hash newCap then
        (n :: (relocNodes newN oldCap newCap cs rest).1,
          (relocNodes newN oldCap newCap cs rest).2)
      else
        relocNodes newN oldCap newCap
          (lsml_hm_put_node_internal cs newN n
            (lsml_mod_chunklen n.str.hash newCap)).2 rest := rfl

theorem relocNodes_mem {α : Type} (newN oldCap newCap : Nat) :
    ∀ (chain : Bucket α) (cs : List (HChunk α)),
      (∀ x ∈ (relocNodes newN oldCap newCap cs chain).1, x ∈ chain) ∧
      (∀ x ∈ nodesOf (relocNodes newN oldCap newCap cs chain).2,
        x ∈ nodesOf cs ∨ x ∈ chain) := by
  intro chain
  induction chain with
  | nil =>
    intro cs
    exact ⟨fun x hx => by simp [relocNodes] at hx, fun x hx => Or.inl hx⟩
  | cons n rest ih =>
    intro cs
    rw [relocNodes_cons_eq]
    by_cases heq : lsml_mod_chunklen n.str.hash oldCap =
        lsml_mod_chunklen n.str.hash newCap
    · rw [if_pos heq]
      constructor
      · intro x hx
        rcases List.mem_cons.1 hx with h | h
        · exact h ▸ List.mem_cons_self n rest
        · exact List.mem_cons_of_mem _ ((ih cs).1 x h)
      · intro x hx
        rcases (ih cs).2 x hx with h | h
        · exact Or.inl h
        · exact Or.inr (List.mem_cons_of_mem _ h)
    · rw [if_neg heq]
      set cs1 := (lsml_hm_put_node_internal cs newN n
        (lsml_mod_chunklen n.str.hash newCap)).2 with hcs1
      constructor
      · intro x hx
        exact List.mem_cons_of_mem _ ((ih cs1).1 x hx)
      · intro x hx
        rcases (ih cs1).2 x hx with h | h
        · rcases put_node_mem cs newN n _ x h with h' | h'
          · exact Or.inl h'
          · exact Or.inr (h' ▸ List.mem_cons_self n rest)
        · exact Or.inr (List.mem_cons_of_mem _ h)

/-- Unfolding equation of `relocAll` at a positive count. -/
theorem relocAll_succ_eq {α : Type} (newN oldCap newCap : Nat)
    (cs : List (HChunk α)) (f count : Nat) :
    relocAll newN oldCap newCap cs f (count + 1) =
      relocAll newN oldCap newCap
        (chunkSet
          (relocNodes newN oldCap newCap cs ((chunkWalk cs f).getD [])).2 f
          (relocNodes newN oldCap newCap cs ((chunkWalk cs f).getD [])).1)
        (f + 1) count := rfl

theorem relocAll_mem {α : Type} (newN oldCap newCap : Nat) :
    ∀ (count f : Nat) (cs : List (HChunk α)) (x : hmNode α),
      x ∈ nodesOf (relocAll newN oldCap newCap cs f count) →
      x ∈ nodesOf cs := by
  intro count
  induction count with
  | zero => intro f cs x hx; exact hx
  | succ m ih =>
    intro f cs x hx
    rw [relocAll_succ_eq] at hx
    have hchain : ∀ y ∈ (chunkWalk cs f).getD [], y ∈ nodesOf cs := by
      intro y hy
      cases h : chunkWalk cs f with
      | none => rw [h] at hy; simp at hy
      | some b =>
        rw [h] at hy
        exact chunkWalk_mem_bucket cs f b h y hy
    have h1 := ih (f + 1) _ x hx
    rcases mem_nodesOf_chunkSet _ f _ x h1 with h2 | h2
    · rcases (relocNodes_mem newN oldCap newCap ((chunkWalk cs f).getD []) cs).2
          x h2 with h3 | h3
      · exact h3
      · exact hchain x h3
    · exact hchain x ((relocNodes_mem newN oldCap newCap
        ((chunkWalk cs f).getD []) cs).1 x h2)

theorem relocNodes_spec {α : Type} (newN oldCap newCap : Nat)
    (hcap : newCap = newN * LSML_CHUNK_LEN) (h2 : newCap = 2 * oldCap)
    (hpos : 0 < newCap) :
    ∀ (chain : Bucket α) (cs : List (HChunk α)),
      (∀ c ∈ cs, c.length = LSML_CHUNK_LEN) → newN ≤ cs.length → cs ≠ [] →
      nodesMS (relocNodes newN oldCap newCap cs chain).2 +
          ↑(relocNodes newN oldCap newCap cs chain).1 =
        nodesMS cs + ↑chain ∧
      (relocNodes newN oldCap newCap cs chain).2.length = cs.length ∧
      (∀ c ∈ (relocNodes newN oldCap newCap cs chain).2,
        c.length = LSML_CHUNK_LEN) ∧
      (∀ g, g < oldCap →
        chunkWalk (relocNodes newN oldCap newCap cs chain).2 g =
          chunkWalk cs g) := by
  intro chain
  induction chain with
  | nil =>
    intro cs hcl hN hne
    exact ⟨rfl, rfl, hcl, fun g _ => rfl⟩
  | cons n rest ih =>
    intro cs hcl hN hne
    rw [relocNodes_cons_eq]
    by_cases heq : lsml_mod_chunklen n.str.hash oldCap =
        lsml_mod_chunklen n.str.hash newCap
    · rw [if_pos heq]
      obtain ⟨ha, hb, hc, hd⟩ := ih cs hcl hN hne
      refine ⟨?_, hb, hc, hd⟩
      show nodesMS (relocNodes newN oldCap newCap cs rest).2 +
          ↑(n :: (relocNodes newN oldCap newCap cs rest).1) =
        nodesMS cs + ↑(n :: rest)
      have hsplit : (n :: (relocNodes newN oldCap newCap cs rest).1 : List _) =
          [n] ++ (relocNodes newN oldCap newCap cs rest).1 := rfl
      have hsplit2 : (n :: rest : List _) = [n] ++ rest := rfl
      rw [hsplit, hsplit2, ← Multiset.coe_add, ← Multiset.coe_add]
      calc nodesMS (relocNodes newN oldCap newCap cs rest).2 +
            (↑[n] + ↑(relocNodes newN oldCap newCap cs rest).1)
          = nodesMS (relocNodes newN oldCap newCap cs rest).2 +
              ↑(relocNodes newN oldCap newCap cs rest).1 + ↑[n] := by abel
        _ = nodesMS cs + ↑rest + ↑[n] := by rw [ha]
        _ = nodesMS cs + (↑[n] + ↑rest) := by abel
    · rw [if_neg heq]
      have hidx : lsml_mod_chunklen n.str.hash newCap < newN * LSML_CHUNK_LEN := by
        rw [← hcap]
        exact Nat.mod_lt _ hpos
      have hidx2 : lsml_mod_chunklen n.str.hash newCap <
          cs.length * LSML_CHUNK_LEN :=
        lt_of_lt_of_le hidx (Nat.mul_le_mul_right _ hN)
      obtain ⟨bucket, hbucket⟩ :=
        chunkWalk_isSome cs (lsml_mod_chunklen n.str.hash newCap) hcl hidx2
      have hget : lsml_cha_get_bucket cs newN
          (lsml_mod_chunklen n.str.hash newCap) = some bucket := by
        unfold lsml_cha_get_bucket
        rw [if_neg, hbucket]
        simp only [Bool.or_eq_true, not_or, List.isEmpty_eq_true, decide_eq_true_eq]
        exact ⟨hne, by omega⟩
      have hput : (lsml_hm_put_node_internal cs newN n
          (lsml_mod_chunklen n.str.hash newCap)).2 =
          chunkSet cs (lsml_mod_chunklen n.str.hash newCap) (bucket ++ [n]) := by
        unfold lsml_hm_put_node_internal
        rw [hget]
      rw [hput]
      set idx := lsml_mod_chunklen n.str.hash newCap with hidxdef
      set cs1 := chunkSet cs idx (bucket ++ [n]) with hcs1
      have hcl1 : ∀ c ∈ cs1, c.length = LSML_CHUNK_LEN :=
        chunkSet_chunk_len cs idx (bucket ++ [n]) LSML_CHUNK_LEN hcl
      have hlen1 : cs1.length = cs.length := chunkSet_length cs idx (bucket ++ [n])
      have hne1 : cs1 ≠ [] := by
        intro h
        rw [h] at hlen1
        exact hne (List.eq_nil_of_length_eq_zero hlen1.symm)
      have hms1 : nodesMS cs1 = nodesMS cs + ↑[n] := by
        have hstep := nodesMS_chunkSet cs idx bucket (bucket ++ [n]) hbucket
        rw [← Multiset.coe_add] at hstep
        have h' : nodesMS cs1 + ↑bucket = nodesMS cs + ↑[n] + ↑bucket := by
          rw [hcs1, hstep]; abel
        exact add_right_cancel h'
      have hwalk1 : ∀ g, g < oldCap → chunkWalk cs1 g = chunkWalk cs g := by
        intro g hg
        refine chunkWalk_chunkSet_ne cs idx g (bucket ++ [n]) ?_
        have hd := mod_double n.str.hash oldCap
        rw [← h2] at hd
        unfold lsml_mod_chunklen at heq hidxdef
        rcases hd with hd | hd
        · exact absurd (hidxdef.trans hd).symm heq
        · rw [hidxdef, hd]; omega
      obtain ⟨ha, hb, hc, hd⟩ := ih cs1 hcl1 (hlen1 ▸ hN) hne1
      refine ⟨?_, hb.trans hlen1, hc, fun g hg => (hd g hg).trans (hwalk1 g hg)⟩
      have hsplit2 : (n :: rest : List _) = [n] ++ rest := rfl
      rw [hsplit2, ← Multiset.coe_add]
      calc nodesMS (relocNodes newN oldCap newCap cs1 rest).2 +
            ↑(relocNodes newN oldCap newCap cs1 rest).1
          = nodesMS cs1 + ↑rest := ha
        _ = nodesMS cs + ↑[n] + ↑rest := by rw [hms1]
        _ = nodesMS cs + (↑[n] + ↑rest) := by abel

theorem relocAll_spec {α : Type} (newN oldCap newCap : Nat)
    (hcap : newCap = newN * LSML_CHUNK_LEN) (h2 : newCap = 2 * oldCap)
    (hpos : 0 < newCap) :
    ∀ (count f : Nat) (cs : List (HChunk α)),
      (∀ c ∈ cs, c.length = LSML_CHUNK_LEN) → newN ≤ cs.length → cs ≠ [] →
      f + count ≤ oldCap →
      nodesMS (relocAll newN oldCap newCap cs f count) = nodesMS cs ∧
      (relocAll newN oldCap newCap cs f count).length = cs.length ∧
      (∀ c ∈ relocAll newN oldCap newCap cs f count,
        c.length = LSML_CHUNK_LEN) := by
  intro count
  induction count with
  | zero => intro f cs hcl hN hne _; exact ⟨rfl, rfl, hcl⟩
  | succ m ih =>
    intro f cs hcl hN hne hbound
    have hfcap : f < oldCap := by omega
    have hflt : f < cs.length * LSML_CHUNK_LEN := by
      have h1 : oldCap ≤ newCap := by omega
      have h3 : newCap ≤ cs.length * LSML_CHUNK_LEN := by
        rw [hcap]
        exact Nat.mul_le_mul_right _ hN
      omega
    obtain ⟨chain, hchain⟩ := chunkWalk_isSome cs f hcl hflt
    rw [relocAll_succ_eq, hchain]
    simp only [Option.getD_some]
    obtain ⟨ha, hb, hc, hd⟩ := relocNodes_spec newN oldCap newCap hcap h2 hpos
      chain cs hcl hN hne
    set pr := relocNodes newN oldCap newCap cs chain with hpr
    have hwalk : chunkWalk pr.2 f = some chain := (hd f hfcap).trans hchain
    have hms2 : nodesMS (chunkSet pr.2 f pr.1) = nodesMS cs := by
      have hstep := nodesMS_chunkSet pr.2 f chain pr.1 hwalk
      have h' : nodesMS (chunkSet pr.2 f pr.1) + ↑chain =
          nodesMS cs + ↑chain := by
        rw [hstep, ha]
      exact add_right_cancel h'
    have hlen2 : (chunkSet pr.2 f pr.1).length = cs.length :=
      (chunkSet_length pr.2 f pr.1).trans hb
    have hcl2 : ∀ c ∈ chunkSet pr.2 f pr.1, c.length = LSML_CHUNK_LEN :=
      chunkSet_chunk_len pr.2 f pr.1 LSML_CHUNK_LEN hc
    have hne2 : chunkSet pr.2 f pr.1 ≠ [] := by
      intro h
      rw [h] at hlen2
      exact hne (List.eq_nil_of_length_eq_zero hlen2.symm)
    obtain ⟨ra, rb, rc⟩ := ih (f + 1) (chunkSet pr.2 f pr.1) hcl2
      (hlen2 ▸ hN) hne2 (by omega)
    exact ⟨ra.trans hms2, rb.trans hlen2, rc⟩

/-- A fully successful chunk-allocation loop appends exactly `n` zeroed
chunks. -/
theorem rehashAllocLoop_success {α : Type} :
    ∀ (n : Nat) (alloc : lsml_bump_alloc_t) (acc : List (HChunk α))
      (a' : lsml_bump_alloc_t) (part : List (HChunk α)),
      @rehashAllocLoop α alloc n acc = (a', part, true) →
      part = acc ++ List.replicate n (zeroChunk α) := by
  intro n
  induction n with
  | zero =>
    intro alloc acc a' part h
    simp only [rehashAllocLoop, Prod.mk.injEq] at h
    rw [← h.2.1]
    simp
  | succ m ih =>
    intro alloc acc a' part h
    simp only [rehashAllocLoop] at h
    cases hb : lsml_bump_alloc alloc SIZEOF_CHA_CHUNK PTR_ALIGN with
    | none => rw [hb] at h; simp at h
    | some pa =>
      rw [hb] at h
      obtain ⟨p, alloc1⟩ := pa
      have := ih alloc1 (acc ++ [zeroChunk α]) a' part h
      rw [this, List.append_assoc, List.replicate_succ]
      rfl

theorem relocNodes_length {α : Type} (newN oldCap newCap : Nat) :
    ∀ (chain : Bucket α) (cs : List (HChunk α)),
      (relocNodes newN oldCap newCap cs chain).2.length = cs.length := by
  intro chain
  induction chain with
  | nil => intro cs; rfl
  | cons n rest ih =>
    intro cs
    rw [relocNodes_cons_eq]
    by_cases heq : lsml_mod_chunklen n.str.hash oldCap =
        lsml_mod_chunklen n.str.hash newCap
    · rw [if_pos heq]; exact ih cs
    · rw [if_neg heq]
      rw [ih]
      unfold lsml_hm_put_node_internal
      cases h : lsml_cha_get_bucket cs newN
          (lsml_mod_chunklen n.str.hash newCap) with
      | none => rfl
      | some bucket => exact chunkSet_length cs _ _

theorem relocAll_length {α : Type} (newN oldCap newCap : Nat) :
    ∀ (count f : Nat) (cs : List (HChunk α)),
      (relocAll newN oldCap newCap cs f count).length = cs.length := by
  intro count
  induction count with
  | zero => intro f cs; rfl
  | succ m ih =>
    intro f cs
    rw [relocAll_succ_eq, ih, chunkSet_length, relocNodes_length]

theorem take_succ_ne_nil {α : Type} (cs : List α) (k : Nat) (h : cs ≠ []) :
    cs.take (k + 1) ≠ [] := by
  cases cs with
  | nil => exact absurd rfl h
  | cons c t => simp

/-- The chunk count after `lsml_hm_rehash_if_needed` is the old one or its
double, whatever the outcome. -/
theorem rehash_nchunks_cases {α : Type} (alloc : lsml_bump_alloc_t)
    (hm : chunkedHM α) (n : Nat) (err : lsml_err) (a' : lsml_bump_alloc_t)
    (hm' : chunkedHM α)
    (hrun : lsml_hm_rehash_if_needed alloc hm n = (err, a', hm')) :
    hm'.nChunks = hm.nChunks ∨ hm'.nChunks = 2 * hm.nChunks := by
  by_cases h0 : hm.nChunks = 0
  · simp only [lsml_hm_rehash_if_needed, h0, if_pos, Prod.mk.injEq] at hrun
    obtain ⟨-, -, hh⟩ := hrun
    exact Or.inl (by rw [← hh])
  by_cases hlf : n + n / 4 ≤ hm.nChunks * LSML_CHUNK_LEN
  · simp only [lsml_hm_rehash_if_needed, h0, hlf, if_neg, if_pos, ite_false,
      Prod.mk.injEq] at hrun
    obtain ⟨-, -, hh⟩ := hrun
    exact Or.inl (by rw [← hh])
  rcases hra : @rehashAllocLoop α alloc hm.nChunks [] with ⟨allocF, newPart, ok⟩
  cases ok with
  | false =>
    simp only [lsml_hm_rehash_if_needed, h0, hlf, hra, if_neg, ite_false,
      Prod.mk.injEq] at hrun
    obtain ⟨-, -, hh⟩ := hrun
    exact Or.inl (by rw [← hh])
  | true =>
    simp only [lsml_hm_rehash_if_needed, h0, hlf, hra, if_neg, ite_false,
      Prod.mk.injEq] at hrun
    obtain ⟨-, -, hh⟩ := hrun
    exact Or.inr (by rw [← hh])

/-- Rehashing never empties a nonempty chunk list. -/
theorem rehash_chunks_ne {α : Type} (alloc : lsml_bump_alloc_t)
    (hm : chunkedHM α) (n : Nat) (err : lsml_err) (a' : lsml_bump_alloc_t)
    (hm' : chunkedHM α) (hne : hm.chunks ≠ [])
    (hrun : lsml_hm_rehash_if_needed alloc hm n = (err, a', hm')) :
    hm'.chunks ≠ [] := by
  by_cases h0 : hm.nChunks = 0
  · simp only [lsml_hm_rehash_if_needed, h0, if_pos, Prod.mk.injEq] at hrun
    obtain ⟨-, -, hh⟩ := hrun
    rw [← hh]
    exact hne
  by_cases hlf : n + n / 4 ≤ hm.nChunks * LSML_CHUNK_LEN
  · simp only [lsml_hm_rehash_if_needed, h0, hlf, if_neg, if_pos, ite_false,
      Prod.mk.injEq] at hrun
    obtain ⟨-, -, hh⟩ := hrun
    rw [← hh]
    exact hne
  rcases hra : @rehashAllocLoop α alloc hm.nChunks [] with ⟨allocF, newPart, ok⟩
  cases ok with
  | false =>
    simp only [lsml_hm_rehash_if_needed, h0, hlf, hra, if_neg, ite_false,
      Prod.mk.injEq] at hrun
    obtain ⟨-, -, hh⟩ := hrun
    rw [← hh]
    by_cases hemp : newPart.isEmpty = true
    · simp only [hemp, if_pos]
      exact hne
    · simp only [hemp, Bool.false_eq_true, ite_false]
      intro hcon
      rcases List.append_eq_nil.1 hcon with ⟨h1, -⟩
      exact take_succ_ne_nil hm.chunks hm.tailIdx hne h1
  | true =>
    simp only [lsml_hm_rehash_if_needed, h0, hlf, hra, if_neg, ite_false,
      Prod.mk.injEq] at hrun
    obtain ⟨-, -, hh⟩ := hrun
    rw [← hh]
    intro hcon
    have hlenr := relocAll_length (2 * hm.nChunks) (hm.nChunks * LSML_CHUNK_LEN)
      (2 * (hm.nChunks * LSML_CHUNK_LEN)) ((hm.tailIdx + 1) * LSML_CHUNK_LEN) 0
      (hm.chunks.take (hm.tailIdx + 1) ++ newPart)
    have h2 : (hm.chunks.take (hm.tailIdx + 1) ++ newPart).length = 0 := by
      rw [← hlenr]
      exact congrArg List.length hcon
    rw [List.length_append] at h2
    have h3 : (hm.chunks.take (hm.tailIdx + 1)).length = 0 := by omega
    exact take_succ_ne_nil hm.chunks hm.tailIdx hne
      (List.eq_nil_of_length_eq_zero h3)

/-- Rehashing introduces no node that was not already in the map (in
particular it never copies or reallocates a node: every node of the
post-rehash map is one of the pre-rehash nodes, address, key and payload
included). -/
theorem rehash_mem {α : Type} (alloc : lsml_bump_alloc_t)
    (hm : chunkedHM α) (n : Nat) (err : lsml_err) (a' : lsml_bump_alloc_t)
    (hm' : chunkedHM α)
    (hrun : lsml_hm_rehash_if_needed alloc hm n = (err, a', hm')) :
    ∀ x ∈ nodesOf hm'.chunks, x ∈ nodesOf hm.chunks := by
  by_cases h0 : hm.nChunks = 0
  · simp only [lsml_hm_rehash_if_needed, h0, if_pos, Prod.mk.injEq] at hrun
    obtain ⟨-, -, hh⟩ := hrun
    rw [← hh]
    exact fun x hx => hx
  by_cases hlf : n + n / 4 ≤ hm.nChunks * LSML_CHUNK_LEN
  · simp only [lsml_hm_rehash_if_needed, h0, hlf, if_neg, if_pos, ite_false,
      Prod.mk.injEq] at hrun
    obtain ⟨-, -, hh⟩ := hrun
    rw [← hh]
    exact fun x hx => hx
  rcases hra : @rehashAllocLoop α alloc hm.nChunks [] with ⟨allocF, newPart, ok⟩
  obtain ⟨⟨k, hk⟩, -⟩ := @rehashAllocLoop_spec α hm.nChunks alloc []
  rw [hra] at hk
  simp only [List.nil_append] at hk
  cases ok with
  | false =>
    simp only [lsml_hm_rehash_if_needed, h0, hlf, hra, if_neg, ite_false,
      Prod.mk.injEq] at hrun
    obtain ⟨-, -, hh⟩ := hrun
    rw [← hh]
    by_cases hemp : newPart.isEmpty = true
    · simp only [hemp, if_pos]
      exact fun x hx => hx
    · simp only [hemp, Bool.false_eq_true, ite_false]
      intro x hx
      rw [nodesOf_append] at hx
      rcases List.mem_append.1 hx with h | h
      · exact mem_nodesOf_take hm.chunks (hm.tailIdx + 1) x h
      · rw [hk, nodesOf_zero_replicate] at h
        simp at h
  | true =>
    simp only [lsml_hm_rehash_if_needed, h0, hlf, hra, if_neg, ite_false,
      Prod.mk.injEq] at hrun
    obtain ⟨-, -, hh⟩ := hrun
    rw [← hh]
    intro x hx
    have h1 := relocAll_mem (2 * hm.nChunks) (hm.nChunks * LSML_CHUNK_LEN)
      (2 * (hm.nChunks * LSML_CHUNK_LEN)) ((hm.tailIdx + 1) * LSML_CHUNK_LEN) 0
      (hm.chunks.take (hm.tailIdx + 1) ++ newPart) x hx
    rw [nodesOf_append] at h1
    rcases List.mem_append.1 h1 with h | h
    · exact mem_nodesOf_take hm.chunks (hm.tailIdx + 1) x h
    · rw [hk, nodesOf_zero_replicate] at h
      simp at h

/-- After a successful rehash check on a map obeying the inter-insert load
bound, there is room for one more insert: the full load-factor inequality
holds for the current element count. -/
theorem rehash_ok_bound {α : Type} (alloc : lsml_bump_alloc_t)
    (hm : chunkedHM α) (n : Nat) (a' : lsml_bump_alloc_t) (hm' : chunkedHM α)
    (h1 : 1 ≤ hm.nChunks) (hload : loadBound n hm.nChunks)
    (hrun : lsml_hm_rehash_if_needed alloc hm n = (LSML_OK, a', hm')) :
    n + n / 4 ≤ hm'.nChunks * LSML_CHUNK_LEN ∧ 1 ≤ hm'.nChunks := by
  have h64 : LSML_CHUNK_LEN = 64 := rfl
  by_cases h0 : hm.nChunks = 0
  · omega
  by_cases hlf : n + n / 4 ≤ hm.nChunks * LSML_CHUNK_LEN
  · simp only [lsml_hm_rehash_if_needed, h0, hlf, if_neg, if_pos, ite_false,
      Prod.mk.injEq] at hrun
    obtain ⟨-, -, hh⟩ := hrun
    rw [← hh]
    exact ⟨hlf, h1⟩
  rcases hra : @rehashAllocLoop α alloc hm.nChunks [] with ⟨allocF, newPart, ok⟩
  cases ok with
  | false =>
    simp only [lsml_hm_rehash_if_needed, h0, hlf, hra, if_neg, ite_false,
      Prod.mk.injEq] at hrun
    exact absurd hrun.1 (by decide)
  | true =>
    simp only [lsml_hm_rehash_if_needed, h0, hlf, hra, if_neg, ite_false,
      Prod.mk.injEq] at hrun
    obtain ⟨-, -, hh⟩ := hrun
    rw [← hh]
    simp only []
    unfold loadBound at hload
    rw [h64] at hload hlf ⊢
    omega

/-- When the load-factor check fires and the rehash succeeds, the chunk
count exactly doubles. -/
theorem rehash_fired_doubles {α : Type} (alloc : lsml_bump_alloc_t)
    (hm : chunkedHM α) (n : Nat) (a' : lsml_bump_alloc_t) (hm' : chunkedHM α)
    (h1 : 1 ≤ hm.nChunks)
    (hfired : hm.nChunks * LSML_CHUNK_LEN < n + n / 4)
    (hrun : lsml_hm_rehash_if_needed alloc hm n = (LSML_OK, a', hm')) :
    hm'.nChunks = 2 * hm.nChunks := by
  by_cases h0 : hm.nChunks = 0
  · omega
  by_cases hlf : n + n / 4 ≤ hm.nChunks * LSML_CHUNK_LEN
  · omega
  rcases hra : @rehashAllocLoop α alloc hm.nChunks [] with ⟨allocF, newPart, ok⟩
  cases ok with
  | false =>
    simp only [lsml_hm_rehash_if_needed, h0, hlf, hra, if_neg, ite_false,
      Prod.mk.injEq] at hrun
    exact absurd hrun.1 (by decide)
  | true =>
    simp only [lsml_hm_rehash_if_needed, h0, hlf, hra, if_neg, ite_false,
      Prod.mk.injEq] at hrun
    obtain ⟨-, -, hh⟩ := hrun
    rw [← hh]

/-- A successful rehash of a well-formed map (chunk list length matching the
chunk count, tail at the last chunk, full chunks) preserves the node
multiset exactly: every node survives, none is duplicated, and node identity
(address, key, payload) is untouched. -/
theorem rehash_nodes_preserved {α : Type} (alloc : lsml_bump_alloc_t)
    (hm : chunkedHM α) (n : Nat) (a' : lsml_bump_alloc_t) (hm' : chunkedHM α)
    (hlen : hm.chunks.length = hm.nChunks)
    (htail : hm.tailIdx + 1 = hm.nChunks)
    (hcl : ∀ c ∈ hm.chunks, c.length = LSML_CHUNK_LEN)
    (hrun : lsml_hm_rehash_if_needed alloc hm n = (LSML_OK, a', hm')) :
    nodesMS hm'.chunks = nodesMS hm.chunks := by
  have h64 : LSML_CHUNK_LEN = 64 := rfl
  by_cases h0 : hm.nChunks = 0
  · simp only [lsml_hm_rehash_if_needed, h0, if_pos, Prod.mk.injEq] at hrun
    obtain ⟨-, -, hh⟩ := hrun
    rw [← hh]
  by_cases hlf : n + n / 4 ≤ hm.nChunks * LSML_CHUNK_LEN
  · simp only [lsml_hm_rehash_if_needed, h0, hlf, if_neg, if_pos, ite_false,
      Prod.mk.injEq] at hrun
    obtain ⟨-, -, hh⟩ := hrun
    rw [← hh]
  rcases hra : @rehashAllocLoop α alloc hm.nChunks [] with ⟨allocF, newPart, ok⟩
  cases ok with
  | false =>
    simp only [lsml_hm_rehash_if_needed, h0, hlf, hra, if_neg, ite_false,
      Prod.mk.injEq] at hrun
    exact absurd hrun.1 (by decide)
  | true =>
    simp only [lsml_hm_rehash_if_needed, h0, hlf, hra, if_neg, ite_false,
      Prod.mk.injEq] at hrun
    obtain ⟨-, -, hh⟩ := hrun
    rw [← hh]
    have hpart : newPart = List.replicate hm.nChunks (zeroChunk α) :=
      rehashAllocLoop_success hm.nChunks alloc [] allocF newPart hra
    have hbase : hm.chunks.take (hm.tailIdx + 1) = hm.chunks := by
      rw [htail, ← hlen, List.take_length]
    have hcs : hm.chunks.take (hm.tailIdx + 1) ++ newPart =
        hm.chunks ++ List.replicate hm.nChunks (zeroChunk α) := by
      rw [hbase, hpart]
    have hcl' : ∀ c ∈ hm.chunks ++ List.replicate hm.nChunks (zeroChunk α),
        c.length = LSML_CHUNK_LEN := by
      intro c hc
      rcases List.mem_append.1 hc with h | h
      · exact hcl c h
      · rw [List.eq_of_mem_replicate h]
        exact zeroChunk_length
    have hlen' : (hm.chunks ++ List.replicate hm.nChunks (zeroChunk α)).length =
        2 * hm.nChunks := by
      simp [hlen]
      omega
    have hne' : hm.chunks ++ List.replicate hm.nChunks (zeroChunk α) ≠ [] := by
      intro hcon
      have := congrArg List.length hcon
      rw [hlen'] at this
      simp at this
      omega
    obtain ⟨ra, -, -⟩ := relocAll_spec (2 * hm.nChunks)
      (hm.nChunks * LSML_CHUNK_LEN) (2 * (hm.nChunks * LSML_CHUNK_LEN))
      (by ring) rfl (by rw [h64]; omega)
      ((hm.tailIdx + 1) * LSML_CHUNK_LEN) 0
      (hm.chunks ++ List.replicate hm.nChunks (zeroChunk α))
      hcl' (by rw [hlen']) hne'
      (by rw [htail]; omega)
    simp only []
    rw [hcs, ra, nodesMS_append]
    have hz : nodesMS (List.replicate hm.nChunks (zeroChunk α)) =
        (0 : Multiset (hmNode α)) := by
      unfold nodesMS
      rw [nodesOf_zero_replicate]
      rfl
    rw [hz, add_zero]

/-- `lsml_hm_get_or_create_node` adds at most one element, keeps the chunk
list length, and introduces at most the one zero-payload node. -/
theorem goc_spec {α : Type} (alloc : lsml_bump_alloc_t) (cs : List (HChunk α))
    (n nc : Nat) (key : lsml_reg_str_t) (sz : Nat) (z : α) :
    ((lsml_hm_get_or_create_node alloc cs n nc key sz z).n_elems = n ∨
      (lsml_hm_get_or_create_node alloc cs n nc key sz z).n_elems = n + 1) ∧
    (lsml_hm_get_or_create_node alloc cs n nc key sz z).chunks.length =
      cs.length ∧
    (∀ x ∈ nodesOf (lsml_hm_get_or_create_node alloc cs n nc key sz z).chunks,
      x ∈ nodesOf cs ∨ x.payload = z) := by
  cases hb : lsml_cha_get_bucket cs nc
      (lsml_mod_chunklen key.hash (nc * LSML_CHUNK_LEN)) with
  | none =>
    have hres : lsml_hm_get_or_create_node alloc cs n nc key sz z =
        ⟨none, false, alloc, cs, n⟩ := by
      simp only [lsml_hm_get_or_create_node, hb]
    rw [hres]
    exact ⟨Or.inl rfl, rfl, fun x hx => Or.inl hx⟩
  | some bucket =>
    cases hf : bucket.find? (fun nd => nd.str.id == key.id) with
    | some nd =>
      have hres : lsml_hm_get_or_create_node alloc cs n nc key sz z =
          ⟨some nd, false, alloc, cs, n⟩ := by
        simp only [lsml_hm_get_or_create_node, hb, hf]
      rw [hres]
      exact ⟨Or.inl rfl, rfl, fun x hx => Or.inl hx⟩
    | none =>
      cases ha : lsml_bump_alloc alloc sz PTR_ALIGN with
      | none =>
        have hres : lsml_hm_get_or_create_node alloc cs n nc key sz z =
            ⟨none, false, alloc, cs, n⟩ := by
          simp only [lsml_hm_get_or_create_node, hb, hf, ha]
        rw [hres]
        exact ⟨Or.inl rfl, rfl, fun x hx => Or.inl hx⟩
      | some pa =>
        obtain ⟨addr, alloc1⟩ := pa
        have hres : lsml_hm_get_or_create_node alloc cs n nc key sz z =
            ⟨some ⟨addr, key, z⟩, true, alloc1,
              chunkSet cs (lsml_mod_chunklen key.hash (nc * LSML_CHUNK_LEN))
                (bucket ++ [⟨addr, key, z⟩]), n + 1⟩ := by
          simp only [lsml_hm_get_or_create_node, hb, hf, ha]
        rw [hres]
        refine ⟨Or.inr rfl, chunkSet_length cs _ _, ?_⟩
        intro x hx
        rcases mem_nodesOf_chunkSet cs _ _ x hx with h | h
        · exact Or.inl h
        · rcases List.mem_append.1 h with h' | h'
          · exact Or.inl (cha_get_bucket_mem cs nc _ bucket hb x h')
          · simp only [List.mem_singleton] at h'
            exact Or.inr (by rw [h'])

/-- `hmSetPayload` only rewrites payloads to the given one, keeping the
chunk list length. -/
theorem hmSetPayload_spec {α : Type} (cs : List (HChunk α)) (i keyId : Nat)
    (p : α) :
    (∀ x ∈ nodesOf (hmSetPayload cs i keyId p),
      x ∈ nodesOf cs ∨ x.payload = p) ∧
    (hmSetPayload cs i keyId p).length = cs.length := by
  cases hb : lsml_cha_get_bucket cs cs.length i with
  | none =>
    have hres : hmSetPayload cs i keyId p = cs := by
      simp only [hmSetPayload, hb]
    rw [hres]
    exact ⟨fun x hx => Or.inl hx, rfl⟩
  | some bucket =>
    have hres : hmSetPayload cs i keyId p =
        chunkSet cs i (bucket.map (fun nd =>
          if nd.str.id = keyId then { nd with payload := p } else nd)) := by
      simp only [hmSetPayload, hb]
    rw [hres]
    refine ⟨?_, chunkSet_length cs _ _⟩
    intro x hx
    rcases mem_nodesOf_chunkSet cs _ _ x hx with h | h
    · exact Or.inl h
    · rcases List.mem_map.1 h with ⟨y, hy, hxy⟩
      by_cases hid : y.str.id = keyId
      · rw [if_pos hid] at hxy
        exact Or.inr (by rw [← hxy])
      · rw [if_neg hid] at hxy
        exact Or.inl (cha_get_bucket_mem cs cs.length i bucket hb x (hxy ▸ hy))

/-- Membership description of a payload-rewriting map over every node. -/
theorem mem_nodesOf_map {α : Type} (cs : List (HChunk α))
    (f : hmNode α → hmNode α) :
    ∀ x ∈ nodesOf (cs.map (fun c => c.map (fun bucket => bucket.map f))),
      ∃ y ∈ nodesOf cs, x = f y := by
  intro x hx
  simp only [nodesOf, List.mem_flatten, List.mem_map] at hx ⊢
  obtain ⟨l, ⟨c', ⟨c, hc, hcc⟩, hl⟩, hxl⟩ := hx
  subst hcc
  subst hl
  rcases List.mem_flatten.1 hxl with ⟨b', hb', hxb'⟩
  rcases List.mem_map.1 hb' with ⟨b, hb, hbb⟩
  subst hbb
  rcases List.mem_map.1 hxb' with ⟨y, hy, hxy⟩
  exact ⟨y, ⟨c.flatten, ⟨c, hc, rfl⟩, List.mem_flatten.2 ⟨b, hb, hy⟩⟩, hxy.symm⟩

/-- `setSectionBody` leaves the map shape and section count unchanged and
only rewrites payloads to the given body. -/
theorem setSectionBody_mem (data : lsml_data_t) (secId : Nat)
    (b : sectionBody) :
    ∀ x ∈ nodesOf (setSectionBody data secId b).sections.chunks,
      x ∈ nodesOf data.sections.chunks ∨ x.payload = b := by
  intro x hx
  have h := mem_nodesOf_map data.sections.chunks
    (fun n => if n.str.id = secId then { n with payload := b } else n) x hx
  rcases h with ⟨y, hy, hxy⟩
  simp only [] at hxy
  by_cases hid : y.str.id = secId
  · rw [if_pos hid] at hxy
    exact Or.inr (by rw [hxy])
  · rw [if_neg hid] at hxy
    exact Or.inl (hxy ▸ hy)

theorem getSectionBody_mem (data : lsml_data_t) (secId : Nat) (b : sectionBody)
    (h : getSectionBody data secId = some b) :
    ∃ node ∈ nodesOf data.sections.chunks, node.payload = b := by
  unfold getSectionBody at h
  cases hf : (data.sections.chunks.map (fun c => c.flatten)).flatten.find?
      (fun n => n.str.id == secId) with
  | none => rw [hf] at h; simp at h
  | some nd =>
    rw [hf] at h
    simp only [Option.some.injEq] at h
    exact ⟨nd, List.mem_of_find?_eq_some hf, h⟩

theorem loadBound_mono {n k k' : Nat} (h : loadBound n k) (hk : k ≤ k') :
    loadBound n k' := by
  unfold loadBound at *
  rcases h with h | h
  · exact Or.inl h
  · exact Or.inr (le_trans h (Nat.mul_le_mul_right _ hk))

theorem loadBound_of_room {n k : Nat}
    (h : n + n / 4 ≤ k * LSML_CHUNK_LEN) :
    loadBound (n + 1) k ∧ loadBound n k := by
  have h64 : LSML_CHUNK_LEN = 64 := rfl
  unfold loadBound
  rw [h64] at h ⊢
  constructor
  · right; omega
  · right; omega

theorem tblOK_zero : tblOK zeroSectionBody := by
  intro hrow
  refine ⟨Or.inl rfl, fun _ => ⟨rfl, rfl⟩, fun hc => ?_⟩
  simp [zeroSectionBody] at hc

theorem tblOK_row (b : sectionBody) (rows : List Nat)
    (h : b.row_indices = some rows) : tblOK b := by
  intro hrow
  rw [h] at hrow
  exact absurd hrow (by simp)

/-- Registering a string never touches the section map or the section
count. -/
theorem register_string_sections (d : lsml_data_t) (s : List Nat) (m : Bool) :
    (lsml_data_register_string d s m).2.1.sections = d.sections ∧
    (lsml_data_register_string d s m).2.1.n_sections = d.n_sections := by
  unfold lsml_data_register_string
  simp only []
  repeat' split
  all_goals exact ⟨rfl, rfl⟩

/-- A fresh document satisfies the invariant. -/
theorem data_new_docINV (size : Nat) (d : lsml_data_t)
    (h : lsml_data_new size = some d) : docINV d := by
  have hz : nodesOf [zeroChunk sectionBody] = [] := by
    rw [← List.replicate_one]
    exact nodesOf_zero_replicate 1
  unfold lsml_data_new at h
  repeat' split at h
  all_goals simp only [Option.some.injEq, reduceCtorEq] at h
  rw [← h]
  refine ⟨Nat.le_refl 1, Or.inl rfl, ?_⟩
  intro node hn
  rw [hz] at hn
  exact absurd hn (by simp)

theorem add_section_internal_docINV (d : lsml_data_t) (reg : lsml_reg_str_t)
    (ty : lsml_section_type) (hinv : docINV d) :
    docINV (lsml_data_add_section_internal d reg ty).2.1 := by
  obtain ⟨h1, h2, h3⟩ := hinv
  rcases hre : lsml_hm_rehash_if_needed d.alloc d.sections d.n_sections with
    ⟨err, alloc1, sections1⟩
  have hnc := rehash_nchunks_cases d.alloc d.sections d.n_sections err alloc1
    sections1 hre
  have h1' : 1 ≤ sections1.nChunks := by rcases hnc with h | h <;> omega
  have hmem1 := rehash_mem d.alloc d.sections d.n_sections err alloc1
    sections1 hre
  have h2' : loadBound d.n_sections sections1.nChunks := by
    rcases hnc with h | h
    · rw [h]; exact h2
    · exact loadBound_mono h2 (by omega)
  by_cases herr : err = LSML_OK
  · subst herr
    have hbound := rehash_ok_bound d.alloc d.sections d.n_sections alloc1
      sections1 h1 h2 hre
    simp only [lsml_data_add_section_internal, hre, ne_eq, not_true_eq_false,
      ite_false, if_false]
    generalize hr : lsml_hm_get_or_create_node alloc1 sections1.chunks
      d.n_sections sections1.nChunks reg SIZEOF_SECTION zeroSectionBody = r
    have hg := goc_spec alloc1 sections1.chunks d.n_sections sections1.nChunks
      reg SIZEOF_SECTION zeroSectionBody
    rw [hr] at hg
    obtain ⟨hgn, -, hgmem⟩ := hg
    have hd1 : docINV
        { d with
            alloc := r.alloc
            sections := { sections1 with chunks := r.chunks }
            n_sections := r.n_elems } := by
      refine ⟨h1', ?_, ?_⟩
      · show loadBound r.n_elems sections1.nChunks
        rcases hgn with h | h
        · rw [h]; exact (loadBound_of_room hbound.1).2
        · rw [h]; exact (loadBound_of_room hbound.1).1
      · intro x hx
        rcases hgmem x hx with h | h
        · exact h3 x (hmem1 x h)
        · rw [h]; exact tblOK_zero
    by_cases hwc : r.was_created = true
    · rw [if_neg (by simp [hwc])]
      by_cases hnn : r.node.isNone = true
      · rw [if_pos hnn]
        exact hd1
      · rw [if_neg hnn]
        by_cases hty : ty = LSML_ARRAY
        · rw [if_pos hty]
          cases hba : lsml_bump_alloc r.alloc SIZEOF_ROWS_INDEX PTR_ALIGN with
          | none => exact hd1
          | some pa =>
            obtain ⟨p, a2⟩ := pa
            obtain ⟨hd1a, hd1b, hd1c⟩ := hd1
            refine ⟨hd1a, hd1b, ?_⟩
            intro x hx
            have hsp := (hmSetPayload_spec r.chunks
              (keyIndex reg.hash sections1.nChunks) reg.id
              { zeroSectionBody with row_indices := some [0] }).1 x hx
            rcases hsp with h | h
            · exact hd1c x h
            · exact fun hrow => absurd (h ▸ hrow) (by simp)
        · rw [if_neg hty]
          exact hd1
    · rw [if_pos (by simp [hwc])]
      exact hd1
  · simp only [lsml_data_add_section_internal, hre, ne_eq, herr,
      not_false_eq_true, ite_true, if_true]
    refine ⟨h1', h2', ?_⟩
    intro x hx
    exact h3 x (hmem1 x hx)

theorem isEmpty_false_of_ne {β : Type} (l : List β) (h : l ≠ []) :
    l.isEmpty = false := by
  cases l with
  | nil => exact absurd rfl h
  | cons a t => rfl

theorem tblOK_of_table (b : sectionBody) (hload : loadBound b.n_elems b.n_chunks)
    (hne : b.tbl ≠ []) (hnc : 1 ≤ b.n_chunks) : tblOK b := by
  intro _
  refine ⟨hload, ?_, fun _ => hnc⟩
  intro hemp
  rw [isEmpty_false_of_ne b.tbl hne] at hemp
  exact absurd hemp (by simp)

theorem setSectionBody_docINV (d0 : lsml_data_t) (secId : Nat)
    (b : sectionBody) (hinv : docINV d0) (htb : tblOK b) :
    docINV (setSectionBody d0 secId b) := by
  obtain ⟨h1, h2, h3⟩ := hinv
  refine ⟨h1, h2, ?_⟩
  intro x hx
  rcases setSectionBody_mem d0 secId b x hx with h | h
  · exact h3 x h
  · rw [h]; exact htb

/-- Invariant preservation by the tail of `lsml_table_add_entry_internal`
after the lazy first-chunk step: the rehash/insert/payload-write sequence. -/
theorem table_entry_tail_docINV (d : lsml_data_t) (secId : Nat)
    (key value : lsml_reg_str_t) (alloc1 : lsml_bump_alloc_t)
    (body1 : sectionBody) (hinv : docINV d) (hrow : body1.row_indices = none)
    (hload : loadBound body1.n_elems body1.n_chunks)
    (hnc : 1 ≤ body1.n_chunks) (htne : body1.tbl ≠ []) :
    docINV
      (match lsml_hm_rehash_if_needed alloc1
          ⟨body1.tbl, body1.lastChunkIdx, body1.n_chunks⟩ body1.n_elems with
       | (err, alloc2, hm2) =>
         let body2 := { body1 with
                          tbl := hm2.chunks
                          lastChunkIdx := hm2.tailIdx
                          n_chunks := hm2.nChunks }
         let data2 := setSectionBody { d with alloc := alloc2 } secId body2
         if err ≠ LSML_OK then (err, data2)
         else
           let r := lsml_hm_get_or_create_node alloc2 body2.tbl body2.n_elems
             body2.n_chunks key SIZEOF_TABLE_NODE (none : Option Nat)
           let body3 := { body2 with tbl := r.chunks, n_elems := r.n_elems }
           let data3 := setSectionBody { d with alloc := r.alloc } secId body3
           match r.node with
           | none => (LSML_ERR_OUT_OF_MEMORY, data3)
           | some _ =>
             if ¬ r.was_created then (LSML_ERR_TABLE_KEY_REUSED, data3)
             else
               let idx := keyIndex key.hash body3.n_chunks
               let body4 := { body3 with
                 tbl := hmSetPayload body3.tbl idx key.id (some value.id) }
               (LSML_OK, setSectionBody { d with alloc := r.alloc } secId body4)).2
    := by
  rcases hre : lsml_hm_rehash_if_needed alloc1
      ⟨body1.tbl, body1.lastChunkIdx, body1.n_chunks⟩ body1.n_elems with
    ⟨err, alloc2, hm2⟩
  have hm2cases : hm2.nChunks = body1.n_chunks ∨
      hm2.nChunks = 2 * body1.n_chunks :=
    rehash_nchunks_cases alloc1
      ⟨body1.tbl, body1.lastChunkIdx, body1.n_chunks⟩ body1.n_elems err alloc2
      hm2 hre
  have hm2nc : 1 ≤ hm2.nChunks := by
    rcases hm2cases with h | h <;> rw [h] <;> omega
  have hm2ne : hm2.chunks ≠ [] := rehash_chunks_ne alloc1
    ⟨body1.tbl, body1.lastChunkIdx, body1.n_chunks⟩ body1.n_elems err alloc2
    hm2 htne hre
  have hload2 : loadBound body1.n_elems hm2.nChunks := by
    rcases hm2cases with h | h
    · rw [h]; exact hload
    · refine loadBound_mono hload ?_
      rw [h]; omega
  have htbl2 : tblOK
      ({ body1 with
           tbl := hm2.chunks
           lastChunkIdx := hm2.tailIdx
           n_chunks := hm2.nChunks } : sectionBody) :=
    tblOK_of_table _ hload2 hm2ne hm2nc
  simp only []
  by_cases herr : err = LSML_OK
  · subst herr
    rw [if_neg (by simp)]
    have hbound := rehash_ok_bound alloc1
      ⟨body1.tbl, body1.lastChunkIdx, body1.n_chunks⟩ body1.n_elems alloc2
      hm2 hnc hload hre
    generalize hr : lsml_hm_get_or_create_node alloc2 hm2.chunks
      body1.n_elems hm2.nChunks key SIZEOF_TABLE_NODE (none : Option Nat) = r
    have hg := goc_spec alloc2 hm2.chunks body1.n_elems hm2.nChunks key
      SIZEOF_TABLE_NODE (none : Option Nat)
    rw [hr] at hg
    obtain ⟨hgn, hglen, -⟩ := hg
    have hrne : r.chunks ≠ [] := by
      intro hcon
      rw [hcon] at hglen
      exact hm2ne (List.eq_nil_of_length_eq_zero hglen.symm)
    have hload3 : loadBound r.n_elems hm2.nChunks := by
      rcases hgn with h | h
      · rw [h]; exact (loadBound_of_room hbound.1).2
      · rw [h]; exact (loadBound_of_room hbound.1).1
    have htbl3 : tblOK
        ({ body1 with
             tbl := r.chunks
             lastChunkIdx := hm2.tailIdx
             n_chunks := hm2.nChunks
             n_elems := r.n_elems } : sectionBody) :=
      tblOK_of_table _ hload3 hrne hm2nc
    cases hnode : r.node with
    | none => exact setSectionBody_docINV _ secId _ hinv htbl3
    | some nd =>
      by_cases hwc : r.was_created = true
      · rw [if_neg (by simp [hwc])]
        have hsp := hmSetPayload_spec r.chunks
          (keyIndex key.hash hm2.nChunks) key.id (some value.id)
        have hne4 : hmSetPayload r.chunks (keyIndex key.hash hm2.nChunks)
            key.id (some value.id) ≠ [] := by
          intro hcon
          have := hsp.2
          rw [hcon] at this
          exact hrne (List.eq_nil_of_length_eq_zero this.symm)
        have htbl4 : tblOK
            ({ body1 with
                 tbl := hmSetPayload r.chunks (keyIndex key.hash hm2.nChunks)
                   key.id (some value.id)
                 lastChunkIdx := hm2.tailIdx
                 n_chunks := hm2.nChunks
                 n_elems := r.n_elems } : sectionBody) :=
          tblOK_of_table _ hload3 hne4 hm2nc
        exact setSectionBody_docINV _ secId _ hinv htbl4
      · rw [if_pos (by simp [hwc])]
        exact setSectionBody_docINV _ secId _ hinv htbl3
  · rw [if_pos herr]
    exact setSectionBody_docINV _ secId _ hinv htbl2

theorem table_add_entry_internal_docINV (d : lsml_data_t) (secId : Nat)
    (key value : lsml_reg_str_t) (hinv : docINV d) :
    docINV (lsml_table_add_entry_internal d secId key value).2 := by
  unfold lsml_table_add_entry_internal
  split
  · exact hinv
  rename_i body hgb
  have htbl : tblOK body := by
    obtain ⟨node, hnmem, hnp⟩ := getSectionBody_mem d secId body hgb
    rw [← hnp]
    exact hinv.2.2 node hnmem
  split
  · exact hinv
  rename_i hrows
  have hrow : body.row_indices = none := by
    cases hb : body.row_indices with
    | none => rfl
    | some rows => rw [hb] at hrows; exact absurd rfl hrows
  obtain ⟨hbload, hbemp, hbnon⟩ := htbl hrow
  split
  · exact hinv
  rename_i alloc1 body1 hlazy
  by_cases hE : body.tbl.isEmpty = true
  · rw [if_pos hE] at hlazy
    obtain ⟨hz1, hz2⟩ := hbemp hE
    cases hba : lsml_bump_alloc d.alloc SIZEOF_CHA_CHUNK PTR_ALIGN with
    | none => rw [hba] at hlazy; exact absurd hlazy (by simp)
    | some pa =>
      obtain ⟨q, a1⟩ := pa
      rw [hba] at hlazy
      simp only [Option.some.injEq, Prod.mk.injEq] at hlazy
      obtain ⟨ha1, hb1⟩ := hlazy
      subst ha1
      subst hb1
      refine table_entry_tail_docINV d secId key value a1
        { body with
            tbl := [zeroChunk (Option Nat)]
            n_chunks := 1
            lastChunkIdx := 0 } hinv hrow ?_ (Nat.le_refl 1) (by simp)
      show loadBound body.n_elems 1
      rw [hz2]
      exact Or.inl rfl
  · rw [if_neg hE] at hlazy
    simp only [Option.some.injEq, Prod.mk.injEq] at hlazy
    obtain ⟨ha1, hb1⟩ := hlazy
    subst ha1
    subst hb1
    have hne : body.tbl ≠ [] := by
      intro hcon
      rw [hcon] at hE
      exact hE rfl
    exact table_entry_tail_docINV d secId key value d.alloc body hinv hrow
      hbload (hbnon (by rw [isEmpty_false_of_ne body.tbl hne])) hne

theorem array_add_entry_internal_docINV (d : lsml_data_t) (secId : Nat)
    (valueId : Nat) (newrow : Bool) (hinv : docINV d) :
    docINV (lsml_array_add_entry_internal d secId valueId newrow).2 := by
  unfold lsml_array_add_entry_internal
  split
  · exact hinv
  rename_i body hgb
  split
  · exact hinv
  rename_i rows hrows
  split
  · exact hinv
  rename_i alloc1 body1 hlazy
  have hrow1 : body1.row_indices = some rows := by
    by_cases hE : body.arr.isEmpty = true
    · rw [if_pos hE] at hlazy
      cases hba : lsml_bump_alloc d.alloc SIZEOF_CHA_CHUNK PTR_ALIGN with
      | none => rw [hba] at hlazy; exact absurd hlazy (by simp)
      | some pa =>
        obtain ⟨q, a1⟩ := pa
        rw [hba] at hlazy
        simp only [Option.some.injEq, Prod.mk.injEq] at hlazy
        rw [← hlazy.2]
        exact hrows
    · rw [if_neg hE] at hlazy
      simp only [Option.some.injEq, Prod.mk.injEq] at hlazy
      rw [← hlazy.2]
      exact hrows
  split
  · exact setSectionBody_docINV { d with alloc := alloc1 } secId body1 hinv
      (tblOK_row body1 rows hrow1)
  rename_i alloc2 body2 hgrow
  have hrow2 : body2.row_indices = some rows := by
    by_cases hG : body1.n_elems ≥ body1.n_chunks * LSML_CHUNK_LEN
    · rw [if_pos hG] at hgrow
      cases hba : lsml_bump_alloc alloc1 SIZEOF_CHA_CHUNK PTR_ALIGN with
      | none => rw [hba] at hgrow; exact absurd hgrow (by simp)
      | some pa =>
        obtain ⟨q, a2⟩ := pa
        rw [hba] at hgrow
        simp only [Option.some.injEq, Prod.mk.injEq] at hgrow
        rw [← hgrow.2]
        exact hrow1
    · rw [if_neg hG] at hgrow
      simp only [Option.some.injEq, Prod.mk.injEq] at hgrow
      rw [← hgrow.2]
      exact hrow1
  split
  · simp only []
    split
    · exact setSectionBody_docINV { d with alloc := alloc2 } secId _ hinv
        (tblOK_row _ rows hrow2)
    · exact setSectionBody_docINV { d with alloc := alloc2 } secId _ hinv
        (tblOK_row _ rows hrow2)
  · rename_i p a3 hba3
    simp only []
    split
    · exact setSectionBody_docINV { d with alloc := a3 } secId _ hinv
        (tblOK_row _ _ rfl)
    · exact setSectionBody_docINV { d with alloc := alloc2 } secId _ hinv
        (tblOK_row _ rows hrow2)

/-- Registering a string preserves the document invariant (it never touches
the section map). -/
theorem register_string_docINV (d : lsml_data_t) (s : List Nat) (m : Bool)
    (hinv : docINV d) : docINV (lsml_data_register_string d s m).2.1 := by
  have hs := register_string_sections d s m
  obtain ⟨i1, i2, i3⟩ := hinv
  refine ⟨?_, ?_, ?_⟩
  · rw [hs.1]; exact i1
  · rw [hs.1, hs.2]; exact i2
  · rw [hs.1]; exact i3

theorem add_section_docINV (d : lsml_data_t) (ty : lsml_section_type)
    (name : List Nat) (hinv : docINV d) :
    docINV (lsml_data_add_section d ty name).2.1 := by
  unfold lsml_data_add_section
  split
  · exact hinv
  rcases hreg : lsml_data_register_string d name false with ⟨err, d1, reg?⟩
  have hinv1 : docINV d1 := by
    have h := register_string_docINV d name false hinv
    rw [hreg] at h
    exact h
  simp only []
  by_cases herr : err = LSML_OK
  · subst herr
    rw [if_neg (by simp)]
    split
    · exact hinv1
    rename_i reg
    rcases hre2 : lsml_hm_rehash_if_needed d1.alloc d1.strings d1.n_strings with
      ⟨err2, alloc2, strings2⟩
    simp only []
    have hinv2 : docINV
        { d1 with alloc := alloc2, strings := strings2 } := hinv1
    by_cases herr2 : err2 = LSML_OK
    · subst herr2
      rw [if_neg (by simp)]
      exact add_section_internal_docINV _ reg ty hinv2
    · rw [if_pos herr2]
      exact hinv2
  · rw [if_pos herr]
    exact hinv1

theorem table_add_entry_docINV (d : lsml_data_t) (secId : Nat)
    (key_name value : List Nat) (hinv : docINV d) :
    docINV (lsml_table_add_entry d secId key_name value).2 := by
  unfold lsml_table_add_entry
  split
  · exact hinv
  split
  · exact hinv
  rcases hreg : lsml_data_register_string d key_name false with ⟨err, d1, key?⟩
  have hinv1 : docINV d1 := by
    have h := register_string_docINV d key_name false hinv
    rw [hreg] at h
    exact h
  simp only []
  by_cases herr : err = LSML_OK
  · subst herr
    rw [if_neg (by simp)]
    split
    · split
      · exact hinv1
      rcases hreg2 : lsml_data_register_string d1 value false with
        ⟨err2, d2, val?⟩
      have hinv2 : docINV d2 := by
        have h := register_string_docINV d1 value false hinv1
        rw [hreg2] at h
        exact h
      simp only []
      by_cases herr2 : err2 = LSML_OK
      · subst herr2
        rw [if_neg (by simp)]
        split
        · exact hinv2
        exact table_add_entry_internal_docINV d2 secId _ _ hinv2
      · rw [if_pos herr2]
        exact hinv2
    · exact hinv1
  · rw [if_pos herr]
    exact hinv1

theorem array_push_docINV (d : lsml_data_t) (secId : Nat) (val : List Nat)
    (newrow : Bool) (hinv : docINV d) :
    docINV (lsml_array_push d secId val newrow).2 := by
  unfold lsml_array_push
  split
  · exact hinv
  split
  · exact hinv
  rcases hreg : lsml_data_register_string d val false with ⟨err, d1, reg?⟩
  have hinv1 : docINV d1 := by
    have h := register_string_docINV d val false hinv
    rw [hreg] at h
    exact h
  simp only []
  by_cases herr : err = LSML_OK
  · subst herr
    rw [if_neg (by simp)]
    split
    · exact hinv1
    rename_i reg
    exact array_add_entry_internal_docINV d1 secId reg.id newrow hinv1
  · rw [if_pos herr]
    exact hinv1

/-- Every API-reachable document satisfies the load-bound invariant. -/
theorem docReachable_docINV (d : lsml_data_t) (h : DocReachable d) :
    docINV d := by
  induction h with
  | new size d0 hnew => exact data_new_docINV size d0 hnew
  | add_section d0 ty name _ ih => exact add_section_docINV d0 ty name ih
  | table_add d0 s k v _ ih => exact table_add_entry_docINV d0 s k v ih
  | array_push d0 s v nr _ ih => exact array_push_docINV d0 s v nr ih
  | register d0 s m _ ih => exact register_string_docINV d0 s m ih

/-- 52 one-byte-named table sections added to a fresh document (the 52nd
insert passes the pre-insert check at 51 elements, so no rehash fires). -/
def run52 : lsml_data_t :=
  (List.range 52).foldl
    (fun d i => (lsml_data_add_section d LSML_TABLE [65 + i]).2.1) demoDoc0

theorem foldl_add_section_reachable (l : List Nat) (d : lsml_data_t)
    (h : DocReachable d) :
    DocReachable (l.foldl
      (fun d i => (lsml_data_add_section d LSML_TABLE [65 + i]).2.1) d) := by
  induction l generalizing d with
  | nil => exact h
  | cons a t ih => exact ih _ (DocReachable.add_section d LSML_TABLE [65 + a] h)

theorem demoDoc0_reachable : DocReachable demoDoc0 :=
  DocReachable.new 100000 demoDoc0 rfl

theorem run52_reachable : DocReachable run52 :=
  foldl_add_section_reachable (List.range 52) demoDoc0 demoDoc0_reachable

/-- Claim C7, counterexample: a reachable document (52 table sections added
to a fresh document) whose section map holds 52 elements in a single
64-bucket chunk — load factor 52/64 = 0.8125 > 0.8.  The check
`n + n/4 <= cap` runs BEFORE each insert, so the bound the code maintains
lags one insert behind the claimed invariant. -/
theorem C7_load_factor_counterexample :
    DocReachable run52 ∧
    (run52.n_sections = 52 ∧ run52.sections.nChunks = 1 ∧
      4 * (run52.sections.nChunks * LSML_CHUNK_LEN) < 5 * run52.n_sections) :=
  ⟨run52_reachable, by decide⟩

/-- Claim C7, amended: (1) for every API-reachable document, the section map
and every table section obey the inter-insert load bound — the load-factor
check `n + n/4 <= cap` runs before each insert, so with `n` elements stored
the bound provably holding is `(n-1) + (n-1)/4 <= cap`, not `n + n/4 <= cap`
(and the string-intern map obeys no bound at all on the
`lsml_table_add_entry`/`lsml_array_push` paths, which register strings
without ever rehashing the string map); (2) when the check fires and the
rehash succeeds the bucket-chunk count exactly doubles; (3) a successful
rehash of a well-formed map preserves the node multiset exactly — no node
is created, dropped, duplicated, or changes identity (address, key and
payload are untouched). -/
theorem C7_load_factor_amended :
    (∀ d : lsml_data_t, DocReachable d →
      loadBound d.n_sections d.sections.nChunks ∧
      ∀ node ∈ nodesOf d.sections.chunks, node.payload.row_indices = none →
        loadBound node.payload.n_elems node.payload.n_chunks) ∧
    (∀ (α : Type) (alloc : lsml_bump_alloc_t) (hm : chunkedHM α)
        (n : Nat) (a' : lsml_bump_alloc_t) (hm' : chunkedHM α),
      1 ≤ hm.nChunks → hm.nChunks * LSML_CHUNK_LEN < n + n / 4 →
      lsml_hm_rehash_if_needed alloc hm n = (LSML_OK, a', hm') →
      hm'.nChunks = 2 * hm.nChunks) ∧
    (∀ (α : Type) (alloc : lsml_bump_alloc_t) (hm : chunkedHM α)
        (n : Nat) (a' : lsml_bump_alloc_t) (hm' : chunkedHM α),
      hm.chunks.length = hm.nChunks → hm.tailIdx + 1 = hm.nChunks →
      (∀ c ∈ hm.chunks, c.length = LSML_CHUNK_LEN) →
      lsml_hm_rehash_if_needed alloc hm n = (LSML_OK, a', hm') →
      nodesMS hm'.chunks = nodesMS hm.chunks) := by
  refine ⟨?_, ?_, ?_⟩
  · intro d hd
    obtain ⟨-, h2, h3⟩ := docReachable_docINV d hd
    exact ⟨h2, fun node hn hrow => ((h3 node hn) hrow).1⟩
  · intro α alloc hm n a' hm' h1 hf hrun
    exact rehash_fired_doubles alloc hm n a' hm' h1 hf hrun
  · intro α alloc hm n a' hm' hl ht hc hrun
    exact rehash_nodes_preserved alloc hm n a' hm' hl ht hc hrun

/-- Claim C7, witness: the amended theorem applied at the 52-section
document, and at a concrete fired rehash (a one-chunk map at 52 elements in
a fresh arena) whose chunk count doubles from 1 to 2 with the (empty) node
multiset preserved. -/
theorem C7_witness :
    (loadBound run52.n_sections run52.sections.nChunks ∧
      ∀ node ∈ nodesOf run52.sections.chunks,
        node.payload.row_indices = none →
        loadBound node.payload.n_elems node.payload.n_chunks) ∧
    ((⟨[zeroChunk Unit, zeroChunk Unit], 1, 2⟩ : chunkedHM Unit).nChunks =
      2 * (⟨[zeroChunk Unit], 0, 1⟩ : chunkedHM Unit).nChunks) ∧
    (nodesMS (⟨[zeroChunk Unit, zeroChunk Unit], 1, 2⟩ :
        chunkedHM Unit).chunks =
      nodesMS (⟨[zeroChunk Unit], 0, 1⟩ : chunkedHM Unit).chunks) :=
  ⟨C7_load_factor_amended.1 run52 run52_reachable,
   C7_load_factor_amended.2.1 Unit ⟨0, 100000⟩ ⟨[zeroChunk Unit], 0, 1⟩ 52
     ⟨520, 100000⟩ ⟨[zeroChunk Unit, zeroChunk Unit], 1, 2⟩
     (by decide) (by decide) (by decide),
   C7_load_factor_amended.2.2 Unit ⟨0, 100000⟩ ⟨[zeroChunk Unit], 0, 1⟩ 52
     ⟨520, 100000⟩ ⟨[zeroChunk Unit, zeroChunk Unit], 1, 2⟩
     (by decide) (by decide) (by decide) (by decide)⟩

-- ---------------------------------------------------------------------------
-- C6: string interning (pointer identity of registered strings)
-- ---------------------------------------------------------------------------

theorem lsml_align_up_ge (o a : Nat) (ha : 1 ≤ a) : o ≤ lsml_align_up o a := by
  unfold lsml_align_up
  have hm : (o + (a - 1)) % a < a := Nat.mod_lt _ (by omega)
  omega

theorem lsml_bump_alloc_mono {alloc : lsml_bump_alloc_t} {s a p : Nat}
    {alloc' : lsml_bump_alloc_t} (ha : 1 ≤ a)
    (h : lsml_bump_alloc alloc s a = some (p, alloc')) :
    alloc.offset ≤ p ∧ alloc'.offset = p + s := by
  simp only [lsml_bump_alloc] at h
  split at h
  · exact absurd h (by simp)
  · simp only [Option.some.injEq, Prod.mk.injEq] at h
    obtain ⟨hp, ha'⟩ := h
    constructor
    · rw [← hp]
      exact lsml_align_up_ge alloc.offset a ha
    · rw [← ha', ← hp]

/-- Writing bucket `i` makes reading bucket `i` return the new bucket (when
bucket `i` existed). -/
theorem chunkWalk_chunkSet_self {α : Type} :
    ∀ (cs : List (HChunk α)) (i : Nat) (b old : Bucket α),
      chunkWalk cs i = some old →
      chunkWalk (chunkSet cs i b) i = some b := by
  intro cs
  induction cs with
  | nil => intro i b old h; simp [chunkWalk] at h
  | cons c rest ih =>
    intro i b old h
    simp only [chunkWalk, chunkSet] at h ⊢
    by_cases hge : i ≥ LSML_CHUNK_LEN
    · rw [if_pos hge] at h ⊢
      simp only [chunkWalk]
      rw [if_pos hge]
      exact ih (i - LSML_CHUNK_LEN) b old h
    · rw [if_neg hge] at h ⊢
      simp only [chunkWalk]
      rw [if_neg hge]
      have hlt : i < c.length := by
        by_contra hcon
        push_neg at hcon
        rw [List.get?_eq_none.2 hcon] at h
        exact absurd h (by simp)
      rw [List.get?_eq_getElem?, List.getElem?_set_self]
      exact hlt

theorem cha_get_bucket_inv {α : Type} (cs : List (HChunk α)) (n i : Nat)
    (b : Bucket α) (h : lsml_cha_get_bucket cs n i = some b) :
    chunkWalk cs i = some b ∧ cs ≠ [] ∧ i < n * LSML_CHUNK_LEN := by
  unfold lsml_cha_get_bucket at h
  split at h
  · exact absurd h (by simp)
  · rename_i hcond
    simp only [Bool.or_eq_true, not_or, List.isEmpty_eq_true,
      decide_eq_true_eq] at hcond
    exact ⟨h, hcond.1, by omega⟩

theorem cha_get_bucket_build {α : Type} (cs : List (HChunk α)) (n i : Nat)
    (b : Bucket α) (hne : cs ≠ []) (hlt : i < n * LSML_CHUNK_LEN)
    (hw : chunkWalk cs i = some b) :
    lsml_cha_get_bucket cs n i = some b := by
  unfold lsml_cha_get_bucket
  rw [if_neg, hw]
  simp only [Bool.or_eq_true, not_or, List.isEmpty_eq_true, decide_eq_true_eq]
  exact ⟨hne, by omega⟩

/-- Lookup of a string present in a bucket (the second `find?`-based read of
the registration path). -/
theorem register_again (d1 : lsml_data_t) (S : List Nat) (m' : Bool)
    (node : hmNode Unit) (b' : Bucket Unit)
    (hgb : lsml_cha_get_bucket d1.strings.chunks d1.strings.nChunks
      (lsml_mod_chunklen (lsml_hash_string S)
        (d1.strings.nChunks * LSML_CHUNK_LEN)) = some b')
    (hfind : b'.find? (fun n => n.str.bytes == S) = some node) :
    lsml_data_register_string d1 S m' = (LSML_OK, d1, some node.str) := by
  unfold lsml_data_register_string
  simp only [hgb, hfind]

/-- Branch-complete characterization of `lsml_data_register_string`: the
arena cursor never moves backwards, the string map keeps its chunk count, a
successful call hands back a record whose bytes are the requested string,
stored in the map, every node of the new map is an old node or the one new
record (allocated at or past the old cursor), and re-registering the same
bytes immediately afterwards returns the very same record with the document
unchanged.  On failure the string map is untouched. -/
theorem register_string_spec (d : lsml_data_t) (S : List Nat) (m : Bool)
    (err : lsml_err) (d1 : lsml_data_t) (r? : Option lsml_reg_str_t)
    (hrun : lsml_data_register_string d S m = (err, d1, r?)) :
    d.alloc.offset ≤ d1.alloc.offset ∧
    d1.strings.nChunks = d.strings.nChunks ∧
    (∀ r, r? = some r →
      r.bytes = S ∧
      ((∃ node ∈ nodesOf d.strings.chunks, node.str = r) ∨
        d.alloc.offset ≤ r.id) ∧
      (∃ node ∈ nodesOf d1.strings.chunks, node.str = r) ∧
      (∀ x ∈ nodesOf d1.strings.chunks,
        x ∈ nodesOf d.strings.chunks ∨
          (x.str = r ∧ d.alloc.offset ≤ x.str.id ∧
            x.str.id < d1.alloc.offset)) ∧
      (∀ m', lsml_data_register_string d1 S m' = (LSML_OK, d1, some r))) ∧
    (r? = none → d1.strings = d.strings) := by
  unfold lsml_data_register_string at hrun
  cases hgb : lsml_cha_get_bucket d.strings.chunks d.strings.nChunks
      (lsml_mod_chunklen (lsml_hash_string S)
        (d.strings.nChunks * LSML_CHUNK_LEN)) with
  | none =>
    simp only [hgb, Prod.mk.injEq] at hrun
    obtain ⟨-, hd, hr⟩ := hrun
    subst hd
    refine ⟨le_refl _, rfl, ?_, fun _ => rfl⟩
    intro r hr'
    rw [← hr] at hr'
    exact absurd hr' (by simp)
  | some bucket =>
    simp only [hgb] at hrun
    obtain ⟨hwalk, hcsne, hilt⟩ := cha_get_bucket_inv _ _ _ _ hgb
    cases hf : bucket.find? (fun n => n.str.bytes == S) with
    | some n =>
      simp only [hf, Prod.mk.injEq] at hrun
      obtain ⟨-, hd, hr⟩ := hrun
      subst hd
      refine ⟨le_refl _, rfl, ?_, ?_⟩
      · intro r hr'
        rw [← hr] at hr'
        simp only [Option.some.injEq] at hr'
        subst hr'
        have hbytes : n.str.bytes = S := by
          have := List.find?_some hf
          simpa using this
        have hmem : n ∈ nodesOf d.strings.chunks :=
          cha_get_bucket_mem _ _ _ _ hgb n (List.mem_of_find?_eq_some hf)
        refine ⟨hbytes, Or.inl ⟨n, hmem, rfl⟩, ⟨n, hmem, rfl⟩,
          fun x hx => Or.inl hx, ?_⟩
        intro m'
        exact register_again d S m' n bucket hgb hf
      · intro hnone
        exact absurd (hr.trans hnone) (by simp)
    | none =>
      simp only [hf] at hrun
      cases hb1 : lsml_bump_alloc d.alloc SIZEOF_HM_NODE PTR_ALIGN with
      | none =>
        simp only [hb1, Prod.mk.injEq] at hrun
        obtain ⟨-, hd, hr⟩ := hrun
        subst hd
        refine ⟨le_refl _, rfl, ?_, fun _ => rfl⟩
        intro r hr'
        rw [← hr] at hr'
        exact absurd hr' (by simp)
      | some pa1 =>
        obtain ⟨nodeAddr, a1⟩ := pa1
        simp only [hb1] at hrun
        obtain ⟨hmono1, hoff1⟩ := lsml_bump_alloc_mono (by decide) hb1
        cases hb2 : lsml_bump_alloc a1 SIZEOF_REG_STR PTR_ALIGN with
        | none =>
          simp only [hb2, Prod.mk.injEq] at hrun
          obtain ⟨-, hd, hr⟩ := hrun
          subst hd
          refine ⟨le_refl _, rfl, ?_, fun _ => rfl⟩
          intro r hr'
          rw [← hr] at hr'
          exact absurd hr' (by simp)
        | some pa2 =>
          obtain ⟨regAddr, a2⟩ := pa2
          simp only [hb2] at hrun
          obtain ⟨hmono2, hoff2⟩ := lsml_bump_alloc_mono (by decide) hb2
          have hsz16 : SIZEOF_HM_NODE = 16 := rfl
          have hsz24 : SIZEOF_REG_STR = 24 := rfl
          have hregge : d.alloc.offset ≤ regAddr := by omega
          have hkey : ∀ (a3 : lsml_bump_alloc_t),
              regAddr < a3.offset → d.alloc.offset ≤ a3.offset →
              (LSML_OK,
                ({ d with
                    alloc := a3
                    strings := { d.strings with
                      chunks := chunkSet d.strings.chunks
                        (lsml_mod_chunklen (lsml_hash_string S)
                          (d.strings.nChunks * LSML_CHUNK_LEN))
                        (bucket ++ [⟨nodeAddr,
                          ⟨regAddr, S, lsml_hash_string S⟩, ()⟩]) }
                    n_strings := d.n_strings + 1 } : lsml_data_t),
                some (⟨regAddr, S, lsml_hash_string S⟩ : lsml_reg_str_t)) =
                (err, d1, r?) →
              d.alloc.offset ≤ d1.alloc.offset ∧
              d1.strings.nChunks = d.strings.nChunks ∧
              (∀ r, r? = some r →
                r.bytes = S ∧
                ((∃ node ∈ nodesOf d.strings.chunks, node.str = r) ∨
                  d.alloc.offset ≤ r.id) ∧
                (∃ node ∈ nodesOf d1.strings.chunks, node.str = r) ∧
                (∀ x ∈ nodesOf d1.strings.chunks,
                  x ∈ nodesOf d.strings.chunks ∨
                    (x.str = r ∧ d.alloc.offset ≤ x.str.id ∧
                      x.str.id < d1.alloc.offset)) ∧
                (∀ m', lsml_data_register_string d1 S m' =
                  (LSML_OK, d1, some r))) ∧
              (r? = none → d1.strings = d.strings) := by
            intro a3 hra3 hda3 heq
            simp only [Prod.mk.injEq] at heq
            obtain ⟨-, hd, hr⟩ := heq
            subst hd
            set nd : hmNode Unit :=
              ⟨nodeAddr, ⟨regAddr, S, lsml_hash_string S⟩, ()⟩ with hnd
            set idx := lsml_mod_chunklen (lsml_hash_string S)
              (d.strings.nChunks * LSML_CHUNK_LEN) with hidx
            have hwalk2 : chunkWalk (chunkSet d.strings.chunks idx
                (bucket ++ [nd])) idx = some (bucket ++ [nd]) :=
              chunkWalk_chunkSet_self d.strings.chunks idx (bucket ++ [nd])
                bucket hwalk
            have hndmem : nd ∈ nodesOf (chunkSet d.strings.chunks idx
                (bucket ++ [nd])) :=
              chunkWalk_mem_bucket _ idx (bucket ++ [nd]) hwalk2 nd
                (List.mem_append_right _ (List.mem_singleton.2 rfl))
            have hcsne2 : chunkSet d.strings.chunks idx (bucket ++ [nd]) ≠ [] := by
              intro hcon
              have := chunkSet_length d.strings.chunks idx (bucket ++ [nd])
              rw [hcon] at this
              exact hcsne (List.eq_nil_of_length_eq_zero this.symm)
            have hgb2 : lsml_cha_get_bucket
                (chunkSet d.strings.chunks idx (bucket ++ [nd]))
                d.strings.nChunks idx = some (bucket ++ [nd]) :=
              cha_get_bucket_build _ _ _ _ hcsne2 hilt hwalk2
            have hfind2 : (bucket ++ [nd]).find?
                (fun n => n.str.bytes == S) = some nd := by
              rw [List.find?_append, hf]
              simp [List.find?]
            refine ⟨hda3, rfl, ?_, ?_⟩
            · intro r hr'
              rw [← hr] at hr'
              simp only [Option.some.injEq] at hr'
              subst hr'
              refine ⟨rfl, Or.inr hregge, ⟨nd, hndmem, rfl⟩, ?_, ?_⟩
              · intro x hx
                rcases mem_nodesOf_chunkSet _ idx _ x hx with h | h
                · exact Or.inl h
                · rcases List.mem_append.1 h with h' | h'
                  · exact Or.inl (cha_get_bucket_mem _ _ _ _ hgb x h')
                  · simp only [List.mem_singleton] at h'
                    subst h'
                    exact Or.inr ⟨rfl, hregge, hra3⟩
              · intro m'
                exact register_again _ S m' nd (bucket ++ [nd]) hgb2 hfind2
            · intro hnone
              exact absurd (hr.trans hnone) (by simp)
          cases m with
          | true =>
            rw [if_pos rfl] at hrun
            exact hkey a2 (by omega) (by omega) hrun
          | false =>
            rw [if_neg (by simp)] at hrun
            cases hb3 : lsml_bump_alloc a2 (S.length + 1) 1 with
            | none =>
              simp only [hb3, Prod.mk.injEq] at hrun
              obtain ⟨-, hd, hr⟩ := hrun
              subst hd
              refine ⟨le_refl _, rfl, ?_, fun _ => rfl⟩
              intro r hr'
              rw [← hr] at hr'
              exact absurd hr' (by simp)
            | some pa3 =>
              obtain ⟨q3, a3⟩ := pa3
              simp only [hb3] at hrun
              obtain ⟨hmono3, hoff3⟩ := lsml_bump_alloc_mono (by decide) hb3
              exact hkey a3 (by omega) (by omega) hrun

/-- The string-intern invariant: registered-string records are identified by
their allocation address (`id`), so distinct records have distinct ids
(pointer identity), and every stored id lies below the arena cursor (so a
fresh allocation can never collide with a stored id). -/
def SINV (d : lsml_data_t) : Prop :=
  (∀ n1 ∈ nodesOf d.strings.chunks, ∀ n2 ∈ nodesOf d.strings.chunks,
    n1.str.id = n2.str.id → n1.str = n2.str) ∧
  (∀ n ∈ nodesOf d.strings.chunks, n.str.id < d.alloc.offset)

theorem SINV_transfer (d d' : lsml_data_t)
    (hsub : ∀ x ∈ nodesOf d'.strings.chunks, x ∈ nodesOf d.strings.chunks)
    (hoff : d.alloc.offset ≤ d'.alloc.offset) (hs : SINV d) : SINV d' := by
  obtain ⟨s1, s2⟩ := hs
  exact ⟨fun n1 h1 n2 h2 => s1 n1 (hsub n1 h1) n2 (hsub n2 h2),
    fun n hn => lt_of_lt_of_le (s2 n (hsub n hn)) hoff⟩

theorem register_string_sinv (d : lsml_data_t) (S : List Nat) (m : Bool)
    (err : lsml_err) (d1 : lsml_data_t) (r? : Option lsml_reg_str_t)
    (hrun : lsml_data_register_string d S m = (err, d1, r?)) (hs : SINV d) :
    SINV d1 := by
  obtain ⟨hoff, hnc, hsucc, hfail⟩ := register_string_spec d S m err d1 r? hrun
  cases r? with
  | none =>
    have hstr := hfail rfl
    exact SINV_transfer d d1 (by rw [hstr]; exact fun x hx => hx) hoff hs
  | some r =>
    obtain ⟨hb, hB, hC, hD, hE⟩ := hsucc r rfl
    obtain ⟨s1, s2⟩ := hs
    constructor
    · intro n1 h1 n2 h2 hid
      rcases hD n1 h1 with hn1 | ⟨e1, ge1, lt1⟩
      · rcases hD n2 h2 with hn2 | ⟨e2, ge2, lt2⟩
        · exact s1 n1 hn1 n2 hn2 hid
        · exact absurd hid (by have := s2 n1 hn1; omega)
      · rcases hD n2 h2 with hn2 | ⟨e2, ge2, lt2⟩
        · exact absurd hid (by have := s2 n2 hn2; omega)
        · rw [e1, e2]
    · intro n hn
      rcases hD n hn with hmem | ⟨e, ge, lt⟩
      · exact lt_of_lt_of_le (s2 n hmem) hoff
      · exact lt

theorem rehashAllocLoop_offset {α : Type} :
    ∀ (n : Nat) (alloc : lsml_bump_alloc_t) (acc : List (HChunk α)),
      alloc.offset ≤ (@rehashAllocLoop α alloc n acc).1.offset := by
  intro n
  induction n with
  | zero => intro alloc acc; exact le_refl _
  | succ m ih =>
    intro alloc acc
    cases h : lsml_bump_alloc alloc SIZEOF_CHA_CHUNK PTR_ALIGN with
    | none => simp [rehashAllocLoop, h]
    | some pa =>
      obtain ⟨p, alloc1⟩ := pa
      have hres : @rehashAllocLoop α alloc (m + 1) acc =
          @rehashAllocLoop α alloc1 m (acc ++ [zeroChunk α]) := by
        simp [rehashAllocLoop, h]
      rw [hres]
      obtain ⟨hm1, hm2⟩ := lsml_bump_alloc_mono (by decide) h
      have := ih alloc1 (acc ++ [zeroChunk α])
      omega

theorem rehash_offset {α : Type} (alloc : lsml_bump_alloc_t)
    (hm : chunkedHM α) (n : Nat) (err : lsml_err) (a' : lsml_bump_alloc_t)
    (hm' : chunkedHM α)
    (hrun : lsml_hm_rehash_if_needed alloc hm n = (err, a', hm')) :
    alloc.offset ≤ a'.offset := by
  by_cases h0 : hm.nChunks = 0
  · simp only [lsml_hm_rehash_if_needed, h0, if_pos, Prod.mk.injEq] at hrun
    obtain ⟨-, ha, -⟩ := hrun
    rw [← ha]
  by_cases hlf : n + n / 4 ≤ hm.nChunks * LSML_CHUNK_LEN
  · simp only [lsml_hm_rehash_if_needed, h0, hlf, if_neg, if_pos, ite_false,
      Prod.mk.injEq] at hrun
    obtain ⟨-, ha, -⟩ := hrun
    rw [← ha]
  rcases hra : @rehashAllocLoop α alloc hm.nChunks [] with ⟨allocF, newPart, ok⟩
  cases ok with
  | false =>
    simp only [lsml_hm_rehash_if_needed, h0, hlf, hra, if_neg, ite_false,
      Prod.mk.injEq] at hrun
    obtain ⟨-, ha, -⟩ := hrun
    rw [← ha]
  | true =>
    simp only [lsml_hm_rehash_if_needed, h0, hlf, hra, if_neg, ite_false,
      Prod.mk.injEq] at hrun
    obtain ⟨-, ha, -⟩ := hrun
    rw [← ha]
    have := @rehashAllocLoop_offset α hm.nChunks alloc []
    rw [hra] at this
    exact this

theorem goc_offset {α : Type} (alloc : lsml_bump_alloc_t)
    (cs : List (HChunk α)) (n nc : Nat) (key : lsml_reg_str_t) (sz : Nat)
    (z : α) :
    alloc.offset ≤
      (lsml_hm_get_or_create_node alloc cs n nc key sz z).alloc.offset := by
  cases hb : lsml_cha_get_bucket cs nc
      (lsml_mod_chunklen key.hash (nc * LSML_CHUNK_LEN)) with
  | none =>
    have hres : lsml_hm_get_or_create_node alloc cs n nc key sz z =
        ⟨none, false, alloc, cs, n⟩ := by
      simp only [lsml_hm_get_or_create_node, hb]
    rw [hres]
  | some bucket =>
    cases hf : bucket.find? (fun nd => nd.str.id == key.id) with
    | some nd =>
      have hres : lsml_hm_get_or_create_node alloc cs n nc key sz z =
          ⟨some nd, false, alloc, cs, n⟩ := by
        simp only [lsml_hm_get_or_create_node, hb, hf]
      rw [hres]
    | none =>
      cases ha : lsml_bump_alloc alloc sz PTR_ALIGN with
      | none =>
        have hres : lsml_hm_get_or_create_node alloc cs n nc key sz z =
            ⟨none, false, alloc, cs, n⟩ := by
          simp only [lsml_hm_get_or_create_node, hb, hf, ha]
        rw [hres]
      | some pa =>
        obtain ⟨addr, alloc1⟩ := pa
        have hres : lsml_hm_get_or_create_node alloc cs n nc key sz z =
            ⟨some ⟨addr, key, z⟩, true, alloc1,
              chunkSet cs (lsml_mod_chunklen key.hash (nc * LSML_CHUNK_LEN))
                (bucket ++ [⟨addr, key, z⟩]), n + 1⟩ := by
          simp only [lsml_hm_get_or_create_node, hb, hf, ha]
        rw [hres]
        obtain ⟨hm1, hm2⟩ := lsml_bump_alloc_mono (by decide) ha
        show alloc.offset ≤ alloc1.offset
        omega

theorem add_section_internal_strings (d : lsml_data_t)
    (reg : lsml_reg_str_t) (ty : lsml_section_type) :
    (lsml_data_add_section_internal d reg ty).2.1.strings = d.strings ∧
    d.alloc.offset ≤
      (lsml_data_add_section_internal d reg ty).2.1.alloc.offset := by
  rcases hre : lsml_hm_rehash_if_needed d.alloc d.sections d.n_sections with
    ⟨err, alloc1, sections1⟩
  have hoff1 : d.alloc.offset ≤ alloc1.offset :=
    rehash_offset d.alloc d.sections d.n_sections err alloc1 sections1 hre
  by_cases herr : err = LSML_OK
  · subst herr
    simp only [lsml_data_add_section_internal, hre, ne_eq, not_true_eq_false,
      ite_false, if_false]
    generalize hr : lsml_hm_get_or_create_node alloc1 sections1.chunks
      d.n_sections sections1.nChunks reg SIZEOF_SECTION zeroSectionBody = r
    have hgo : alloc1.offset ≤ r.alloc.offset := by
      have := goc_offset alloc1 sections1.chunks d.n_sections
        sections1.nChunks reg SIZEOF_SECTION zeroSectionBody
      rw [hr] at this
      exact this
    by_cases hwc : r.was_created = true
    · rw [if_neg (by simp [hwc])]
      by_cases hnn : r.node.isNone = true
      · rw [if_pos hnn]
        refine ⟨rfl, ?_⟩
        show d.alloc.offset ≤ r.alloc.offset
        omega
      · rw [if_neg hnn]
        by_cases hty : ty = LSML_ARRAY
        · rw [if_pos hty]
          cases hba : lsml_bump_alloc r.alloc SIZEOF_ROWS_INDEX PTR_ALIGN with
          | none =>
            refine ⟨rfl, ?_⟩
            show d.alloc.offset ≤ r.alloc.offset
            omega
          | some pa =>
            obtain ⟨p, a2⟩ := pa
            obtain ⟨hm1, hm2⟩ := lsml_bump_alloc_mono (by decide) hba
            refine ⟨rfl, ?_⟩
            show d.alloc.offset ≤ a2.offset
            omega
        · rw [if_neg hty]
          refine ⟨rfl, ?_⟩
          show d.alloc.offset ≤ r.alloc.offset
          omega
    · rw [if_pos (by simp [hwc])]
      refine ⟨rfl, ?_⟩
      show d.alloc.offset ≤ r.alloc.offset
      omega
  · simp only [lsml_data_add_section_internal, hre, ne_eq, herr,
      not_false_eq_true, ite_true, if_true]
    exact ⟨trivial, hoff1⟩

theorem table_entry_tail_strings (d : lsml_data_t) (secId : Nat)
    (key value : lsml_reg_str_t) (alloc1 : lsml_bump_alloc_t)
    (body1 : sectionBody) (hoff : d.alloc.offset ≤ alloc1.offset) :
    (match lsml_hm_rehash_if_needed alloc1
        ⟨body1.tbl, body1.lastChunkIdx, body1.n_chunks⟩ body1.n_elems with
     | (err, alloc2, hm2) =>
       let body2 := { body1 with
                        tbl := hm2.chunks
                        lastChunkIdx := hm2.tailIdx
                        n_chunks := hm2.nChunks }
       let data2 := setSectionBody { d with alloc := alloc2 } secId body2
       if err ≠ LSML_OK then (err, data2)
       else
         let r := lsml_hm_get_or_create_node alloc2 body2.tbl body2.n_elems
           body2.n_chunks key SIZEOF_TABLE_NODE (none : Option Nat)
         let body3 := { body2 with tbl := r.chunks, n_elems := r.n_elems }
         let data3 := setSectionBody { d with alloc := r.alloc } secId body3
         match r.node with
         | none => (LSML_ERR_OUT_OF_MEMORY, data3)
         | some _ =>
           if ¬ r.was_created then (LSML_ERR_TABLE_KEY_REUSED, data3)
           else
             let idx := keyIndex key.hash body3.n_chunks
             let body4 := { body3 with
               tbl := hmSetPayload body3.tbl idx key.id (some value.id) }
             (LSML_OK, setSectionBody { d with alloc := r.alloc } secId
               body4)).2.strings = d.strings ∧
    d.alloc.offset ≤
      (match lsml_hm_rehash_if_needed alloc1
          ⟨body1.tbl, body1.lastChunkIdx, body1.n_chunks⟩ body1.n_elems with
       | (err, alloc2, hm2) =>
         let body2 := { body1 with
                          tbl := hm2.chunks
                          lastChunkIdx := hm2.tailIdx
                          n_chunks := hm2.nChunks }
         let data2 := setSectionBody { d with alloc := alloc2 } secId body2
         if err ≠ LSML_OK then (err, data2)
         else
           let r := lsml_hm_get_or_create_node alloc2 body2.tbl body2.n_elems
             body2.n_chunks key SIZEOF_TABLE_NODE (none : Option Nat)
           let body3 := { body2 with tbl := r.chunks, n_elems := r.n_elems }
           let data3 := setSectionBody { d with alloc := r.alloc } secId body3
           match r.node with
           | none => (LSML_ERR_OUT_OF_MEMORY, data3)
           | some _ =>
             if ¬ r.was_created then (LSML_ERR_TABLE_KEY_REUSED, data3)
             else
               let idx := keyIndex key.hash body3.n_chunks
               let body4 := { body3 with
                 tbl := hmSetPayload body3.tbl idx key.id (some value.id) }
               (LSML_OK, setSectionBody { d with alloc := r.alloc } secId
                 body4)).2.alloc.offset := by
  rcases hre : lsml_hm_rehash_if_needed alloc1
      ⟨body1.tbl, body1.lastChunkIdx, body1.n_chunks⟩ body1.n_elems with
    ⟨err, alloc2, hm2⟩
  have hoff2 : alloc1.offset ≤ alloc2.offset :=
    rehash_offset alloc1 ⟨body1.tbl, body1.lastChunkIdx, body1.n_chunks⟩
      body1.n_elems err alloc2 hm2 hre
  simp only []
  by_cases herr : err = LSML_OK
  · subst herr
    rw [if_neg (by simp)]
    generalize hr : lsml_hm_get_or_create_node alloc2 hm2.chunks
      body1.n_elems hm2.nChunks key SIZEOF_TABLE_NODE (none : Option Nat) = r
    have hgo : alloc2.offset ≤ r.alloc.offset := by
      have := goc_offset alloc2 hm2.chunks body1.n_elems hm2.nChunks key
        SIZEOF_TABLE_NODE (none : Option Nat)
      rw [hr] at this
      exact this
    cases hnode : r.node with
    | none =>
      refine ⟨rfl, ?_⟩
      show d.alloc.offset ≤ r.alloc.offset
      omega
    | some nd =>
      by_cases hwc : r.was_created = true
      · rw [if_neg (by simp [hwc])]
        refine ⟨rfl, ?_⟩
        show d.alloc.offset ≤ r.alloc.offset
        omega
      · rw [if_pos (by simp [hwc])]
        refine ⟨rfl, ?_⟩
        show d.alloc.offset ≤ r.alloc.offset
        omega
  · rw [if_pos herr]
    refine ⟨rfl, ?_⟩
    show d.alloc.offset ≤ alloc2.offset
    omega

theorem table_add_entry_internal_strings (d : lsml_data_t) (secId : Nat)
    (key value : lsml_reg_str_t) :
    (lsml_table_add_entry_internal d secId key value).2.strings = d.strings ∧
    d.alloc.offset ≤
      (lsml_table_add_entry_internal d secId key value).2.alloc.offset := by
  unfold lsml_table_add_entry_internal
  split
  · exact ⟨rfl, le_refl _⟩
  rename_i body hgb
  split
  · exact ⟨rfl, le_refl _⟩
  rename_i hrows
  split
  · exact ⟨rfl, le_refl _⟩
  rename_i alloc1 body1 hlazy
  have hoff1 : d.alloc.offset ≤ alloc1.offset := by
    by_cases hE : body.tbl.isEmpty = true
    · rw [if_pos hE] at hlazy
      cases hba : lsml_bump_alloc d.alloc SIZEOF_CHA_CHUNK PTR_ALIGN with
      | none => rw [hba] at hlazy; exact absurd hlazy (by simp)
      | some pa =>
        obtain ⟨q, a1⟩ := pa
        rw [hba] at hlazy
        simp only [Option.some.injEq, Prod.mk.injEq] at hlazy
        obtain ⟨hm1, hm2⟩ := lsml_bump_alloc_mono (by decide) hba
        rw [← hlazy.1]
        omega
    · rw [if_neg hE] at hlazy
      simp only [Option.some.injEq, Prod.mk.injEq] at hlazy
      rw [← hlazy.1]
  exact table_entry_tail_strings d secId key value alloc1 body1 hoff1

theorem array_add_entry_internal_strings (d : lsml_data_t) (secId : Nat)
    (valueId : Nat) (newrow : Bool) :
    (lsml_array_add_entry_internal d secId valueId newrow).2.strings =
      d.strings ∧
    d.alloc.offset ≤
      (lsml_array_add_entry_internal d secId valueId newrow).2.alloc.offset := by
  unfold lsml_array_add_entry_internal
  split
  · exact ⟨rfl, le_refl _⟩
  rename_i body hgb
  split
  · exact ⟨rfl, le_refl _⟩
  rename_i rows hrows
  split
  · exact ⟨rfl, le_refl _⟩
  rename_i alloc1 body1 hlazy
  have hoff1 : d.alloc.offset ≤ alloc1.offset := by
    by_cases hE : body.arr.isEmpty = true
    · rw [if_pos hE] at hlazy
      cases hba : lsml_bump_alloc d.alloc SIZEOF_CHA_CHUNK PTR_ALIGN with
      | none => rw [hba] at hlazy; exact absurd hlazy (by simp)
      | some pa =>
        obtain ⟨q, a1⟩ := pa
        rw [hba] at hlazy
        simp only [Option.some.injEq, Prod.mk.injEq] at hlazy
        obtain ⟨hm1, hm2⟩ := lsml_bump_alloc_mono (by decide) hba
        rw [← hlazy.1]
        omega
    · rw [if_neg hE] at hlazy
      simp only [Option.some.injEq, Prod.mk.injEq] at hlazy
      rw [← hlazy.1]
  split
  · exact ⟨rfl, hoff1⟩
  rename_i alloc2 body2 hgrow
  have hoff2 : d.alloc.offset ≤ alloc2.offset := by
    by_cases hG : body1.n_elems ≥ body1.n_chunks * LSML_CHUNK_LEN
    · rw [if_pos hG] at hgrow
      cases hba : lsml_bump_alloc alloc1 SIZEOF_CHA_CHUNK PTR_ALIGN with
      | none => rw [hba] at hgrow; exact absurd hgrow (by simp)
      | some pa =>
        obtain ⟨q, a2⟩ := pa
        rw [hba] at hgrow
        simp only [Option.some.injEq, Prod.mk.injEq] at hgrow
        obtain ⟨hm1, hm2⟩ := lsml_bump_alloc_mono (by decide) hba
        rw [← hgrow.1]
        omega
    · rw [if_neg hG] at hgrow
      simp only [Option.some.injEq, Prod.mk.injEq] at hgrow
      rw [← hgrow.1]
      exact hoff1
  split
  · rename_i hba3
    simp only []
    split
    · exact ⟨rfl, hoff2⟩
    · exact ⟨rfl, hoff2⟩
  · rename_i p a3 hba3
    obtain ⟨hm1, hm2⟩ := lsml_bump_alloc_mono (by decide) hba3
    simp only []
    split
    · refine ⟨rfl, ?_⟩
      show d.alloc.offset ≤ a3.offset
      omega
    · exact ⟨rfl, hoff2⟩

theorem add_section_sinv (d : lsml_data_t) (ty : lsml_section_type)
    (name : List Nat) (hs : SINV d) :
    SINV (lsml_data_add_section d ty name).2.1 := by
  unfold lsml_data_add_section
  split
  · exact hs
  rcases hreg : lsml_data_register_string d name false with ⟨err, d1, reg?⟩
  have hs1 : SINV d1 := register_string_sinv d name false err d1 reg? hreg hs
  simp only []
  by_cases herr : err = LSML_OK
  · subst herr
    rw [if_neg (by simp)]
    split
    · exact hs1
    rename_i reg
    rcases hre2 : lsml_hm_rehash_if_needed d1.alloc d1.strings d1.n_strings with
      ⟨err2, alloc2, strings2⟩
    simp only []
    have hs2 : SINV { d1 with alloc := alloc2, strings := strings2 } := by
      refine SINV_transfer d1 _ ?_ ?_ hs1
      · exact rehash_mem d1.alloc d1.strings d1.n_strings err2 alloc2
          strings2 hre2
      · exact rehash_offset d1.alloc d1.strings d1.n_strings err2 alloc2
          strings2 hre2
    by_cases herr2 : err2 = LSML_OK
    · subst herr2
      rw [if_neg (by simp)]
      obtain ⟨hst, hof⟩ := add_section_internal_strings
        { d1 with alloc := alloc2, strings := strings2 } reg ty
      refine SINV_transfer { d1 with alloc := alloc2, strings := strings2 }
        _ ?_ hof hs2
      rw [hst]
      exact fun x hx => hx
    · rw [if_pos herr2]
      exact hs2
  · rw [if_pos herr]
    exact hs1

theorem table_add_entry_sinv (d : lsml_data_t) (secId : Nat)
    (key_name value : List Nat) (hs : SINV d) :
    SINV (lsml_table_add_entry d secId key_name value).2 := by
  unfold lsml_table_add_entry
  split
  · exact hs
  split
  · exact hs
  rcases hreg : lsml_data_register_string d key_name false with ⟨err, d1, key?⟩
  have hs1 : SINV d1 := register_string_sinv d key_name false err d1 key? hreg hs
  simp only []
  by_cases herr : err = LSML_OK
  · subst herr
    rw [if_neg (by simp)]
    split
    · split
      · exact hs1
      rcases hreg2 : lsml_data_register_string d1 value false with
        ⟨err2, d2, val?⟩
      have hs2 : SINV d2 :=
        register_string_sinv d1 value false err2 d2 val? hreg2 hs1
      simp only []
      by_cases herr2 : err2 = LSML_OK
      · subst herr2
        rw [if_neg (by simp)]
        split
        · exact hs2
        rename_i val
        obtain ⟨hst, hof⟩ := table_add_entry_internal_strings d2 secId _ val
        refine SINV_transfer d2 _ ?_ hof hs2
        rw [hst]
        exact fun x hx => hx
      · rw [if_pos herr2]
        exact hs2
    · exact hs1
  · rw [if_pos herr]
    exact hs1

theorem array_push_sinv (d : lsml_data_t) (secId : Nat) (val : List Nat)
    (newrow : Bool) (hs : SINV d) :
    SINV (lsml_array_push d secId val newrow).2 := by
  unfold lsml_array_push
  split
  · exact hs
  split
  · exact hs
  rcases hreg : lsml_data_register_string d val false with ⟨err, d1, reg?⟩
  have hs1 : SINV d1 := register_string_sinv d val false err d1 reg? hreg hs
  simp only []
  by_cases herr : err = LSML_OK
  · subst herr
    rw [if_neg (by simp)]
    split
    · exact hs1
    rename_i reg
    obtain ⟨hst, hof⟩ := array_add_entry_internal_strings d1 secId reg.id newrow
    refine SINV_transfer d1 _ ?_ hof hs1
    rw [hst]
    exact fun x hx => hx
  · rw [if_pos herr]
    exact hs1

theorem data_new_sinv (size : Nat) (d : lsml_data_t)
    (h : lsml_data_new size = some d) : SINV d := by
  have hz : nodesOf [zeroChunk Unit] = [] := by
    rw [← List.replicate_one]
    exact nodesOf_zero_replicate 1
  unfold lsml_data_new at h
  repeat' split at h
  all_goals simp only [Option.some.injEq, reduceCtorEq] at h
  rw [← h]
  constructor
  · intro n1 h1
    rw [hz] at h1
    exact absurd h1 (by simp)
  · intro n hn
    rw [hz] at hn
    exact absurd hn (by simp)

/-- Every API-reachable document satisfies the string-intern invariant. -/
theorem docReachable_sinv (d : lsml_data_t) (h : DocReachable d) : SINV d := by
  induction h with
  | new size d0 hnew => exact data_new_sinv size d0 hnew
  | add_section d0 ty name _ ih => exact add_section_sinv d0 ty name ih
  | table_add d0 s k v _ ih => exact table_add_entry_sinv d0 s k v ih
  | array_push d0 s v nr _ ih => exact array_push_sinv d0 s v nr ih
  | register d0 s m _ ih =>
    rcases hreg : lsml_data_register_string d0 s m with ⟨err, d1, r?⟩
    exact register_string_sinv d0 s m err d1 r? hreg ih

/-- Claim C6: string interning is idempotent and handle (pointer) equality
coincides with byte equality.  (1) Registering the same bytes again,
immediately after a successful registration, returns the very same record
(pointer-equal handle, modelled by the record id, which is the record's
allocation address) and leaves the document unchanged — no new record is
created.  (2) For registrations performed on an API-reachable document, two
interned handles are pointer-equal if and only if their byte contents are
equal byte-for-byte. -/
theorem C6_intern_pointer_identity :
    (∀ (d : lsml_data_t) (S : List Nat) (m m' : Bool) (d1 : lsml_data_t)
        (r : lsml_reg_str_t),
      lsml_data_register_string d S m = (LSML_OK, d1, some r) →
      lsml_data_register_string d1 S m' = (LSML_OK, d1, some r)) ∧
    (∀ (d : lsml_data_t) (S1 S2 : List Nat) (m1 m2 : Bool)
        (d1 d2 : lsml_data_t) (r1 r2 : lsml_reg_str_t),
      DocReachable d →
      lsml_data_register_string d S1 m1 = (LSML_OK, d1, some r1) →
      lsml_data_register_string d1 S2 m2 = (LSML_OK, d2, some r2) →
      (r1.id = r2.id ↔ S1 = S2)) := by
  constructor
  · intro d S m m' d1 r h
    obtain ⟨-, -, hsucc, -⟩ := register_string_spec d S m LSML_OK d1 (some r) h
    exact (hsucc r rfl).2.2.2.2 m'
  · intro d S1 S2 m1 m2 d1 d2 r1 r2 hreach h1 h2
    have hs1 : SINV d1 :=
      register_string_sinv d S1 m1 _ _ _ h1 (docReachable_sinv d hreach)
    obtain ⟨hoffA, -, hsuccA, -⟩ := register_string_spec d S1 m1 _ _ _ h1
    obtain ⟨hb1, hB1, hC1, hD1, hE1⟩ := hsuccA r1 rfl
    obtain ⟨hoffB, -, hsuccB, -⟩ := register_string_spec d1 S2 m2 _ _ _ h2
    obtain ⟨hb2, hB2, hC2, hD2, hE2⟩ := hsuccB r2 rfl
    constructor
    · intro hid
      obtain ⟨node1, hn1, he1⟩ := hC1
      rcases hB2 with ⟨node2, hn2, he2⟩ | hfresh
      · have hstr := hs1.1 node1 hn1 node2 hn2 (by rw [he1, he2]; exact hid)
        have hr12 : r1 = r2 := by rw [← he1, ← he2, hstr]
        rw [← hb1, ← hb2, hr12]
      · have hlt := hs1.2 node1 hn1
        rw [he1] at hlt
        exact absurd hid (by omega)
    · intro hS
      subst hS
      have hagain := hE1 m2
      rw [hagain] at h2
      simp only [Prod.mk.injEq, Option.some.injEq] at h2
      rw [h2.2.2]

/-- First interning of the one-byte string "k" into a fresh document. -/
def c6doc1 : lsml_data_t :=
  (lsml_data_register_string demoDoc0 [107] false).2.1

/-- The handle returned by that interning. -/
def c6r1 : lsml_reg_str_t :=
  (lsml_data_register_string demoDoc0 [107] false).2.2.getD ⟨0, [], 0⟩

/-- Interning of the distinct one-byte string "l" right after. -/
def c6doc2 : lsml_data_t :=
  (lsml_data_register_string c6doc1 [108] false).2.1

/-- The handle returned by the second interning. -/
def c6r2 : lsml_reg_str_t :=
  (lsml_data_register_string c6doc1 [108] false).2.2.getD ⟨0, [], 0⟩

/-- Claim C6, witness: the theorem applied at a fresh document — interning
"k" again returns the same handle with the document unchanged, and the
handles of "k" and "l" are pointer-equal iff "k" = "l" (they are not). -/
theorem C6_witness :
    lsml_data_register_string c6doc1 [107] true = (LSML_OK, c6doc1, some c6r1) ∧
    (c6r1.id = c6r2.id ↔ [107] = [108]) :=
  ⟨C6_intern_pointer_identity.1 demoDoc0 [107] false true c6doc1 c6r1 (by rfl),
   C6_intern_pointer_identity.2 demoDoc0 [107] [108] false false c6doc1 c6doc2
     c6r1 c6r2 demoDoc0_reachable (by rfl) (by rfl)⟩

-- ---------------------------------------------------------------------------
-- C4: failed rehash (out of memory mid-allocation)
-- ---------------------------------------------------------------------------

/-- `chunkWalk` only inspects the first `n` chunks when the flat index is
below `n * LSML_CHUNK_LEN`. -/
theorem chunkWalk_take_eq {α : Type} :
    ∀ (n : Nat) (cs cs' : List (HChunk α)) (i : Nat),
      cs'.take n = cs.take n → i < n * LSML_CHUNK_LEN →
      chunkWalk cs' i = chunkWalk cs i := by
  intro n
  induction n with
  | zero =>
    intro cs cs' i _ hi
    simp [LSML_CHUNK_LEN] at hi
  | succ m ih =>
    intro cs cs' i htake hi
    cases cs with
    | nil =>
      cases cs' with
      | nil => rfl
      | cons c' rest' => simp [List.take_succ_cons] at htake
    | cons c rest =>
      cases cs' with
      | nil => simp [List.take_succ_cons] at htake
      | cons c' rest' =>
        simp only [List.take_succ_cons, List.cons.injEq] at htake
        obtain ⟨hc, hrest⟩ := htake
        subst hc
        simp only [chunkWalk]
        by_cases hge : i ≥ LSML_CHUNK_LEN
        · simp only [hge, if_pos]
          refine ih rest rest' (i - LSML_CHUNK_LEN) hrest ?_
          have h64 : LSML_CHUNK_LEN = 64 := rfl
          rw [h64] at hge hi ⊢
          omega
        · simp [hge]

/-- `lsml_cha_get_bucket` only inspects the first `n_chunks` chunks: any two
chunk lists agreeing on that prefix give identical buckets. -/
theorem cha_get_bucket_take_eq {α : Type} (cs cs' : List (HChunk α))
    (n i : Nat) (hn : 0 < n) (hlen : cs.length = n) (htake : cs'.take n = cs) :
    lsml_cha_get_bucket cs' n i = lsml_cha_get_bucket cs n i := by
  have hcs : cs ≠ [] := by
    intro h; rw [h] at hlen; simp at hlen; omega
  have hcs' : cs' ≠ [] := by
    intro h; rw [h] at htake; simp at htake; exact hcs htake
  unfold lsml_cha_get_bucket
  by_cases hi : i ≥ n * LSML_CHUNK_LEN
  · simp [hi]
  · have hwalk : chunkWalk cs' i = chunkWalk cs i :=
      chunkWalk_take_eq n cs cs' i
        (by rw [htake, ← hlen, List.take_length]) (by omega)
    simp [hcs, hcs', hi, hwalk]

/-- `lsml_hm_get_node` only inspects the first `n_chunks` chunks. -/
theorem hm_get_node_take_eq {α : Type} (cs cs' : List (HChunk α)) (n : Nat)
    (hn : 0 < n) (hlen : cs.length = n) (htake : cs'.take n = cs)
    (key : List Nat) :
    lsml_hm_get_node cs' n key = lsml_hm_get_node cs n key := by
  simp only [lsml_hm_get_node]
  rw [cha_get_bucket_take_eq cs cs' n _ hn hlen htake]

/-- Claim C4, counterexample: a rehash that runs out of memory after
allocating one of the two new chunks does NOT leave the chunk list reachable
via next pointers "exactly as it was": the arena cursor is rolled back and
the chunk count and tail are untouched, but the first freshly allocated
chunk remains linked after the old tail (a dangling chunk whose memory the
rolled-back cursor will hand out again).  Concretely: a two-chunk map at 104
elements in a 1040-byte arena (room for exactly one 520-byte chunk) ends
with three chunks linked. -/
theorem C4_dangling_chunk_counterexample :
    lsml_hm_rehash_if_needed ⟨0, 1040⟩
        (⟨[zeroChunk Unit, zeroChunk Unit], 1, 2⟩ : chunkedHM Unit) 104 =
      (LSML_ERR_OUT_OF_MEMORY, ⟨0, 1040⟩,
        ⟨[zeroChunk Unit, zeroChunk Unit, zeroChunk Unit], 1, 2⟩) ∧
    ([zeroChunk Unit, zeroChunk Unit, zeroChunk Unit] : List (HChunk Unit)) ≠
      [zeroChunk Unit, zeroChunk Unit] := by
  decide

/-- Claim C4, amended: when `lsml_hm_rehash_if_needed` fails with
OutOfMemory on a well-formed map (chunk list length = chunk count, tail =
last chunk), the arena cursor is rolled back to its pre-rehash value (buffer
size untouched), the chunk count and the tail position are unchanged, and
the first `n_chunks` chunks — the only ones any bounded access ever
inspects — are exactly the original ones; chunks allocated before the
failure may remain linked past the old tail, but they are zeroed, so every
lookup behaves as if the failed rehash never started. -/
theorem C4_rehash_oom_rollback {α : Type} (alloc : lsml_bump_alloc_t)
    (hm : chunkedHM α) (n : Nat) (alloc' : lsml_bump_alloc_t)
    (hm' : chunkedHM α)
    (hlen : hm.chunks.length = hm.nChunks) (htail : hm.tailIdx + 1 = hm.nChunks)
    (hrun : lsml_hm_rehash_if_needed alloc hm n =
      (LSML_ERR_OUT_OF_MEMORY, alloc', hm')) :
    alloc'.offset = alloc.offset ∧ alloc'.size = alloc.size ∧
    hm'.nChunks = hm.nChunks ∧ hm'.tailIdx = hm.tailIdx ∧
    hm'.chunks.take hm.nChunks = hm.chunks ∧
    (∀ c ∈ hm'.chunks.drop hm.nChunks, c = zeroChunk α) ∧
    (∀ key : List Nat, lsml_hm_get_node hm'.chunks hm'.nChunks key =
      lsml_hm_get_node hm.chunks hm.nChunks key) := by
  by_cases h0 : hm.nChunks = 0
  · simp [lsml_hm_rehash_if_needed, h0] at hrun
  by_cases hlf : n + n / 4 ≤ hm.nChunks * LSML_CHUNK_LEN
  · simp [lsml_hm_rehash_if_needed, h0, hlf] at hrun
  rcases hra : @rehashAllocLoop α alloc hm.nChunks [] with ⟨allocF, newPart, ok⟩
  obtain ⟨⟨k, hk⟩, hsz⟩ := @rehashAllocLoop_spec α hm.nChunks alloc []
  rw [hra] at hk hsz
  simp only [List.nil_append] at hk
  cases ok with
  | true => simp [lsml_hm_rehash_if_needed, h0, hlf, hra] at hrun
  | false =>
    simp only [lsml_hm_rehash_if_needed, h0, hlf, hra, if_neg, ite_false] at hrun
    simp only [Prod.mk.injEq] at hrun
    obtain ⟨-, ha, hh⟩ := hrun
    have hbase : hm.chunks.take (hm.tailIdx + 1) = hm.chunks := by
      rw [htail, ← hlen, List.take_length]
    have hc' : hm'.chunks =
        if newPart.isEmpty then hm.chunks
        else hm.chunks.take (hm.tailIdx + 1) ++ newPart := by
      rw [← hh]
    have hn' : hm'.nChunks = hm.nChunks := by rw [← hh]
    have ht' : hm'.tailIdx = hm.tailIdx := by rw [← hh]
    have htake : hm'.chunks.take hm.nChunks = hm.chunks := by
      rw [hc']
      by_cases hne : newPart.isEmpty = true
      · rw [if_pos hne, ← hlen, List.take_length]
      · rw [if_neg hne, hbase, ← hlen, List.take_left]
    have hdrop : ∀ c ∈ hm'.chunks.drop hm.nChunks, c = zeroChunk α := by
      intro c hc
      rw [hc'] at hc
      by_cases hne : newPart.isEmpty = true
      · rw [if_pos hne, ← hlen, List.drop_length] at hc
        simp at hc
      · rw [if_neg hne, hbase, ← hlen, List.drop_left, hk] at hc
        exact List.eq_of_mem_replicate hc
    refine ⟨by rw [← ha], by rw [← ha]; exact hsz, hn', ht', htake, hdrop, ?_⟩
    intro key
    rw [hn']
    exact hm_get_node_take_eq hm.chunks hm'.chunks hm.nChunks
      (Nat.pos_of_ne_zero h0) hlen htake key

/-- Claim C4, witness: the amended theorem applied at the concrete failing
rehash of the counterexample state — the surviving prefix is the original
two chunks and every lookup in the three-chunk post-failure list agrees with
the original two-chunk list. -/
theorem C4_witness :
    ([zeroChunk Unit, zeroChunk Unit] : List (HChunk Unit)).length = 2 ∧
    (∀ key : List Nat,
      lsml_hm_get_node
        [zeroChunk Unit, zeroChunk Unit, zeroChunk Unit] 2 key =
      lsml_hm_get_node [zeroChunk Unit, zeroChunk Unit] 2 key) :=
  ⟨by decide,
    (C4_rehash_oom_rollback ⟨0, 1040⟩
      (⟨[zeroChunk Unit, zeroChunk Unit], 1, 2⟩ : chunkedHM Unit) 104
      ⟨0, 1040⟩ ⟨[zeroChunk Unit, zeroChunk Unit, zeroChunk Unit], 1, 2⟩
      (by decide) (by decide) (by decide)).2.2.2.2.2.2⟩

end LSML
